import Mathlib

/-!
Shallow embedding of the olm local DNS record store:
`src/dns/dns_records.go` (trie-based `DNSRecordStore`) and the flat-map
variant in `src/unnamed/part_002`, together with the Go standard-library and
miekg/dns helpers they call (`strings.ToLower`, `strings.Split`,
`strings.TrimSuffix`, `strings.HasSuffix`, `dns.Fqdn`, `net.IP.To4/To16`,
`net.IP.Equal`, `net.IP.String`, `net.ParseIP`), modelled byte-for-byte.
Go strings are byte slices; every domain byte handled by this code is ASCII,
so a Go string is modelled as a list of characters, and a `net.IP` as the
list of its bytes (each `< 256`).
-/

set_option maxHeartbeats 1600000
set_option synthInstance.maxHeartbeats 400000
set_option maxRecDepth 4000

/-- A Go string, as the list of its bytes (ASCII here). -/
abbrev GoStr := List Char

/-- A Go `net.IP`: the list of its bytes (length 4 or 16 when valid). -/
abbrev IPBytes := List Nat

/-- Shorthand used by concrete witnesses. -/
def gs (s : String) : GoStr := s.toList

/-- One byte of `strings.ToLower` (ASCII range of Go's Unicode lowering:
uppercase A-Z shift by 32, everything else unchanged). -/
def goCharLower (c : Char) : Char :=
  if 65 ≤ c.toNat ∧ c.toNat ≤ 90 then Char.ofNat (c.toNat + 32) else c

/-- `strings.ToLower`. -/
def goToLower (s : GoStr) : GoStr := s.map goCharLower

/-- Association-list lookup, modelling Go map read `m[k]` (`nil` when absent). -/
def alistGet {α β : Type} [DecidableEq α] (l : List (α × β)) (k : α) : Option β :=
  match l with
  | [] => none
  | (k2, v) :: rest => if k2 = k then some v else alistGet rest k

/-- Association-list write, modelling Go map assignment `m[k] = v`. -/
def alistPut {α β : Type} [DecidableEq α] (l : List (α × β)) (k : α) (v : β) :
    List (α × β) :=
  match l with
  | [] => [(k, v)]
  | (k2, v2) :: rest => if k2 = k then (k, v) :: rest else (k2, v2) :: alistPut rest k v

/-- Association-list delete, modelling Go `delete(m, k)`. -/
def alistDel {α β : Type} [DecidableEq α] (l : List (α × β)) (k : α) : List (α × β) :=
  match l with
  | [] => []
  | (k2, v) :: rest => if k2 = k then alistDel rest k else (k2, v) :: alistDel rest k

/-- Prepend a character to the first part of a split result. -/
def consHead (c : Char) (l : List GoStr) : List GoStr :=
  match l with
  | [] => [[c]]
  | p :: ps => (c :: p) :: ps

/-- `strings.Split(s, sep)` for a one-byte separator. -/
def splitSep (sep : Char) : GoStr → List GoStr
  | [] => [[]]
  | c :: rest => if c = sep then [] :: splitSep sep rest else consHead c (splitSep sep rest)

/-- `strings.Join(parts, sep)` for a one-byte separator. -/
def joinSep (sep : Char) : List GoStr → GoStr
  | [] => []
  | [p] => p
  | p :: ps => p ++ sep :: joinSep sep ps

/-- `strings.HasSuffix(s, suf)`. -/
def hasSuffixL (s suf : GoStr) : Bool := suf.isSuffixOf s

/-- `strings.TrimSuffix(s, suf)`. -/
def trimSuffixL (s suf : GoStr) : GoStr :=
  if hasSuffixL s suf then s.take (s.length - suf.length) else s

/-- Count of leading copies of `c`. -/
def leadCount (c : Char) : GoStr → Nat
  | [] => 0
  | x :: xs => if x = c then leadCount c xs + 1 else 0

/-- miekg/dns `IsFqdn`: ends with a dot that is not escaped (an even number of
backslashes precedes the final dot). -/
def isFqdnL (s : GoStr) : Bool :=
  match s.reverse with
  | [] => false
  | c :: rest => c = '.' && (leadCount '\\' rest) % 2 = 0

/-- miekg/dns `Fqdn`. -/
def fqdnL (s : GoStr) : GoStr := if isFqdnL s then s else s ++ ['.']

/-- The manual trailing-dot step at the top of `AddRecord`/`AddPTRRecord`/
`RemoveRecord`: `if len(domain) == 0 || domain[len(domain)-1] != '.' then domain += "."`. -/
def ensureDotL (s : GoStr) : GoStr :=
  match s.getLast? with
  | some c => if c = '.' then s else s ++ ['.']
  | none => s ++ ['.']

/-- The mutator-side normalization: trailing dot, then `strings.ToLower(dns.Fqdn(domain))`. -/
def addNormalize (s : GoStr) : GoStr := goToLower (fqdnL (ensureDotL s))

/-- The query-side normalization in `GetRecords`/`HasRecord`: `strings.ToLower(dns.Fqdn(domain))`. -/
def queryNormalize (s : GoStr) : GoStr := goToLower (fqdnL s)

/-- `strings.ContainsAny(s, "*?")`. -/
def containsWildL (s : GoStr) : Bool := s.any (fun c => c = '*' || c = '?')

/-- `domainToPath` of dns_records.go: lowercase FQDN, drop one trailing dot,
split on dots, reverse the labels. -/
def domainToPathL (domain : GoStr) : List GoStr :=
  let d := goToLower (fqdnL domain)
  let d2 := trimSuffixL d ['.']
  if d2 = [] then [] else (splitSep '.' d2).reverse

/-- The 12-byte prefix of an IPv4-mapped IPv6 address (`v4InV6Prefix`). -/
def v4mapPre : List Nat := [0, 0, 0, 0, 0, 0, 0, 0, 0, 0, 255, 255]

/-- `net.IP.To4`: 4-byte form of an IPv4 address, `none` otherwise. -/
def goTo4 (ip : IPBytes) : Option IPBytes :=
  if ip.length = 4 then some ip
  else if ip.length = 16 ∧ ip.take 12 = v4mapPre then some (ip.drop 12)
  else none

/-- `net.IP.To16`: 16-byte form, `none` for invalid lengths. -/
def goTo16 (ip : IPBytes) : Option IPBytes :=
  if ip.length = 4 then some (v4mapPre ++ ip)
  else if ip.length = 16 then some ip
  else none

/-- `net.IP.Equal`: byte equality up to the 4-byte/16-byte IPv4 forms. -/
def ipEqual (x y : IPBytes) : Bool :=
  if x.length = y.length then x = y
  else if x.length = 4 ∧ y.length = 16 then y.take 12 = v4mapPre && y.drop 12 = x
  else if x.length = 16 ∧ y.length = 4 then x.take 12 = v4mapPre && x.drop 12 = y
  else false

/-- `fmt.Sprintf("%d", b)` for a byte value. -/
def decByte (n : Nat) : GoStr := Nat.toDigits 10 n

/-- One lowercase hex digit (`fmt.Sprintf("%x", v)` for `v < 16`). -/
def hexNibble (n : Nat) : Char :=
  if n < 10 then Char.ofNat (48 + n) else Char.ofNat (87 + n)

/-- Lowercase hex of a 16-bit group without padding (`%x`). -/
def hexGroupStr (v : Nat) : GoStr := Nat.toDigits 16 v

/-- Two-digit lowercase hex of a byte (Go's `hexString` helper). -/
def byteHex (b : Nat) : GoStr := [hexNibble (b / 16 % 16), hexNibble (b % 16)]

/-- The eight 16-bit groups of a 16-byte address. -/
def toGroups : List Nat → List Nat
  | hi :: lo :: rest => (hi * 256 + lo) :: toGroups rest
  | _ => []

/-- Length of the zero-group run starting at the head. -/
def zeroRunLen : List Nat → Nat
  | [] => 0
  | g :: gs => if g = 0 then zeroRunLen gs + 1 else 0

/-- Scan for the leftmost longest zero-group run (start, length). -/
def bestRunGo : List Nat → Nat → (Nat × Nat) → (Nat × Nat)
  | [], _, best => best
  | g :: rest, i, best =>
      let l := zeroRunLen (g :: rest)
      if l > best.2 then bestRunGo rest (i + 1) (i, l) else bestRunGo rest (i + 1) best

/-- The `::` elision run Go's IPv6 `String` picks: leftmost longest zero run,
only when at least two groups long. -/
def ip6BestRun (groups : List Nat) : Nat × Nat :=
  let b := bestRunGo groups 0 (0, 0)
  if b.2 ≤ 1 then (0, 0) else b

/-- `net.IP.String`. -/
def ipStringL (ip : IPBytes) : GoStr :=
  if ip = [] then gs "<nil>"
  else
    match goTo4 ip with
    | some q =>
        match q with
        | [a, b, c, d] =>
            decByte a ++ '.' :: decByte b ++ '.' :: decByte c ++ '.' :: decByte d
        | _ => []
    | none =>
        if ip.length ≠ 16 then '?' :: ip.flatMap byteHex
        else
          let groups := toGroups ip
          let r := ip6BestRun groups
          if r.2 = 0 then joinSep ':' (groups.map hexGroupStr)
          else
            joinSep ':' ((groups.take r.1).map hexGroupStr) ++
              ':' :: ':' :: joinSep ':' ((groups.drop (r.1 + r.2)).map hexGroupStr)

/-- Is `c` an ASCII decimal digit? -/
def isDigitCh (c : Char) : Bool := 48 ≤ c.toNat && c.toNat ≤ 57

/-- Is `c` an ASCII hex digit (either case)? -/
def isHexCh (c : Char) : Bool :=
  isDigitCh c || (97 ≤ c.toNat && c.toNat ≤ 102) || (65 ≤ c.toNat && c.toNat ≤ 70)

/-- Numeric value of a hex digit. -/
def hexVal (c : Char) : Nat :=
  if isDigitCh c then c.toNat - 48
  else if 97 ≤ c.toNat then c.toNat - 87
  else c.toNat - 55

/-- One dotted-quad field of Go's IPv4 parser: 1-3 digits, no leading zero,
value at most 255. -/
def parseV4Field (l : GoStr) : Option Nat :=
  if l = [] then none
  else if 3 < l.length then none
  else if ¬ l.all isDigitCh then none
  else if 1 < l.length ∧ l.head? = some '0' then none
  else
    let v := l.foldl (fun a c => a * 10 + (c.toNat - 48)) 0
    if v ≤ 255 then some v else none

/-- Go's IPv4 literal parser; `net.ParseIP` returns the 16-byte mapped form. -/
def parseIPv4 (l : GoStr) : Option IPBytes :=
  match (splitSep '.' l).mapM parseV4Field with
  | some [a, b, c, d] => some (v4mapPre ++ [a, b, c, d])
  | _ => none

/-- One 16-bit group of Go's IPv6 parser: 1-4 hex digits. -/
def parseHexGroup (l : GoStr) : Option Nat :=
  if l = [] then none
  else if 4 < l.length then none
  else if l.all isHexCh then some (l.foldl (fun a c => a * 16 + hexVal c) 0)
  else none

/-- Split on the two-byte separator `::` (non-overlapping, left to right). -/
def splitCC : GoStr → List GoStr
  | [] => [[]]
  | [c] => [[c]]
  | c1 :: c2 :: rest =>
      if c1 = ':' ∧ c2 = ':' then [] :: splitCC rest
      else consHead c1 (splitCC (c2 :: rest))

/-- Colon-separated hex groups of one side of a `::`; empty side gives no groups. -/
def parseGroups (l : GoStr) : Option (List Nat) :=
  if l = [] then some []
  else (splitSep ':' l).mapM parseHexGroup

/-- Bytes of a group list (big-endian 16-bit groups). -/
def groupsToBytes (gs : List Nat) : List Nat :=
  gs.flatMap (fun g => [g / 256, g % 256])

/-- Go's IPv6 literal parser (dotted IPv4 tails never occur in this code's
inputs, which contain no dot, and are rejected as non-hex groups). -/
def parseIPv6 (l : GoStr) : Option IPBytes :=
  match splitCC l with
  | [one] =>
      match (splitSep ':' one).mapM parseHexGroup with
      | some gls => if gls.length = 8 then some (groupsToBytes gls) else none
      | none => none
  | [lft, rgt] =>
      match parseGroups lft, parseGroups rgt with
      | some g1, some g2 =>
          if g1.length + g2.length ≤ 7 then
            some (groupsToBytes (g1 ++ List.replicate (8 - g1.length - g2.length) 0 ++ g2))
          else none
      | _, _ => none
  | _ => none

/-- `net.ParseIP`: the first dot or colon picks the family. -/
def parseIP (l : GoStr) : Option IPBytes :=
  match l.find? (fun c => c = '.' || c = ':') with
  | some '.' => parseIPv4 l
  | some ':' => parseIPv6 l
  | _ => none

/-- `matchWildcardInternal` away from pattern position 0: `*` matches zero or
more bytes, `?` exactly one, other bytes literally, anchored at both ends.
The source's star case backtracks by either skipping the star or consuming one
domain byte and keeping the star; that search succeeds exactly when the rest of
the pattern matches some suffix of the domain, which is how the star case is
phrased here (structural recursion on the pattern, so the kernel can run it). -/
def matchFrom : GoStr → GoStr → Bool
  | [], d => d.isEmpty
  | p :: ps, d =>
    if p = '*' then
      d.tails.any (fun y => matchFrom ps y)
    else
      match d with
      | [] => false
      | c :: ds => if p = '?' then matchFrom ps ds else p = c && matchFrom ps ds

/-- The anchored `*.`-edge loop of `matchWildcardInternal`: the leading star
must consume at least one byte before the rest of the pattern is tried. -/
def matchAnchored (ps : GoStr) : GoStr → Bool
  | [] => false
  | _ :: ds => matchFrom ps ds || matchAnchored ps ds

/-- `matchWildcard` of dns_records.go. -/
def matchWildcardL (pattern domain : GoStr) : Bool :=
  match pattern with
  | '*' :: '.' :: ps => matchAnchored ('.' :: ps) domain
  | p => matchFrom p domain

/-- The literal `".in-addr.arpa."` suffix. -/
def inAddrSuf : GoStr := gs ".in-addr.arpa."

/-- The literal `".ip6.arpa."` suffix. -/
def ip6Suf : GoStr := gs ".ip6.arpa."

/-- Concatenate 4-label chunks (the nibble regrouping loop of `reverseDNSToIP`). -/
def groupsOf4 : List GoStr → List GoStr
  | a :: b :: c :: d :: rest => (a ++ b ++ c ++ d) :: groupsOf4 rest
  | _ => []

/-- `reverseDNSToIP` of dns_records.go. -/
def reverseDNSToIP (domain : GoStr) : Option IPBytes :=
  let d := goToLower (fqdnL domain)
  if hasSuffixL d inAddrSuf then
    let ipPart := trimSuffixL d inAddrSuf
    let parts := splitSep '.' ipPart
    if parts.length = 4 then parseIP (joinSep '.' parts.reverse) else none
  else if hasSuffixL d ip6Suf then
    let ipPart := trimSuffixL d ip6Suf
    let parts := splitSep '.' ipPart
    if parts.length = 32 then parseIP (joinSep ':' (groupsOf4 parts.reverse)) else none
  else none

/-- `IPToReverseDNS` of dns_records.go. -/
def IPToReverseDNS (ip : IPBytes) : GoStr :=
  match goTo4 ip with
  | some q =>
      match q with
      | [a, b, c, d] =>
          fqdnL (decByte d ++ '.' :: decByte c ++ '.' :: decByte b ++ '.' :: decByte a
            ++ gs ".in-addr.arpa")
      | _ => []
  | none =>
      match goTo16 ip with
      | some b16 =>
          let nibbles := b16.reverse.flatMap
            (fun b => [[hexNibble (b % 16)], [hexNibble (b / 16 % 16)]])
          fqdnL (joinSep '.' nibbles ++ gs ".ip6.arpa")
      | none => []

/-- `recordSet`: the A and AAAA lists of one domain or pattern. -/
structure RecordSet where
  A : List IPBytes
  AAAA : List IPBytes
deriving DecidableEq, Repr

/-- `domainTrieNode`. -/
inductive TrieNode : Type where
  | node (children : List (GoStr × TrieNode)) (data : Option RecordSet)

/-- Child map of a node. -/
def TrieNode.children : TrieNode → List (GoStr × TrieNode)
  | .node ch _ => ch

/-- Record set of a node. -/
def TrieNode.data : TrieNode → Option RecordSet
  | .node _ d => d

/-- The freshly allocated node of AddRecord's insert loop. -/
def emptyNode : TrieNode := .node [] none

/-- Walk a label path; `none` mirrors the `node == nil` break. -/
def trieFind : TrieNode → List GoStr → Option TrieNode
  | n, [] => some n
  | n, l :: ls =>
      match alistGet n.children l with
      | none => none
      | some c => trieFind c ls

/-- The record set found at a path, when the node and its data exist. -/
def trieDataAt (t : TrieNode) (p : List GoStr) : Option RecordSet :=
  match trieFind t p with
  | none => none
  | some n => n.data

/-- AddRecord's trie walk: create missing children along the path, then update
the terminal node's data. -/
def trieAdd : TrieNode → List GoStr → (Option RecordSet → RecordSet) → TrieNode
  | n, [], f => .node n.children (some (f n.data))
  | n, l :: ls, f =>
      let child := (alistGet n.children l).getD emptyNode
      .node (alistPut n.children l (trieAdd child ls f)) n.data

/-- RemoveRecord's in-place data update: rewrite the data of the node at the
path, leaving the trie unchanged when the path is absent. -/
def trieSetData : TrieNode → List GoStr → Option RecordSet → TrieNode
  | n, [], nd => .node n.children nd
  | n, l :: ls, nd =>
      match alistGet n.children l with
      | none => n
      | some c => .node (alistPut n.children l (trieSetData c ls nd)) n.data

/-- `dns.TypeA`. -/
def typeA : Nat := 1

/-- `dns.TypeAAAA`. -/
def typeAAAA : Nat := 28

/-- `dns.TypePTR`. -/
def typePTR : Nat := 12

/-- `removeIP`: drop every occurrence equal to `toRemove`. -/
def removeIP (ips : List IPBytes) (toRemove : IPBytes) : List IPBytes :=
  ips.filter (fun ip => ¬ ipEqual ip toRemove)

/-- The trie-based `DNSRecordStore` of dns_records.go (the lock is immaterial
in this sequential model). -/
structure DNSRecordStore where
  root : TrieNode
  wildcards : List (GoStr × RecordSet)
  ptrRecords : List (GoStr × GoStr)

/-- `NewDNSRecordStore`. -/
def newStore : DNSRecordStore :=
  { root := emptyNode, wildcards := [], ptrRecords := [] }

/-- Append `ip` to the A or AAAA list. -/
def appendIP (rs : RecordSet) (ip : IPBytes) (isV4 : Bool) : RecordSet :=
  if isV4 then { rs with A := rs.A ++ [ip] } else { rs with AAAA := rs.AAAA ++ [ip] }

/-- `AddRecord` (trie store); `none` models the InvalidAddress error return,
on which the receiver is unchanged. -/
def addRecord (s : DNSRecordStore) (domain : GoStr) (ip : IPBytes) :
    Option DNSRecordStore :=
  let d := addNormalize domain
  let isWildcard := containsWildL d
  let isV4 := (goTo4 ip).isSome
  if ¬ isV4 ∧ (goTo16 ip).isNone then none
  else if isWildcard then
    let rs := ((alistGet s.wildcards d).getD { A := [], AAAA := [] })
    some { s with wildcards := alistPut s.wildcards d (appendIP rs ip isV4) }
  else
    let path := domainToPathL d
    some { s with
      root := trieAdd s.root path (fun od => appendIP (od.getD { A := [], AAAA := [] }) ip isV4),
      ptrRecords := alistPut s.ptrRecords (ipStringL ip) d }

/-- `AddRecord` as a total state transformer (error leaves the store as is). -/
def addRecordRun (s : DNSRecordStore) (domain : GoStr) (ip : IPBytes) : DNSRecordStore :=
  (addRecord s domain ip).getD s

/-- `AddPTRRecord` (trie store). -/
def addPTRRecord (s : DNSRecordStore) (ip : IPBytes) (domain : GoStr) : DNSRecordStore :=
  { s with ptrRecords := alistPut s.ptrRecords (ipStringL ip) (addNormalize domain) }

/-- Delete the PTR entry for `key` only when it still points at `d`. -/
def ptrDelIfOwned (m : List (GoStr × GoStr)) (key d : GoStr) : List (GoStr × GoStr) :=
  match alistGet m key with
  | some v => if v = d then alistDel m key else m
  | none => m

/-- `RemoveRecord` (trie store); `none` for `ip` models the Go `nil` argument. -/
def removeRecord (s : DNSRecordStore) (domain : GoStr) (ipArg : Option IPBytes) :
    DNSRecordStore :=
  let d := addNormalize domain
  let isWildcard := containsWildL d
  if isWildcard then
    match ipArg with
    | none => { s with wildcards := alistDel s.wildcards d }
    | some ip =>
        match alistGet s.wildcards d with
        | none => s
        | some rs =>
            let rs2 := if (goTo4 ip).isSome then { rs with A := removeIP rs.A ip }
                       else { rs with AAAA := removeIP rs.AAAA ip }
            if rs2.A = [] ∧ rs2.AAAA = [] then { s with wildcards := alistDel s.wildcards d }
            else { s with wildcards := alistPut s.wildcards d rs2 }
  else
    let path := domainToPathL d
    match trieDataAt s.root path with
    | none => s
    | some rs =>
        match ipArg with
        | none =>
            let p1 := rs.A.foldl (fun m a => ptrDelIfOwned m (ipStringL a) d) s.ptrRecords
            let p2 := rs.AAAA.foldl (fun m a => ptrDelIfOwned m (ipStringL a) d) p1
            { s with root := trieSetData s.root path none, ptrRecords := p2 }
        | some ip =>
            let rs2 := if (goTo4 ip).isSome then { rs with A := removeIP rs.A ip }
                       else { rs with AAAA := removeIP rs.AAAA ip }
            let p2 := ptrDelIfOwned s.ptrRecords (ipStringL ip) d
            let nd := if rs2.A = [] ∧ rs2.AAAA = [] then none else some rs2
            { s with root := trieSetData s.root path nd, ptrRecords := p2 }

/-- `RemovePTRRecord` (trie store). -/
def removePTRRecord (s : DNSRecordStore) (ip : IPBytes) : DNSRecordStore :=
  { s with ptrRecords := alistDel s.ptrRecords (ipStringL ip) }

/-- `GetRecords` (trie store). -/
def getRecords (s : DNSRecordStore) (domain : GoStr) (recordType : Nat) : List IPBytes :=
  let d := queryNormalize domain
  let path := domainToPathL d
  let exact :=
    match trieDataAt s.root path with
    | some rs => if recordType = typeA then rs.A else rs.AAAA
    | none => []
  if exact ≠ [] then exact
  else
    s.wildcards.foldl
      (fun acc pr =>
        if matchWildcardL pr.1 d then
          acc ++ (if recordType = typeA then pr.2.A else pr.2.AAAA)
        else acc) []

/-- `GetPTRRecord` (trie store): the stored FQDN and a found flag. -/
def getPTRRecord (s : DNSRecordStore) (domain : GoStr) : GoStr × Bool :=
  match reverseDNSToIP domain with
  | none => ([], false)
  | some ip =>
      match alistGet s.ptrRecords (ipStringL ip) with
      | some d => (d, true)
      | none => ([], false)

/-- `HasRecord` (trie store). -/
def hasRecord (s : DNSRecordStore) (domain : GoStr) (recordType : Nat) : Bool :=
  let d := queryNormalize domain
  let path := domainToPathL d
  let exact : Bool :=
    match trieDataAt s.root path with
    | some rs =>
        (recordType = typeA && rs.A ≠ []) || (recordType = typeAAAA && rs.AAAA ≠ [])
    | none => false
  if exact then true
  else
    s.wildcards.any (fun pr =>
      matchWildcardL pr.1 d &&
        ((recordType = typeA && pr.2.A ≠ []) || (recordType = typeAAAA && pr.2.AAAA ≠ [])))

/-- `HasPTRRecord` (trie store). -/
def hasPTRRecord (s : DNSRecordStore) (domain : GoStr) : Bool :=
  match reverseDNSToIP domain with
  | none => false
  | some ip => (alistGet s.ptrRecords (ipStringL ip)).isSome

/-- `Clear` (trie store). -/
def clearStore (_s : DNSRecordStore) : DNSRecordStore := newStore

namespace Flat

/-- The flat-map `DNSRecordStore` of src/unnamed/part_002. -/
structure Store where
  aRecords : List (GoStr × List IPBytes)
  aaaaRecords : List (GoStr × List IPBytes)
  aWildcards : List (GoStr × List IPBytes)
  aaaaWildcards : List (GoStr × List IPBytes)
  ptrRecords : List (GoStr × GoStr)

/-- `NewDNSRecordStore` (flat). -/
def newStore : Store :=
  { aRecords := [], aaaaRecords := [], aWildcards := [], aaaaWildcards := [], ptrRecords := [] }

/-- `AddRecord` (flat); `none` models the InvalidAddress error return. -/
def addRecord (s : Store) (domain : GoStr) (ip : IPBytes) : Option Store :=
  let d := addNormalize domain
  let isWildcard := containsWildL d
  if (goTo4 ip).isSome then
    if isWildcard then
      some { s with aWildcards := alistPut s.aWildcards d ((alistGet s.aWildcards d).getD [] ++ [ip]) }
    else
      some { s with
        aRecords := alistPut s.aRecords d ((alistGet s.aRecords d).getD [] ++ [ip]),
        ptrRecords := alistPut s.ptrRecords (ipStringL ip) d }
  else if (goTo16 ip).isSome then
    if isWildcard then
      some { s with aaaaWildcards := alistPut s.aaaaWildcards d ((alistGet s.aaaaWildcards d).getD [] ++ [ip]) }
    else
      some { s with
        aaaaRecords := alistPut s.aaaaRecords d ((alistGet s.aaaaRecords d).getD [] ++ [ip]),
        ptrRecords := alistPut s.ptrRecords (ipStringL ip) d }
  else none

/-- `AddRecord` (flat) as a total state transformer. -/
def addRecordRun (s : Store) (domain : GoStr) (ip : IPBytes) : Store :=
  (addRecord s domain ip).getD s

/-- `AddPTRRecord` (flat). -/
def addPTRRecord (s : Store) (ip : IPBytes) (domain : GoStr) : Store :=
  { s with ptrRecords := alistPut s.ptrRecords (ipStringL ip) (addNormalize domain) }

/-- The PTR teardown loop of the flat RemoveRecord's nil-ip branch. -/
def ptrSweep (m : List (GoStr × GoStr)) (ips : List IPBytes) (d : GoStr) :
    List (GoStr × GoStr) :=
  ips.foldl (fun acc a => ptrDelIfOwned acc (ipStringL a) d) m

/-- `RemoveRecord` (flat). -/
def removeRecord (s : Store) (domain : GoStr) (ipArg : Option IPBytes) : Store :=
  let d := addNormalize domain
  let isWildcard := containsWildL d
  match ipArg with
  | none =>
      if isWildcard then
        { s with aWildcards := alistDel s.aWildcards d, aaaaWildcards := alistDel s.aaaaWildcards d }
      else
        let p1 :=
          match alistGet s.aRecords d with
          | some ips => ptrSweep s.ptrRecords ips d
          | none => s.ptrRecords
        let p2 :=
          match alistGet s.aaaaRecords d with
          | some ips => ptrSweep p1 ips d
          | none => p1
        { s with aRecords := alistDel s.aRecords d, aaaaRecords := alistDel s.aaaaRecords d,
                 ptrRecords := p2 }
  | some ip =>
      if (goTo4 ip).isSome then
        if isWildcard then
          match alistGet s.aWildcards d with
          | some ips =>
              let ips2 := removeIP ips ip
              if ips2 = [] then { s with aWildcards := alistDel s.aWildcards d }
              else { s with aWildcards := alistPut s.aWildcards d ips2 }
          | none => s
        else
          match alistGet s.aRecords d with
          | some ips =>
              let ips2 := removeIP ips ip
              let ar := if ips2 = [] then alistDel s.aRecords d else alistPut s.aRecords d ips2
              { s with aRecords := ar, ptrRecords := ptrDelIfOwned s.ptrRecords (ipStringL ip) d }
          | none => s
      else if (goTo16 ip).isSome then
        if isWildcard then
          match alistGet s.aaaaWildcards d with
          | some ips =>
              let ips2 := removeIP ips ip
              if ips2 = [] then { s with aaaaWildcards := alistDel s.aaaaWildcards d }
              else { s with aaaaWildcards := alistPut s.aaaaWildcards d ips2 }
          | none => s
        else
          match alistGet s.aaaaRecords d with
          | some ips =>
              let ips2 := removeIP ips ip
              let ar := if ips2 = [] then alistDel s.aaaaRecords d else alistPut s.aaaaRecords d ips2
              { s with aaaaRecords := ar, ptrRecords := ptrDelIfOwned s.ptrRecords (ipStringL ip) d }
          | none => s
      else s

/-- `RemovePTRRecord` (flat). -/
def removePTRRecord (s : Store) (ip : IPBytes) : Store :=
  { s with ptrRecords := alistDel s.ptrRecords (ipStringL ip) }

/-- `GetRecords` (flat). -/
def getRecords (s : Store) (domain : GoStr) (recordType : Nat) : List IPBytes :=
  let d := queryNormalize domain
  if recordType = typeA then
    match alistGet s.aRecords d with
    | some ips => ips
    | none =>
        s.aWildcards.foldl
          (fun acc pr => if matchWildcardL pr.1 d then acc ++ pr.2 else acc) []
  else if recordType = typeAAAA then
    match alistGet s.aaaaRecords d with
    | some ips => ips
    | none =>
        s.aaaaWildcards.foldl
          (fun acc pr => if matchWildcardL pr.1 d then acc ++ pr.2 else acc) []
  else []

/-- `GetPTRRecord` (flat). -/
def getPTRRecord (s : Store) (domain : GoStr) : GoStr × Bool :=
  match reverseDNSToIP domain with
  | none => ([], false)
  | some ip =>
      match alistGet s.ptrRecords (ipStringL ip) with
      | some d => (d, true)
      | none => ([], false)

/-- `HasRecord` (flat). -/
def hasRecord (s : Store) (domain : GoStr) (recordType : Nat) : Bool :=
  let d := queryNormalize domain
  if recordType = typeA then
    (alistGet s.aRecords d).isSome || s.aWildcards.any (fun pr => matchWildcardL pr.1 d)
  else if recordType = typeAAAA then
    (alistGet s.aaaaRecords d).isSome || s.aaaaWildcards.any (fun pr => matchWildcardL pr.1 d)
  else false

/-- `HasPTRRecord` (flat). -/
def hasPTRRecord (s : Store) (domain : GoStr) : Bool :=
  match reverseDNSToIP domain with
  | none => false
  | some ip => (alistGet s.ptrRecords (ipStringL ip)).isSome

/-- `Clear` (flat). -/
def clearStore (_s : Store) : Store := newStore

end Flat

/-- One call against a record store. -/
inductive Op : Type where
  | add (domain : GoStr) (ip : IPBytes)
  | addPtr (ip : IPBytes) (domain : GoStr)
  | remove (domain : GoStr) (ipArg : Option IPBytes)
  | removePtr (ip : IPBytes)
  | clear

/-- Apply one call to the trie store. -/
def applyOp (s : DNSRecordStore) : Op → DNSRecordStore
  | .add d ip => addRecordRun s d ip
  | .addPtr ip d => addPTRRecord s ip d
  | .remove d ip => removeRecord s d ip
  | .removePtr ip => removePTRRecord s ip
  | .clear => clearStore s

/-- Apply one call to the flat store. -/
def applyOpF (s : Flat.Store) : Op → Flat.Store
  | .add d ip => Flat.addRecordRun s d ip
  | .addPtr ip d => Flat.addPTRRecord s ip d
  | .remove d ip => Flat.removeRecord s d ip
  | .removePtr ip => Flat.removePTRRecord s ip
  | .clear => Flat.clearStore s

/-- Run a call sequence from the fresh trie store. -/
def runOps (ops : List Op) : DNSRecordStore := ops.foldl applyOp newStore

/-- Run a call sequence from the fresh flat store. -/
def runOpsF (ops : List Op) : Flat.Store := ops.foldl applyOpF Flat.newStore

/-- The `qtype` list of a record set, for qtype A or AAAA. -/
def qtypeList (recordType : Nat) (rs : RecordSet) : List IPBytes :=
  if recordType = typeA then rs.A
  else if recordType = typeAAAA then rs.AAAA
  else []

/-- The exact-trie answer for a query: the `qtype` list stored at the label
path of the normalized name. -/
def exactRecords (s : DNSRecordStore) (domain : GoStr) (recordType : Nat) : List IPBytes :=
  match trieDataAt s.root (domainToPathL (queryNormalize domain)) with
  | some rs => qtypeList recordType rs
  | none => []

/-- The wildcard answer for a query: concatenation, in table order, of the
`qtype` lists of every wildcard entry whose pattern matches the normalized
name; each entry contributes once. -/
def wildcardRecords (s : DNSRecordStore) (domain : GoStr) (recordType : Nat) : List IPBytes :=
  (s.wildcards.filter (fun pr => matchWildcardL pr.1 (queryNormalize domain))).flatMap
    (fun pr => qtypeList recordType pr.2)

theorem foldl_if_append {α β : Type} (m : α → Bool) (g : α → List β) :
    ∀ (l : List α) (acc : List β),
      l.foldl (fun acc x => if m x then acc ++ g x else acc) acc
        = acc ++ (l.filter m).flatMap g := by
  intro l
  induction l with
  | nil => intro acc; simp
  | cons a t ih =>
      intro acc
      by_cases h : m a = true
      · simp [List.foldl_cons, h, ih, List.filter_cons]
      · simp only [Bool.not_eq_true] at h
        simp [List.foldl_cons, h, ih, List.filter_cons]

theorem flatMap_filter_ne_nil_iff {α β : Type} (m : α → Bool) (g : α → List β) (l : List α) :
    (l.filter m).flatMap g ≠ [] ↔ ∃ x ∈ l, m x = true ∧ g x ≠ [] := by
  induction l with
  | nil => simp
  | cons a t ih =>
      by_cases h : m a = true
      · by_cases hg : g a = []
        · simp [List.filter_cons, h, hg, ih]
        · simp [List.filter_cons, h, hg]
      · simp only [Bool.not_eq_true] at h
        simp [List.filter_cons, h, ih]

/-- Helper: `GetRecords` is the exact list when non-empty, else the wildcard
concatenation. -/
theorem getRecords_eq (s : DNSRecordStore) (domain : GoStr)
    (recordType : Nat) (h : recordType = typeA ∨ recordType = typeAAAA) :
    getRecords s domain recordType =
      if exactRecords s domain recordType = [] then wildcardRecords s domain recordType
      else exactRecords s domain recordType := by
  unfold getRecords exactRecords wildcardRecords qtypeList
  rcases h with h | h <;> subst h <;>
    cases htd : trieDataAt s.root (domainToPathL (queryNormalize domain)) <;>
      simp only [htd, typeA, typeAAAA] <;>
      norm_num <;>
      rw [foldl_if_append] <;>
      simp only [List.nil_append]

/-- Concrete A-record addresses used by witnesses. -/
def ipA1 : IPBytes := [10, 0, 0, 1]

/-- Second concrete A-record address. -/
def ipA2 : IPBytes := [10, 0, 0, 2]

/-- Concrete AAAA-record address (2001:db8::1). -/
def ip6a : IPBytes := [32, 1, 13, 184, 0, 0, 0, 0, 0, 0, 0, 0, 0, 0, 0, 1]

/-- A store holding one wildcard entry and one exact entry (spec scenario S1). -/
def storeS1 : DNSRecordStore :=
  addRecordRun (addRecordRun newStore (gs "*.autoco.internal") ipA1)
    (gs "exact.autoco.internal") ipA2

/-- C1: for qtype A or AAAA, `GetRecords` returns the exact-trie list at the
normalized name whenever that list is non-empty (wildcards are not consulted),
and otherwise the concatenation of the qtype lists of every matching wildcard
entry, each matching entry contributing exactly once with its addresses in
insertion order, nil (the empty list) when no entry matches or all matching
lists are empty. -/
theorem getRecords_exact_then_wildcards (s : DNSRecordStore) (domain : GoStr)
    (recordType : Nat) (h : recordType = typeA ∨ recordType = typeAAAA) :
    getRecords s domain recordType =
      if exactRecords s domain recordType = [] then wildcardRecords s domain recordType
      else exactRecords s domain recordType :=
  getRecords_eq s domain recordType h

/-- Witness: C1 at a concrete store and query. -/
theorem getRecords_exact_then_wildcards_witness :
    (typeA = typeA ∨ typeA = typeAAAA) ∧
      getRecords storeS1 (gs "host.autoco.internal.") typeA =
        (if exactRecords storeS1 (gs "host.autoco.internal.") typeA = []
         then wildcardRecords storeS1 (gs "host.autoco.internal.") typeA
         else exactRecords storeS1 (gs "host.autoco.internal.") typeA) ∧
      getRecords storeS1 (gs "host.autoco.internal.") typeA = [ipA1] :=
  ⟨Or.inl rfl,
   getRecords_exact_then_wildcards storeS1 (gs "host.autoco.internal.") typeA (Or.inl rfl),
   by decide⟩

/-- Helper: `HasRecord` holds exactly when the exact list is non-empty or some
matching wildcard entry has a non-empty qtype list. -/
theorem hasRecord_eq (s : DNSRecordStore) (domain : GoStr) (recordType : Nat)
    (h : recordType = typeA ∨ recordType = typeAAAA) :
    hasRecord s domain recordType = true ↔
      (exactRecords s domain recordType ≠ [] ∨
        ∃ pr ∈ s.wildcards,
          matchWildcardL pr.1 (queryNormalize domain) = true ∧ qtypeList recordType pr.2 ≠ []) := by
  unfold hasRecord exactRecords qtypeList
  rcases h with h | h <;> subst h <;>
    cases htd : trieDataAt s.root (domainToPathL (queryNormalize domain)) <;>
      simp [htd, typeA, typeAAAA, List.any_eq_true]

/-- Helper: the wildcard concatenation is non-empty exactly when some matching
entry has a non-empty qtype list. -/
theorem wildcardRecords_ne_nil_iff (s : DNSRecordStore) (domain : GoStr) (recordType : Nat) :
    wildcardRecords s domain recordType ≠ [] ↔
      ∃ pr ∈ s.wildcards,
        matchWildcardL pr.1 (queryNormalize domain) = true ∧ qtypeList recordType pr.2 ≠ [] := by
  unfold wildcardRecords
  exact flatMap_filter_ne_nil_iff _ _ _

/-- C7: for qtype A or AAAA, `HasRecord` answers true exactly when
`GetRecords` answers a non-empty list. -/
theorem hasRecord_iff_getRecords_ne_nil (s : DNSRecordStore) (domain : GoStr)
    (recordType : Nat) (h : recordType = typeA ∨ recordType = typeAAAA) :
    hasRecord s domain recordType = true ↔ getRecords s domain recordType ≠ [] := by
  rw [getRecords_eq s domain recordType h, hasRecord_eq s domain recordType h,
    ← wildcardRecords_ne_nil_iff s domain recordType]
  by_cases he : exactRecords s domain recordType = [] <;> simp [he]

/-- Witness: C7 at a concrete store and query. -/
theorem hasRecord_iff_getRecords_ne_nil_witness :
    (typeA = typeA ∨ typeA = typeAAAA) ∧
      (hasRecord storeS1 (gs "host.autoco.internal.") typeA = true ↔
        getRecords storeS1 (gs "host.autoco.internal.") typeA ≠ []) ∧
      hasRecord storeS1 (gs "host.autoco.internal.") typeA = true :=
  ⟨Or.inl rfl,
   hasRecord_iff_getRecords_ne_nil storeS1 (gs "host.autoco.internal.") typeA (Or.inl rfl),
   by decide⟩

/-- A store holding a single exact AAAA record. -/
def store6 : DNSRecordStore := addRecordRun newStore (gs "a.") ip6a

/-- C10: in the trie store, `GetRecords` treats every record type other than A
as AAAA, while `HasRecord` answers false for every type outside A and AAAA;
hence for qtype PTR `HasRecord` can be false while `GetRecords` is non-empty,
as the concrete store shows. -/
theorem getRecords_hasRecord_non_a_qtype :
    (∀ (s : DNSRecordStore) (domain : GoStr) (rt : Nat), rt ≠ typeA →
        getRecords s domain rt = getRecords s domain typeAAAA) ∧
    (∀ (s : DNSRecordStore) (domain : GoStr) (rt : Nat), rt ≠ typeA → rt ≠ typeAAAA →
        hasRecord s domain rt = false) ∧
    (getRecords store6 (gs "a.") typePTR = [ip6a] ∧
      hasRecord store6 (gs "a.") typePTR = false) := by
  refine ⟨?_, ?_, by decide, by decide⟩
  · intro s domain rt h
    unfold getRecords
    have h28 : ¬ (typeAAAA = typeA) := by simp [typeA, typeAAAA]
    simp only [if_neg h, if_neg h28]
  · intro s domain rt h1 h2
    unfold hasRecord
    cases htd : trieDataAt s.root (domainToPathL (queryNormalize domain)) <;>
      simp [htd, h1, h2]

/-- Witness: C10's universally quantified parts at qtype PTR. -/
theorem getRecords_hasRecord_non_a_qtype_witness :
    (typePTR ≠ typeA ∧ typePTR ≠ typeAAAA) ∧
      getRecords store6 (gs "a.") typePTR = getRecords store6 (gs "a.") typeAAAA ∧
      hasRecord store6 (gs "a.") typePTR = false :=
  ⟨⟨by decide, by decide⟩,
   getRecords_hasRecord_non_a_qtype.1 store6 (gs "a.") typePTR (by decide),
   getRecords_hasRecord_non_a_qtype.2.1 store6 (gs "a.") typePTR (by decide) (by decide)⟩

/-- A wildcard-free string: no `*` and no `?` byte. -/
@[reducible]
def wildFree (l : GoStr) : Prop := ∀ c ∈ l, c ≠ '*' ∧ c ≠ '?'

/-- A wildcard-free pattern matches exactly itself. -/
theorem matchFrom_literal (p : GoStr) (hp : wildFree p) (d : GoStr) :
    matchFrom p d = true ↔ p = d := by
  induction p generalizing d with
  | nil => cases d <;> simp [matchFrom]
  | cons c cs ih =>
      obtain ⟨hc1, hc2⟩ := hp c (by simp)
      cases d with
      | nil => simp [matchFrom, hc1, hc2]
      | cons e es =>
          have ih2 := ih (fun x hx => hp x (List.mem_cons_of_mem _ hx)) es
          simp [matchFrom, hc1, hc2, ih2, List.cons.injEq]

/-- The anchored loop accepts a domain that is a non-empty prefix glued to a
suffix the rest of the pattern accepts. -/
theorem matchAnchored_of_suffix (ps : GoStr) :
    ∀ (x y : GoStr), x ≠ [] → matchFrom ps y = true → matchAnchored ps (x ++ y) = true := by
  intro x
  induction x with
  | nil => intro y h; exact absurd rfl h
  | cons a xs ih =>
      intro y _ hm
      show (matchFrom ps (xs ++ y) || matchAnchored ps (xs ++ y)) = true
      cases hxs : xs with
      | nil => simp [hxs] at hm ⊢; simp [hm]
      | cons b bs =>
          have h3 := ih y (by simp [hxs]) hm
          rw [hxs] at h3
          rw [Bool.or_eq_true]
          exact Or.inr h3

/-- The anchored loop rejects every domain shorter than a wildcard-free rest
of the pattern. -/
theorem matchAnchored_literal_short (ps : GoStr) (hp : wildFree ps) :
    ∀ (d : GoStr), d.length < ps.length → matchAnchored ps d = false := by
  intro d
  induction d with
  | nil => intro _; rfl
  | cons a ds ih =>
      intro hlen
      show (matchFrom ps ds || matchAnchored ps ds) = false
      have h1 : matchFrom ps ds = false := by
        rcases hm : matchFrom ps ds with _ | _
        · rfl
        · exfalso
          have := (matchFrom_literal ps hp ds).mp hm
          have : ps.length = ds.length := by rw [this]
          simp [List.length_cons] at hlen
          omega
      have h2 : matchAnchored ps ds = false := ih (by simp [List.length_cons] at hlen; omega)
      simp [h1, h2]

/-- C2: for a non-empty wildcard-free suffix `s`, the pattern `*.` ++ `s`
matches `x` ++ `.` ++ `s` for every non-empty `x` (the anchored leading star
consumes at least one byte) and never matches `s` itself. -/
theorem matchWildcard_anchored_star (s : GoStr) (_hs : s ≠ []) (hw : wildFree s) :
    (∀ x : GoStr, x ≠ [] → matchWildcardL ('*' :: '.' :: s) (x ++ '.' :: s) = true) ∧
      matchWildcardL ('*' :: '.' :: s) s = false := by
  constructor
  · intro x hx
    show matchAnchored ('.' :: s) (x ++ '.' :: s) = true
    apply matchAnchored_of_suffix ('.' :: s) x ('.' :: s) hx
    refine (matchFrom_literal ('.' :: s) ?_ ('.' :: s)).mpr rfl
    intro c hc
    rcases List.mem_cons.mp hc with rfl | hc2
    · exact ⟨by decide, by decide⟩
    · exact hw c hc2
  · show matchAnchored ('.' :: s) s = false
    apply matchAnchored_literal_short ('.' :: s) ?_ s (by simp)
    intro c hc
    rcases List.mem_cons.mp hc with rfl | hc2
    · exact ⟨by decide, by decide⟩
    · exact hw c hc2

/-- Witness: C2 on the `*.autoco.internal.` pattern of the spec. -/
theorem matchWildcard_anchored_star_witness :
    (gs "autoco.internal." ≠ [] ∧ wildFree (gs "autoco.internal.")) ∧
      matchWildcardL (gs "*.autoco.internal.") (gs "host.autoco.internal.") = true ∧
      matchWildcardL (gs "*.autoco.internal.") (gs "a.b.autoco.internal.") = true ∧
      matchWildcardL (gs "*.autoco.internal.") (gs "autoco.internal.") = false := by
  have h := matchWildcard_anchored_star (gs "autoco.internal.") (by decide) (by decide)
  exact ⟨⟨by decide, by decide⟩, h.1 (gs "host") (by decide), h.1 (gs "a.b") (by decide), h.2⟩

@[simp]
theorem TrieNode.children_node (ch : List (GoStr × TrieNode)) (dt : Option RecordSet) :
    (TrieNode.node ch dt).children = ch := rfl

@[simp]
theorem TrieNode.data_node (ch : List (GoStr × TrieNode)) (dt : Option RecordSet) :
    (TrieNode.node ch dt).data = dt := rfl

theorem alistGet_put_eq {α β : Type} [DecidableEq α] (l : List (α × β)) (k : α) (v : β) :
    alistGet (alistPut l k v) k = some v := by
  induction l with
  | nil => simp [alistPut, alistGet]
  | cons a t ih =>
      by_cases h : a.1 = k
      · simp [alistPut, h, alistGet]
      · simp [alistPut, h, alistGet, ih]

theorem alistGet_put_ne {α β : Type} [DecidableEq α] (l : List (α × β)) (k k2 : α) (v : β)
    (h : k2 ≠ k) : alistGet (alistPut l k v) k2 = alistGet l k2 := by
  have h2 : ¬ (k = k2) := Ne.symm h
  induction l with
  | nil => simp [alistPut, alistGet, h2]
  | cons a t ih =>
      by_cases ha : a.1 = k
      · subst ha
        simp [alistPut, alistGet, h2]
      · simp [alistPut, ha, alistGet, ih]

theorem alistGet_del_eq {α β : Type} [DecidableEq α] (l : List (α × β)) (k : α) :
    alistGet (alistDel l k) k = none := by
  induction l with
  | nil => simp [alistDel, alistGet]
  | cons a t ih =>
      by_cases h : a.1 = k
      · simp [alistDel, h, ih]
      · simp [alistDel, h, alistGet, ih]

theorem alistGet_del_ne {α β : Type} [DecidableEq α] (l : List (α × β)) (k k2 : α)
    (h : k2 ≠ k) : alistGet (alistDel l k) k2 = alistGet l k2 := by
  induction l with
  | nil => simp [alistDel]
  | cons a t ih =>
      by_cases ha : a.1 = k
      · subst ha
        simp [alistDel, alistGet, Ne.symm h, ih]
      · simp [alistDel, ha, alistGet, ih]

theorem trieDataAt_emptyNode (q : List GoStr) : trieDataAt emptyNode q = none := by
  cases q <;> rfl

theorem trieDataAt_nil (t : TrieNode) : trieDataAt t [] = t.data := rfl

theorem trieFind_cons (ch : List (GoStr × TrieNode)) (dt : Option RecordSet)
    (l : GoStr) (qs : List GoStr) :
    trieFind (.node ch dt) (l :: qs) =
      match alistGet ch l with
      | none => none
      | some c => trieFind c qs := rfl

theorem trieDataAt_cons (ch : List (GoStr × TrieNode)) (dt : Option RecordSet)
    (l : GoStr) (qs : List GoStr) :
    trieDataAt (.node ch dt) (l :: qs) =
      match alistGet ch l with
      | none => none
      | some c => trieDataAt c qs := by
  unfold trieDataAt
  rw [trieFind_cons]
  cases hg : alistGet ch l
  · simp
  · simp [trieDataAt]

theorem trieAdd_nil (ch : List (GoStr × TrieNode)) (dt : Option RecordSet)
    (f : Option RecordSet → RecordSet) :
    trieAdd (.node ch dt) [] f = .node ch (some (f dt)) := rfl

theorem trieAdd_cons (ch : List (GoStr × TrieNode)) (dt : Option RecordSet)
    (l : GoStr) (ls : List GoStr) (f : Option RecordSet → RecordSet) :
    trieAdd (.node ch dt) (l :: ls) f =
      .node (alistPut ch l (trieAdd ((alistGet ch l).getD emptyNode) ls f)) dt := rfl

theorem trieSetData_nil (ch : List (GoStr × TrieNode)) (dt nd : Option RecordSet) :
    trieSetData (.node ch dt) [] nd = .node ch nd := rfl

theorem trieSetData_cons (ch : List (GoStr × TrieNode)) (dt nd : Option RecordSet)
    (l : GoStr) (ls : List GoStr) :
    trieSetData (.node ch dt) (l :: ls) nd =
      match alistGet ch l with
      | none => .node ch dt
      | some c => .node (alistPut ch l (trieSetData c ls nd)) dt := by
  cases hg : alistGet ch l
  · unfold trieSetData
    simp [hg]
  · unfold trieSetData
    simp only [TrieNode.children_node, TrieNode.data_node, hg]
    rw [← trieSetData.eq_def]

theorem trieAdd_dataAt_eq (p : List GoStr) :
    ∀ (t : TrieNode) (f : Option RecordSet → RecordSet),
      trieDataAt (trieAdd t p f) p = some (f (trieDataAt t p)) := by
  induction p with
  | nil => intro t f; cases t; rfl
  | cons l ls ih =>
      intro t f
      cases t with
      | node ch dt =>
          rw [trieAdd_cons, trieDataAt_cons, alistGet_put_eq]
          cases hg : alistGet ch l with
          | none => simp [hg, ih, trieDataAt_cons, trieDataAt_emptyNode]
          | some c => simp [hg, ih, trieDataAt_cons]

theorem trieAdd_dataAt_ne (p : List GoStr) :
    ∀ (t : TrieNode) (f : Option RecordSet → RecordSet) (q : List GoStr), q ≠ p →
      trieDataAt (trieAdd t p f) q = trieDataAt t q := by
  induction p with
  | nil =>
      intro t f q hq
      cases t with
      | node ch dt =>
          cases q with
          | nil => exact absurd rfl hq
          | cons m qs => rw [trieAdd_nil, trieDataAt_cons, trieDataAt_cons]
  | cons l ls ih =>
      intro t f q hq
      cases t with
      | node ch dt =>
          rw [trieAdd_cons]
          cases q with
          | nil => rfl
          | cons m qs =>
              by_cases hm : m = l
              · subst hm
                have hqs : qs ≠ ls := fun he => hq (by rw [he])
                rw [trieDataAt_cons, alistGet_put_eq]
                cases hg : alistGet ch m with
                | none => simp [ih _ f qs hqs, hg, trieDataAt_cons, trieDataAt_emptyNode]
                | some c => simp [ih _ f qs hqs, hg, trieDataAt_cons]
              · rw [trieDataAt_cons, alistGet_put_ne _ _ _ _ hm, trieDataAt_cons]

theorem trieSetData_dataAt_eq (p : List GoStr) :
    ∀ (t : TrieNode) (nd : Option RecordSet), (trieFind t p).isSome = true →
      trieDataAt (trieSetData t p nd) p = nd := by
  induction p with
  | nil => intro t nd _; cases t; rfl
  | cons l ls ih =>
      intro t nd hf
      cases t with
      | node ch dt =>
          rw [trieSetData_cons]
          unfold trieFind at hf
          cases hg : alistGet ch l with
          | none => simp [hg] at hf
          | some c =>
              simp only [TrieNode.children_node, hg] at hf
              simp [hg, trieDataAt_cons, alistGet_put_eq, ih c nd hf]

theorem trieSetData_dataAt_ne (p : List GoStr) :
    ∀ (t : TrieNode) (nd : Option RecordSet) (q : List GoStr), q ≠ p →
      trieDataAt (trieSetData t p nd) q = trieDataAt t q := by
  induction p with
  | nil =>
      intro t nd q hq
      cases t with
      | node ch dt =>
          cases q with
          | nil => exact absurd rfl hq
          | cons m qs => rw [trieSetData_nil, trieDataAt_cons, trieDataAt_cons]
  | cons l ls ih =>
      intro t nd q hq
      cases t with
      | node ch dt =>
          rw [trieSetData_cons]
          cases hg : alistGet ch l with
          | none => simp [hg]
          | some c =>
              simp only [hg]
              cases q with
              | nil => rfl
              | cons m qs =>
                  by_cases hm : m = l
                  · subst hm
                    have hqs : qs ≠ ls := fun he => hq (by rw [he])
                    rw [trieDataAt_cons, alistGet_put_eq]
                    show trieDataAt (trieSetData c ls nd) qs = _
                    rw [ih c nd qs hqs, trieDataAt_cons, hg]
                  · rw [trieDataAt_cons, alistGet_put_ne _ _ _ _ hm, trieDataAt_cons]

theorem mem_alistPut {α β : Type} [DecidableEq α] (l : List (α × β)) (k : α) (v : β)
    (pr : α × β) (h : pr ∈ alistPut l k v) : pr = (k, v) ∨ pr ∈ l := by
  induction l with
  | nil => simpa [alistPut] using h
  | cons a t ih =>
      by_cases ha : a.1 = k
      · simp only [alistPut, ha, if_pos] at h
        rcases List.mem_cons.mp h with h1 | h1
        · exact Or.inl h1
        · exact Or.inr (List.mem_cons_of_mem _ h1)
      · simp only [alistPut, ha, if_neg, not_false_iff] at h
        rcases List.mem_cons.mp h with h1 | h1
        · exact Or.inr (by simp [h1])
        · rcases ih h1 with h2 | h2
          · exact Or.inl h2
          · exact Or.inr (List.mem_cons_of_mem _ h2)

theorem mem_alistDel {α β : Type} [DecidableEq α] (l : List (α × β)) (k : α)
    (pr : α × β) (h : pr ∈ alistDel l k) : pr ∈ l := by
  induction l with
  | nil => simp [alistDel] at h
  | cons a t ih =>
      by_cases ha : a.1 = k
      · simp only [alistDel, ha, if_pos] at h
        exact List.mem_cons_of_mem _ (ih h)
      · simp only [alistDel, ha, if_neg, not_false_iff] at h
        rcases List.mem_cons.mp h with h1 | h1
        · simp [h1]
        · exact List.mem_cons_of_mem _ (ih h1)

theorem trieFind_isSome_of_dataAt (t : TrieNode) (p : List GoStr) (rs : RecordSet)
    (h : trieDataAt t p = some rs) : (trieFind t p).isSome = true := by
  unfold trieDataAt at h
  cases hf : trieFind t p
  · rw [hf] at h; simp at h
  · rfl

/-- A present record set has at least one address (spec invariant 1, second
half, and invariant 2 for wildcard entries). -/
def rsOk (rs : RecordSet) : Prop := rs.A ≠ [] ∨ rs.AAAA ≠ []

/-- Data invariant for an optional record set. -/
def dataOkP : Option RecordSet → Prop
  | none => True
  | some rs => rsOk rs

/-- The record-set invariants of the trie store: every record set stored at
any trie path is non-empty, and so is every wildcard entry. -/
def storeRSInv (s : DNSRecordStore) : Prop :=
  (∀ p : List GoStr, dataOkP (trieDataAt s.root p)) ∧
    (∀ pr ∈ s.wildcards, rsOk pr.2)

theorem dataOkP_trim (rs2 : RecordSet) :
    dataOkP (if rs2.A = [] ∧ rs2.AAAA = [] then none else some rs2) := by
  by_cases hb : rs2.A = [] ∧ rs2.AAAA = []
  · simp [hb, dataOkP]
  · simp only [hb, if_neg, not_false_iff, dataOkP]
    unfold rsOk
    tauto

theorem storeRSInv_newStore : storeRSInv newStore := by
  constructor
  · intro p
    have : trieDataAt newStore.root p = none := trieDataAt_emptyNode p
    rw [this]
    trivial
  · intro pr h
    simp [newStore] at h

theorem storeRSInv_applyOp (s : DNSRecordStore) (op : Op) (h : storeRSInv s) :
    storeRSInv (applyOp s op) := by
  obtain ⟨hT, hW⟩ := h
  cases op with
  | clear => exact storeRSInv_newStore
  | addPtr ip d => exact ⟨hT, hW⟩
  | removePtr ip => exact ⟨hT, hW⟩
  | add d ip =>
      show storeRSInv (addRecordRun s d ip)
      unfold addRecordRun addRecord
      by_cases hv : ¬ (goTo4 ip).isSome ∧ (goTo16 ip).isNone
      · simp only [hv, if_pos]
        exact ⟨hT, hW⟩
      · simp only [hv, if_neg, not_false_iff]
        by_cases hw : containsWildL (addNormalize d) = true
        · simp only [hw, if_pos, Option.getD_some]
          refine ⟨hT, ?_⟩
          intro pr hpr
          rcases mem_alistPut _ _ _ _ hpr with h1 | h1
          · subst h1
            unfold appendIP
            by_cases h4 : (goTo4 ip).isSome = true <;> simp [h4, rsOk]
          · exact hW pr h1
        · simp only [Bool.not_eq_true] at hw
          simp only [hw, Bool.false_eq_true, if_neg, not_false_iff, Option.getD_some]
          refine ⟨?_, hW⟩
          intro p
          by_cases hp : p = domainToPathL (addNormalize d)
          · subst hp
            rw [trieAdd_dataAt_eq]
            unfold dataOkP appendIP
            by_cases h4 : (goTo4 ip).isSome = true <;> simp [h4, rsOk]
          · rw [trieAdd_dataAt_ne _ _ _ _ hp]
            exact hT p
  | remove d ip =>
      show storeRSInv (removeRecord s d ip)
      unfold removeRecord
      by_cases hw : containsWildL (addNormalize d) = true
      · simp only [hw, if_pos]
        cases ip with
        | none =>
            refine ⟨hT, ?_⟩
            intro pr hpr
            exact hW pr (mem_alistDel _ _ _ hpr)
        | some ip0 =>
            cases hg : alistGet s.wildcards (addNormalize d) with
            | none => exact ⟨hT, hW⟩
            | some rs =>
                simp only []
                by_cases hb : (if (goTo4 ip0).isSome = true then
                      { rs with A := removeIP rs.A ip0 }
                    else { rs with AAAA := removeIP rs.AAAA ip0 }).A = [] ∧
                    (if (goTo4 ip0).isSome = true then { rs with A := removeIP rs.A ip0 }
                    else { rs with AAAA := removeIP rs.AAAA ip0 }).AAAA = []
                · rw [if_pos hb]
                  refine ⟨hT, ?_⟩
                  intro pr hpr
                  exact hW pr (mem_alistDel _ _ _ hpr)
                · rw [if_neg hb]
                  refine ⟨hT, ?_⟩
                  intro pr hpr
                  rcases mem_alistPut _ _ _ _ hpr with h1 | h1
                  · subst h1
                    unfold rsOk
                    rcases not_and_or.mp hb with hx | hx
                    · exact Or.inl hx
                    · exact Or.inr hx
                  · exact hW pr h1
      · simp only [Bool.not_eq_true] at hw
        simp only [hw, Bool.false_eq_true, if_neg, not_false_iff]
        cases htd : trieDataAt s.root (domainToPathL (addNormalize d)) with
        | none => exact ⟨hT, hW⟩
        | some rs =>
            have hfind := trieFind_isSome_of_dataAt _ _ _ htd
            cases ip with
            | none =>
                refine ⟨?_, hW⟩
                intro p
                by_cases hp : p = domainToPathL (addNormalize d)
                · subst hp
                  rw [trieSetData_dataAt_eq _ _ _ hfind]
                  trivial
                · rw [trieSetData_dataAt_ne _ _ _ _ hp]
                  exact hT p
            | some ip0 =>
                simp only []
                refine ⟨?_, hW⟩
                intro p
                by_cases hp : p = domainToPathL (addNormalize d)
                · subst hp
                  rw [trieSetData_dataAt_eq _ _ _ hfind]
                  exact dataOkP_trim _
                · rw [trieSetData_dataAt_ne _ _ _ _ hp]
                  exact hT p

/-- The store after adding and then removing the only record of `a.`: the ops
run is over, yet the trie keeps a node for label `a`. -/
def store9 : DNSRecordStore := runOps [.add (gs "a.") ipA1, .remove (gs "a.") (some ipA1)]

/-- C9 counterexample: after `AddRecord("a.", 10.0.0.1)` and
`RemoveRecord("a.", 10.0.0.1)` — outside any mutating call — the non-root trie
node at label `a` has no children and no record set, so the claimed invariant
"every trie node other than the root has children or a non-empty RecordSet"
does not hold (removal never prunes nodes). -/
theorem trieNode_children_or_data_counterexample :
    trieFind store9.root [gs "a"] = some (TrieNode.node [] none) := by rfl

/-- C9 (amended): after any call sequence from the fresh store — that is,
outside every mutating call — every record set stored in the trie has at least
one address (no RecordSet has both lists empty) and every wildcard entry has
at least one address; the claimed children-or-data condition on trie nodes is
dropped, since removals leave empty nodes behind (see the counterexample). -/
theorem store_recordset_invariants (ops : List Op) : storeRSInv (runOps ops) := by
  suffices h : ∀ (l : List Op) (s : DNSRecordStore), storeRSInv s → storeRSInv (l.foldl applyOp s) by
    exact h ops newStore storeRSInv_newStore
  intro l
  induction l with
  | nil => intro s hs; exact hs
  | cons op rest ih =>
      intro s hs
      exact ih (applyOp s op) (storeRSInv_applyOp s op hs)

/-- The A list stored at the trie root. -/
def rootAList (s : DNSRecordStore) : List IPBytes :=
  match s.root.data with
  | some rs => rs.A
  | none => []

/-- The store after adding an A record under the empty name. -/
def storeE : DNSRecordStore := addRecordRun newStore [] ipA1

/-- C5 counterexample: `AddRecord("", 10.0.0.1)` does not reject the empty
name — it returns ok, installs the record (at the trie root, under the
normalized name `.`), and both `GetRecords("", A)` and `HasRecord("", A)`
observe it afterwards. -/
theorem addRecord_empty_name_counterexample :
    (addRecord newStore [] ipA1).isSome = true ∧
      getRecords storeE [] typeA = [ipA1] ∧
      hasRecord storeE [] typeA = true := by
  refine ⟨by decide, by decide, by decide⟩

/-- C5 (amended): `AddRecord` with the empty name is not rejected: the name is
normalized to `.`, whose label path is empty, so for a valid IPv4 address the
record is appended to the trie root's A list and `GetRecords("", A)` returns
the root's A list ending in that address. -/
theorem addRecord_empty_name_installs_at_root (s : DNSRecordStore) (ip : IPBytes)
    (h4 : (goTo4 ip).isSome = true) :
    (addRecord s [] ip).isSome = true ∧
      getRecords (addRecordRun s [] ip) [] typeA = rootAList s ++ [ip] := by
  have hv : ¬ (¬ (goTo4 ip).isSome = true ∧ (goTo16 ip).isNone = true) := by simp [h4]
  have hw : containsWildL (addNormalize ([] : GoStr)) = false := rfl
  have hstep : addRecord s [] ip = some
      { s with
        root := trieAdd s.root (domainToPathL (addNormalize ([] : GoStr)))
          (fun od => appendIP (od.getD { A := [], AAAA := [] }) ip (goTo4 ip).isSome),
        ptrRecords := alistPut s.ptrRecords (ipStringL ip) (addNormalize ([] : GoStr)) } := by
    unfold addRecord
    simp only [hw, Bool.false_eq_true, if_neg, not_false_iff, hv]
  constructor
  · rw [hstep]; rfl
  · unfold addRecordRun
    rw [hstep]
    simp only [Option.getD_some]
    unfold getRecords
    have hpath : domainToPathL (queryNormalize ([] : GoStr)) = [] := rfl
    have hpath2 : domainToPathL (addNormalize ([] : GoStr)) = [] := rfl
    simp only [hpath, hpath2]
    rw [show trieDataAt (trieAdd s.root []
        (fun od => appendIP (od.getD { A := [], AAAA := [] }) ip (goTo4 ip).isSome)) []
      = some (appendIP ((trieDataAt s.root []).getD { A := [], AAAA := [] }) ip
          (goTo4 ip).isSome) from trieAdd_dataAt_eq [] s.root _]
    simp only [h4, appendIP, if_pos]
    have hra : ((trieDataAt s.root []).getD { A := [], AAAA := [] }).A = rootAList s := by
      rw [trieDataAt_nil]
      unfold rootAList
      cases s.root.data <;> rfl
    simp [hra]

/-- Witness: C5's amended statement at the fresh store. -/
theorem addRecord_empty_name_installs_at_root_witness :
    (goTo4 ipA1).isSome = true ∧
      ((addRecord newStore [] ipA1).isSome = true ∧
        getRecords (addRecordRun newStore [] ipA1) [] typeA = rootAList newStore ++ [ipA1]) :=
  ⟨by decide, addRecord_empty_name_installs_at_root newStore ipA1 (by decide)⟩

theorem mem_ensureDotL (c : Char) (s : GoStr) (h : c ∈ s) : c ∈ ensureDotL s := by
  unfold ensureDotL
  cases s.getLast? with
  | none => exact List.mem_append_left _ h
  | some x =>
      by_cases hx : x = '.'
      · simp [hx, h]
      · simp [hx]
        exact Or.inl h

theorem mem_fqdnL (c : Char) (s : GoStr) (h : c ∈ s) : c ∈ fqdnL s := by
  unfold fqdnL
  by_cases hf : isFqdnL s = true
  · simpa [hf] using h
  · simp [hf]
    exact Or.inl h

theorem containsWild_addNormalize (p : GoStr) (h : containsWildL p = true) :
    containsWildL (addNormalize p) = true := by
  obtain ⟨c, hc, hcw⟩ := List.any_eq_true.mp h
  have hmem : c ∈ fqdnL (ensureDotL p) := mem_fqdnL c _ (mem_ensureDotL c p hc)
  have hfix : goCharLower c = c := by
    have hcw2 : c = '*' ∨ c = '?' := by simpa using hcw
    rcases hcw2 with h1 | h1 <;> rw [h1] <;> rfl
  apply List.any_eq_true.mpr
  refine ⟨c, ?_, hcw⟩
  unfold addNormalize goToLower
  rw [← hfix]
  exact List.mem_map_of_mem goCharLower hmem

/-- C8: adding under a wildcard pattern (a name containing `*` or `?`) with a
valid address leaves the PTR table untouched: the table is unchanged and every
`GetPTRRecord`/`HasPTRRecord` query answers exactly as before; in particular a
PTR entry for the added address appears only if something else installed it. -/
theorem addRecord_wildcard_preserves_ptr (s : DNSRecordStore) (p : GoStr) (ip : IPBytes)
    (hw : containsWildL p = true)
    (h4 : (goTo4 ip).isSome = true ∨ (goTo16 ip).isSome = true) :
    (addRecordRun s p ip).ptrRecords = s.ptrRecords ∧
      ∀ r : GoStr, getPTRRecord (addRecordRun s p ip) r = getPTRRecord s r ∧
        hasPTRRecord (addRecordRun s p ip) r = hasPTRRecord s r := by
  have hwn : containsWildL (addNormalize p) = true := containsWild_addNormalize p hw
  have hv : ¬ (¬ (goTo4 ip).isSome = true ∧ (goTo16 ip).isNone = true) := by
    rcases h4 with h | h
    · exact fun hc => hc.1 h
    · intro hc
      rw [Option.isSome_iff_ne_none] at h
      exact h (Option.isNone_iff_eq_none.mp hc.2)
  have hstep : addRecordRun s p ip =
      { s with wildcards := (alistPut s.wildcards (addNormalize p) (appendIP ((alistGet s.wildcards (addNormalize p)).getD { A := [], AAAA := [] }) ip (goTo4 ip).isSome)) } := by
    unfold addRecordRun addRecord
    simp only [hv, if_neg, not_false_iff, hwn, if_pos, Option.getD_some]
  rw [hstep]
  exact ⟨rfl, fun r => ⟨rfl, rfl⟩⟩

/-- Witness: C8 on a concrete wildcard add against the fresh store. -/
theorem addRecord_wildcard_preserves_ptr_witness :
    (containsWildL (gs "*.autoco.internal") = true ∧ (goTo4 ipA1).isSome = true) ∧
      getPTRRecord (addRecordRun newStore (gs "*.autoco.internal") ipA1) (IPToReverseDNS ipA1)
        = getPTRRecord newStore (IPToReverseDNS ipA1) ∧
      getPTRRecord (addRecordRun newStore (gs "*.autoco.internal") ipA1) (IPToReverseDNS ipA1)
        = ([], false) :=
  ⟨⟨by decide, by decide⟩,
   ((addRecord_wildcard_preserves_ptr newStore (gs "*.autoco.internal") ipA1 (by decide)
      (Or.inl (by decide))).2 (IPToReverseDNS ipA1)).1,
   by decide⟩

/-- Does the string contain a `::` pair? -/
def hasCC : GoStr → Bool
  | c1 :: c2 :: rest => (c1 = ':' && c2 = ':') || hasCC (c2 :: rest)
  | _ => false

theorem splitCC_of_no_cc : ∀ l : GoStr, hasCC l = false → splitCC l = [l]
  | [], _ => rfl
  | [c], _ => rfl
  | c1 :: c2 :: rest, h => by
      unfold hasCC at h
      rcases Bool.or_eq_false_iff.mp h with ⟨h1, h2⟩
      unfold splitCC
      rw [if_neg (by simpa using h1)]
      rw [splitCC_of_no_cc (c2 :: rest) h2]
      rfl

theorem splitSep_free (c : Char) : ∀ p : GoStr, (∀ x ∈ p, x ≠ c) → splitSep c p = [p]
  | [], _ => rfl
  | a :: rest, h => by
      unfold splitSep
      rw [if_neg (h a (by simp)), splitSep_free c rest (fun x hx => h x (by simp [hx]))]
      rfl

theorem splitSep_sep_of_free (c : Char) :
    ∀ (p l : GoStr), (∀ x ∈ p, x ≠ c) → splitSep c (p ++ c :: l) = p :: splitSep c l
  | [], l, _ => by simp [splitSep]
  | a :: rest, l, h => by
      have h2 : splitSep c ((a :: rest) ++ c :: l) = consHead a (splitSep c (rest ++ c :: l)) := by
        show splitSep c (a :: (rest ++ c :: l)) = _
        unfold splitSep
        rw [if_neg (h a (by simp))]
        rw [← splitSep.eq_def]
      rw [h2, splitSep_sep_of_free c rest l (fun x hx => h x (by simp [hx]))]
      rfl

theorem splitSep_joinSep (c : Char) :
    ∀ parts : List GoStr, parts ≠ [] → (∀ p ∈ parts, ∀ x ∈ p, x ≠ c) →
      splitSep c (joinSep c parts) = parts
  | [], h, _ => absurd rfl h
  | [p], _, hf => by
      show splitSep c p = [p]
      exact splitSep_free c p (hf p (by simp))
  | p :: q :: rest, _, hf => by
      have h1 : joinSep c (p :: q :: rest) = p ++ c :: joinSep c (q :: rest) := rfl
      rw [h1, splitSep_sep_of_free c p _ (hf p (by simp)),
        splitSep_joinSep c (q :: rest) (by simp) (fun r hr => hf r (by simp [hr]))]

theorem hasSuffixL_append (x suf : GoStr) : hasSuffixL (x ++ suf) suf = true := by
  unfold hasSuffixL
  rw [List.isSuffixOf_iff_suffix]
  exact List.suffix_append x suf

theorem trimSuffixL_append (x suf : GoStr) : trimSuffixL (x ++ suf) suf = x := by
  unfold trimSuffixL
  rw [hasSuffixL_append]
  simp only [if_pos, List.length_append]
  rw [show x.length + suf.length - suf.length = x.length from by omega]
  exact List.take_left x suf

theorem hasSuffixL_iff (s suf : GoStr) : hasSuffixL s suf = true ↔ suf <:+ s := by
  unfold hasSuffixL
  rw [List.isSuffixOf_iff_suffix]

theorem isFqdnL_append_false (x suf : GoStr) (c : Char) (rest : GoStr)
    (hrev : suf.reverse = c :: rest) (hc : ¬ c = '.') : isFqdnL (x ++ suf) = false := by
  unfold isFqdnL
  rw [List.reverse_append, hrev]
  simp [hc]

theorem isFqdnL_append_true (x suf : GoStr) (c : Char) (rest : GoStr)
    (hrev : suf.reverse = '.' :: c :: rest) (hc : ¬ c = '\\') : isFqdnL (x ++ suf) = true := by
  unfold isFqdnL
  rw [List.reverse_append, hrev]
  simp [leadCount, hc]

theorem goToLower_fix (l : GoStr) (h : ∀ c ∈ l, goCharLower c = c) : goToLower l = l := by
  unfold goToLower
  induction l with
  | nil => rfl
  | cons a t ih =>
      rw [List.map_cons, h a (by simp), ih (fun c hc => h c (by simp [hc]))]

theorem find?_append_none {α : Type} (f : α → Bool) (p q : List α)
    (h : ∀ x ∈ p, f x = false) : (p ++ q).find? f = q.find? f := by
  induction p with
  | nil => rfl
  | cons a t ih =>
      rw [List.cons_append, List.find?_cons, h a (by simp),
        ih (fun x hx => h x (by simp [hx]))]

theorem isPrefixOf_append_ne (c e : Char) (hne : c ≠ e) :
    ∀ (u v w : GoStr), List.isPrefixOf (u ++ c :: v) (u ++ e :: w) = false
  | [], v, w => by
      show List.isPrefixOf (c :: v) (e :: w) = false
      rw [List.isPrefixOf_cons₂]
      simp [hne]
  | a :: u2, v, w => by
      show List.isPrefixOf (a :: (u2 ++ c :: v)) (a :: (u2 ++ e :: w)) = false
      rw [List.isPrefixOf_cons₂]
      simp [isPrefixOf_append_ne c e hne u2 v w]

theorem not_hasSuffix_inaddr_of_ip6 (x : GoStr) :
    hasSuffixL (x ++ ip6Suf) inAddrSuf = false := by
  unfold hasSuffixL List.isSuffixOf
  rw [List.reverse_append]
  rw [show inAddrSuf.reverse = gs ".apra." ++ 'r' :: gs "dda-ni." from by decide]
  rw [show ip6Suf.reverse = gs ".apra." ++ '6' :: gs "pi." from by decide]
  rw [List.append_assoc]
  exact isPrefixOf_append_ne 'r' '6' (by decide) (gs ".apra.") _ _

theorem suffix_clash (d : GoStr) (h6 : hasSuffixL d ip6Suf = true) :
    hasSuffixL d inAddrSuf = false := by
  obtain ⟨x, hx⟩ := (hasSuffixL_iff d ip6Suf).mp h6
  rw [← hx]
  exact not_hasSuffix_inaddr_of_ip6 x

/-- Bundled facts about a hex-nibble character, settled by evaluation. -/
theorem hexNibble_props : ∀ n, n < 16 →
    isHexCh (hexNibble n) = true ∧ hexVal (hexNibble n) = n ∧
      goCharLower (hexNibble n) = hexNibble n ∧
      hexNibble n ≠ '.' ∧ hexNibble n ≠ ':' ∧ hexNibble n ≠ '\\' := by decide

/-- Bundled facts about the decimal print of a byte, settled by evaluation. -/
theorem decByte_props : ∀ n, n < 256 →
    parseV4Field (decByte n) = some n ∧ goToLower (decByte n) = decByte n ∧
      decByte n ≠ [] ∧ ∀ c ∈ decByte n, isDigitCh c = true := by decide

theorem digitCh_props (c : Char) (h : isDigitCh c = true) :
    goCharLower c = c ∧ c ≠ '.' ∧ c ≠ ':' := by
  unfold isDigitCh at h
  simp only [Bool.and_eq_true, decide_eq_true_eq] at h
  obtain ⟨hb1, hb2⟩ := h
  refine ⟨?_, ?_, ?_⟩
  · unfold goCharLower
    rw [if_neg (by omega)]
  · intro he
    subst he
    have : ('.' : Char).toNat = 46 := by decide
    omega
  · intro he
    subst he
    have : (':' : Char).toNat = 58 := by decide
    omega

theorem goToLower_append (x y : GoStr) : goToLower (x ++ y) = goToLower x ++ goToLower y :=
  List.map_append goCharLower x y

theorem goToLower_cons (c : Char) (l : GoStr) :
    goToLower (c :: l) = goCharLower c :: goToLower l := rfl

theorem decByte_dot_free (n : Nat) (h : n < 256) : ∀ x ∈ decByte n, x ≠ '.' :=
  fun x hx => (digitCh_props x ((decByte_props n h).2.2.2 x hx)).2.1

theorem decByte_find_free (n : Nat) (h : n < 256) :
    ∀ x ∈ decByte n, (x = '.' || x = ':') = (false : Bool) := by
  intro x hx
  have hp := digitCh_props x ((decByte_props n h).2.2.2 x hx)
  simp [hp.2.1, hp.2.2]

/-- Parsing back the reverse-DNS name generated for a dotted quad. -/
theorem reverseDNSToIP_quad (a b c d : Nat)
    (ha : a < 256) (hb : b < 256) (hc : c < 256) (hd : d < 256) :
    reverseDNSToIP (fqdnL (decByte d ++ '.' :: decByte c ++ '.' :: decByte b ++ '.' ::
        decByte a ++ gs ".in-addr.arpa")) = some (v4mapPre ++ [a, b, c, d]) := by
  have hP : decByte d ++ '.' :: decByte c ++ '.' :: decByte b ++ '.' :: decByte a
      ++ gs ".in-addr.arpa"
      = (decByte d ++ '.' :: decByte c ++ '.' :: decByte b ++ '.' :: decByte a)
        ++ gs ".in-addr.arpa" := by
    simp [List.append_assoc]
  rw [hP]
  set P := decByte d ++ '.' :: decByte c ++ '.' :: decByte b ++ '.' :: decByte a with hPdef
  have hfq1 : isFqdnL (P ++ gs ".in-addr.arpa") = false :=
    isFqdnL_append_false P _ 'a' (gs "pra.rdda-ni.") (by decide) (by decide)
  have hstep1 : fqdnL (P ++ gs ".in-addr.arpa") = P ++ inAddrSuf := by
    unfold fqdnL
    rw [hfq1]
    simp [List.append_assoc]
    decide
  rw [hstep1]
  have hfq2 : isFqdnL (P ++ inAddrSuf) = true :=
    isFqdnL_append_true P _ 'a' (gs "pra.rdda-ni.") (by decide) (by decide)
  have hlow : goToLower (P ++ inAddrSuf) = P ++ inAddrSuf := by
    rw [goToLower_append, hPdef]
    rw [goToLower_append, goToLower_cons, goToLower_append, goToLower_cons,
      goToLower_append, goToLower_cons]
    rw [(decByte_props a ha).2.1, (decByte_props b hb).2.1, (decByte_props c hc).2.1,
      (decByte_props d hd).2.1]
    rw [show goCharLower '.' = '.' from rfl, show goToLower inAddrSuf = inAddrSuf from by decide]
  have hnorm : goToLower (fqdnL (P ++ inAddrSuf)) = P ++ inAddrSuf := by
    unfold fqdnL
    rw [hfq2]
    simp only [if_pos]
    exact hlow
  have hsplit : splitSep '.' P = [decByte d, decByte c, decByte b, decByte a] := by
    have hPjoin : P = joinSep '.' [decByte d, decByte c, decByte b, decByte a] := by
      simp [joinSep, hPdef]
    rw [hPjoin]
    apply splitSep_joinSep
    · simp
    · intro p hp x hx
      simp only [List.mem_cons, List.not_mem_nil, or_false] at hp
      rcases hp with hp | hp | hp | hp
      · rw [hp] at hx; exact decByte_dot_free d hd x hx
      · rw [hp] at hx; exact decByte_dot_free c hc x hx
      · rw [hp] at hx; exact decByte_dot_free b hb x hx
      · rw [hp] at hx; exact decByte_dot_free a ha x hx
  have hjoin2 : joinSep '.' [decByte a, decByte b, decByte c, decByte d]
      = decByte a ++ '.' :: (decByte b ++ '.' :: (decByte c ++ '.' :: decByte d)) := by
    simp [joinSep]
  have hparse : parseIP (joinSep '.' [decByte a, decByte b, decByte c, decByte d])
      = some (v4mapPre ++ [a, b, c, d]) := by
    rw [hjoin2]
    unfold parseIP
    rw [find?_append_none _ _ _ (decByte_find_free a ha)]
    rw [show List.find? (fun c0 => c0 = '.' || c0 = ':')
        ('.' :: (decByte b ++ '.' :: (decByte c ++ '.' :: decByte d))) = some '.' from by
      rw [List.find?_cons]
      simp]
    unfold parseIPv4
    have hsplit2 : splitSep '.'
        (decByte a ++ '.' :: (decByte b ++ '.' :: (decByte c ++ '.' :: decByte d)))
        = [decByte a, decByte b, decByte c, decByte d] := by
      rw [splitSep_sep_of_free '.' _ _ (decByte_dot_free a ha),
        splitSep_sep_of_free '.' _ _ (decByte_dot_free b hb),
        splitSep_sep_of_free '.' _ _ (decByte_dot_free c hc),
        splitSep_free '.' _ (decByte_dot_free d hd)]
    rw [hsplit2]
    simp only [List.mapM_cons, List.mapM_nil,
      (decByte_props a ha).1, (decByte_props b hb).1, (decByte_props c hc).1,
      (decByte_props d hd).1, Option.bind_some, Option.pure_def]
    rfl
  unfold reverseDNSToIP
  rw [hnorm]
  simp only [hasSuffixL_append, if_true, trimSuffixL_append, hsplit, List.length_cons,
    List.length_nil, List.reverse_cons, List.reverse_nil, List.nil_append, List.cons_append,
    List.append_nil]
  exact hparse

/-- The two nibble labels of one byte, in the emission order of
`IPToReverseDNS` (low nibble first). -/
def nibOf (b : Nat) : List GoStr := [[hexNibble (b % 16)], [hexNibble (b / 16 % 16)]]

/-- The two nibble labels of one byte in query order (high nibble first). -/
def nibOfR (b : Nat) : List GoStr := [[hexNibble (b / 16 % 16)], [hexNibble (b % 16)]]

/-- The four-nibble group strings regrouped from a byte list, two bytes per
group. -/
def group2 : List Nat → List GoStr
  | b0 :: b1 :: rest =>
      [hexNibble (b0 / 16 % 16), hexNibble (b0 % 16),
        hexNibble (b1 / 16 % 16), hexNibble (b1 % 16)] :: group2 rest
  | _ => []

/-- The 16-bit group values of a byte list, two bytes per group. -/
def groupVals : List Nat → List Nat
  | b0 :: b1 :: rest => (b0 * 256 + b1) :: groupVals rest
  | _ => []

theorem reverse_flatMap' {α β : Type} (f : α → List β) :
    ∀ xs : List α, (xs.flatMap f).reverse = xs.reverse.flatMap (fun x => (f x).reverse)
  | [] => rfl
  | x :: rest => by
      rw [List.flatMap_cons, List.reverse_append, reverse_flatMap' f rest,
        List.reverse_cons, List.flatMap_append]
      simp

theorem flatMap_nibOf_length : ∀ l : List Nat, (l.flatMap nibOf).length = 2 * l.length
  | [] => rfl
  | b :: rest => by
      rw [List.flatMap_cons, List.length_append, flatMap_nibOf_length rest]
      simp [nibOf]
      omega

theorem groupsOf4_flatMap_nibOfR : ∀ l : List Nat, groupsOf4 (l.flatMap nibOfR) = group2 l
  | [] => rfl
  | [b] => rfl
  | b0 :: b1 :: rest => by
      show groupsOf4 ([hexNibble (b0 / 16 % 16)] :: [hexNibble (b0 % 16)] ::
        [hexNibble (b1 / 16 % 16)] :: [hexNibble (b1 % 16)] :: rest.flatMap nibOfR)
        = group2 (b0 :: b1 :: rest)
      unfold groupsOf4
      rw [groupsOf4_flatMap_nibOfR rest]
      rfl

theorem group2_length : ∀ l : List Nat, (group2 l).length = l.length / 2
  | [] => rfl
  | [_] => by simp [group2]
  | b0 :: b1 :: rest => by
      show (group2 rest).length + 1 = (rest.length + 2) / 2
      rw [group2_length rest]
      omega

theorem group2_chars : ∀ (l : List Nat) (p : GoStr), p ∈ group2 l →
      p.length = 4 ∧ ∀ x ∈ p, ∃ m : Nat, x = hexNibble (m % 16)
  | [], p, hp => by simp [group2] at hp
  | [_], p, hp => by simp [group2] at hp
  | b0 :: b1 :: rest, p, hp => by
      rcases List.mem_cons.mp hp with hp1 | hp1
      · subst hp1
        refine ⟨rfl, ?_⟩
        intro x hx
        rcases List.mem_cons.mp hx with h | h
        · exact ⟨b0 / 16, h⟩
        rcases List.mem_cons.mp h with h | h
        · exact ⟨b0, h⟩
        rcases List.mem_cons.mp h with h | h
        · exact ⟨b1 / 16, h⟩
        rcases List.mem_cons.mp h with h | h
        · exact ⟨b1, h⟩
        · simp at h
      · exact group2_chars rest p hp1

theorem groupVals_toBytes : ∀ l : List Nat, l.length % 2 = 0 → (∀ b ∈ l, b < 256) →
      groupsToBytes (groupVals l) = l
  | [], _, _ => rfl
  | [b], hpar, _ => by simp at hpar
  | b0 :: b1 :: rest, hpar, hb => by
      have h0 : b0 < 256 := hb b0 (by simp)
      have h1 : b1 < 256 := hb b1 (by simp)
      show groupsToBytes ((b0 * 256 + b1) :: groupVals rest) = b0 :: b1 :: rest
      unfold groupsToBytes
      rw [List.flatMap_cons]
      rw [show (groupVals rest).flatMap (fun g => [g / 256, g % 256]) = rest from
        groupVals_toBytes rest (by simp only [List.length_cons] at hpar; omega) (fun b hbm => hb b (by simp [hbm]))]
      have e1 : (b0 * 256 + b1) / 256 = b0 := by omega
      have e2 : (b0 * 256 + b1) % 256 = b1 := by omega
      rw [e1, e2]
      rfl

theorem hasCC_append_free : ∀ (g l : GoStr), (∀ x ∈ g, x ≠ ':') → hasCC l = false →
      hasCC (g ++ l) = false
  | [], l, _, hl => hl
  | [c], l, hg, hl => by
      show hasCC (c :: l) = false
      cases l with
      | nil => rfl
      | cons c2 rest =>
          unfold hasCC
          simp [hg c (by simp), hl]
  | c1 :: c2 :: g2, l, hg, hl => by
      show hasCC (c1 :: (c2 :: g2 ++ l)) = false
      have h2 : hasCC ((c2 :: g2) ++ l) = false :=
        hasCC_append_free (c2 :: g2) l (fun x hx => hg x (by simp [List.mem_cons.mp hx])) hl
      unfold hasCC
      simp only [List.cons_append] at h2 ⊢
      simp [hg c1 (by simp), h2]

theorem hasCC_free (g : GoStr) (hg : ∀ x ∈ g, x ≠ ':') : hasCC g = false := by
  have h := hasCC_append_free g [] hg rfl
  simpa using h

theorem hasCC_colon_cons (j : Char) (js : GoStr) (hj : j ≠ ':')
    (hJ : hasCC (j :: js) = false) : hasCC (':' :: j :: js) = false := by
  unfold hasCC
  simp [hj, hJ]

theorem hasCC_joinSep : ∀ groups : List GoStr, (∀ g ∈ groups, g ≠ []) →
      (∀ g ∈ groups, ∀ x ∈ g, x ≠ ':') → hasCC (joinSep ':' groups) = false
  | [], _, _ => rfl
  | [g], _, hfree => hasCC_free g (hfree g (by simp))
  | g :: g2 :: rest, hne, hfree => by
      show hasCC (g ++ ':' :: joinSep ':' (g2 :: rest)) = false
      apply hasCC_append_free g _ (hfree g (by simp))
      have hJ : hasCC (joinSep ':' (g2 :: rest)) = false :=
        hasCC_joinSep (g2 :: rest) (fun x hx => hne x (by simp [List.mem_cons.mp hx]))
          (fun x hx => hfree x (by simp [List.mem_cons.mp hx]))
      cases hg2 : g2 with
      | nil => exact absurd hg2 (hne g2 (by simp))
      | cons j js =>
          subst hg2
          have hj : j ≠ ':' := hfree (j :: js) (by simp) j (by simp)
          cases rest with
          | nil => exact hasCC_colon_cons j js hj hJ
          | cons r rs =>
              have hshape : joinSep ':' ((j :: js) :: r :: rs)
                  = j :: (js ++ ':' :: joinSep ':' (r :: rs)) := rfl
              rw [hshape] at hJ ⊢
              exact hasCC_colon_cons j _ hj hJ

theorem mem_joinSep (sep : Char) :
    ∀ (parts : List GoStr) (c : Char), c ∈ joinSep sep parts →
      c = sep ∨ ∃ p ∈ parts, c ∈ p
  | [], c, hc => by simp [joinSep] at hc
  | [p], c, hc => Or.inr ⟨p, by simp, hc⟩
  | p :: q :: rest, c, hc => by
      rcases List.mem_append.mp hc with h | h
      · exact Or.inr ⟨p, by simp, h⟩
      · rcases List.mem_cons.mp h with h1 | h1
        · exact Or.inl h1
        · rcases mem_joinSep sep (q :: rest) c h1 with h2 | ⟨p2, hp2, hcp2⟩
          · exact Or.inl h2
          · exact Or.inr ⟨p2, by simp [List.mem_cons.mp hp2], hcp2⟩

theorem parseHexGroup_group2 (h1 l1 h2 l2 : Nat) :
    parseHexGroup [hexNibble (h1 % 16), hexNibble (l1 % 16),
        hexNibble (h2 % 16), hexNibble (l2 % 16)]
      = some ((h1 % 16) * 4096 + (l1 % 16) * 256 + (h2 % 16) * 16 + l2 % 16) := by
  have p1 := hexNibble_props (h1 % 16) (Nat.mod_lt _ (by norm_num))
  have p2 := hexNibble_props (l1 % 16) (Nat.mod_lt _ (by norm_num))
  have p3 := hexNibble_props (h2 % 16) (Nat.mod_lt _ (by norm_num))
  have p4 := hexNibble_props (l2 % 16) (Nat.mod_lt _ (by norm_num))
  unfold parseHexGroup
  rw [if_neg (by simp), if_neg (by simp)]
  rw [if_pos (by simp [List.all_cons, p1.1, p2.1, p3.1, p4.1])]
  simp only [List.foldl_cons, List.foldl_nil, p1.2.1, p2.2.1, p3.2.1, p4.2.1]
  ring_nf

theorem mapM_group2 : ∀ l : List Nat, (∀ b ∈ l, b < 256) →
      (group2 l).mapM parseHexGroup = some (groupVals l)
  | [], _ => rfl
  | [b], _ => rfl
  | b0 :: b1 :: rest, hb => by
      have h0 : b0 < 256 := hb b0 (by simp)
      have h1 : b1 < 256 := hb b1 (by simp)
      show ([hexNibble (b0 / 16 % 16), hexNibble (b0 % 16), hexNibble (b1 / 16 % 16),
          hexNibble (b1 % 16)] :: group2 rest).mapM parseHexGroup
        = some ((b0 * 256 + b1) :: groupVals rest)
      rw [List.mapM_cons]
      have hg : parseHexGroup [hexNibble (b0 / 16 % 16), hexNibble (b0 % 16),
          hexNibble (b1 / 16 % 16), hexNibble (b1 % 16)] = some (b0 * 256 + b1) := by
        rw [parseHexGroup_group2]
        congr 1
        have e0 : b0 / 16 % 16 = b0 / 16 := by omega
        have e2 : b1 / 16 % 16 = b1 / 16 := by omega
        rw [e0, e2]
        omega
      rw [hg, mapM_group2 rest (fun b hbm => hb b (by simp [hbm]))]
      rfl

theorem groupVals_length : ∀ l : List Nat, (groupVals l).length = l.length / 2
  | [] => rfl
  | [_] => by simp [groupVals]
  | b0 :: b1 :: rest => by
      show (groupVals rest).length + 1 = (rest.length + 2) / 2
      rw [groupVals_length rest]
      omega

theorem hexMod_not_sep (x : Char) (h : ∃ m : Nat, x = hexNibble (m % 16)) :
    (x = '.' || x = ':') = (false : Bool) := by
  obtain ⟨m, hm⟩ := h
  subst hm
  have p := hexNibble_props (m % 16) (Nat.mod_lt _ (by norm_num))
  simp [p.2.2.2.1, p.2.2.2.2.1]

theorem mem_nibOf_parts (l : List Nat) (p : GoStr) (hp : p ∈ l.reverse.flatMap nibOf) :
    p ≠ [] ∧ ∀ x ∈ p, ∃ m : Nat, x = hexNibble (m % 16) := by
  rcases List.mem_flatMap.mp hp with ⟨b, _, hpb⟩
  unfold nibOf at hpb
  rcases List.mem_cons.mp hpb with h | h
  · subst h
    exact ⟨by simp, fun x hx => ⟨b, by simpa using hx⟩⟩
  · rcases List.mem_cons.mp h with h1 | h1
    · subst h1
      refine ⟨by simp, fun x hx => ⟨b / 16, ?_⟩⟩
      have : x = hexNibble (b / 16 % 16) := by simpa using hx
      rw [this]
    · simp at h1

/-- Parsing back the reverse-DNS name generated for a 16-byte address. -/
theorem reverseDNSToIP_nibbles (l : List Nat) (hlen : l.length = 16)
    (hb : ∀ x ∈ l, x < 256) :
    reverseDNSToIP (fqdnL (joinSep '.' (l.reverse.flatMap nibOf) ++ gs ".ip6.arpa"))
      = some l := by
  set parts := l.reverse.flatMap nibOf with hpartsdef
  set P6 := joinSep '.' parts with hP6def
  have hlen32 : parts.length = 32 := by
    rw [hpartsdef, flatMap_nibOf_length, List.length_reverse, hlen]
  have hpne : parts ≠ [] := by
    intro he
    rw [he] at hlen32
    simp at hlen32
  have hdotfree : ∀ p ∈ parts, ∀ x ∈ p, x ≠ '.' := by
    intro p hp x hx
    obtain ⟨m, hm⟩ := (mem_nibOf_parts l p hp).2 x hx
    subst hm
    exact (hexNibble_props (m % 16) (Nat.mod_lt _ (by norm_num))).2.2.2.1
  have hfq1 : isFqdnL (P6 ++ gs ".ip6.arpa") = false :=
    isFqdnL_append_false P6 _ 'a' (gs "pra.6pi.") (by decide) (by decide)
  have hstep1 : fqdnL (P6 ++ gs ".ip6.arpa") = P6 ++ ip6Suf := by
    unfold fqdnL
    rw [hfq1]
    simp [List.append_assoc]
    decide
  rw [hstep1]
  have hfq2 : isFqdnL (P6 ++ ip6Suf) = true :=
    isFqdnL_append_true P6 _ 'a' (gs "pra.6pi.") (by decide) (by decide)
  have hlow : goToLower (P6 ++ ip6Suf) = P6 ++ ip6Suf := by
    rw [goToLower_append, show goToLower ip6Suf = ip6Suf from by decide]
    rw [goToLower_fix P6 ?_]
    intro c hc
    rcases mem_joinSep '.' parts c hc with h | ⟨p, hp, hcp⟩
    · rw [h]; rfl
    · obtain ⟨m, hm⟩ := (mem_nibOf_parts l p hp).2 c hcp
      subst hm
      exact (hexNibble_props (m % 16) (Nat.mod_lt _ (by norm_num))).2.2.1
  have hnorm : goToLower (fqdnL (P6 ++ ip6Suf)) = P6 ++ ip6Suf := by
    unfold fqdnL
    rw [hfq2]
    simp only [if_pos]
    exact hlow
  unfold reverseDNSToIP
  rw [hnorm]
  simp only [not_hasSuffix_inaddr_of_ip6, Bool.false_eq_true, if_false, hasSuffixL_append,
    if_true, trimSuffixL_append]
  rw [show splitSep '.' P6 = parts from splitSep_joinSep '.' parts hpne hdotfree]
  rw [hlen32]
  simp only [if_pos]
  have hrev : parts.reverse = l.flatMap nibOfR := by
    rw [hpartsdef, reverse_flatMap', List.reverse_reverse]
    have : (fun b => (nibOf b).reverse) = nibOfR := funext (fun b => rfl)
    rw [this]
  rw [hrev, groupsOf4_flatMap_nibOfR]
  have hglen : (group2 l).length = 8 := by rw [group2_length, hlen]
  have hgfree : ∀ g ∈ group2 l, ∀ x ∈ g, x ≠ ':' := by
    intro g hg x hx
    obtain ⟨m, hm⟩ := (group2_chars l g hg).2 x hx
    subst hm
    exact (hexNibble_props (m % 16) (Nat.mod_lt _ (by norm_num))).2.2.2.2.1
  have hgne : ∀ g ∈ group2 l, g ≠ [] := by
    intro g hg he
    have := (group2_chars l g hg).1
    rw [he] at this
    simp at this
  cases hg2 : group2 l with
  | nil => rw [hg2] at hglen; simp at hglen
  | cons g grest =>
      cases hgr : grest with
      | nil => rw [hg2, hgr] at hglen; simp at hglen
      | cons r rs =>
          subst hgr
          have hfind : (joinSep ':' (g :: r :: rs)).find? (fun c0 => c0 = '.' || c0 = ':')
              = some ':' := by
            have hshape : joinSep ':' (g :: r :: rs) = g ++ ':' :: joinSep ':' (r :: rs) := rfl
            rw [hshape]
            rw [find?_append_none _ _ _ ?_]
            · rw [List.find?_cons]
              simp
            · intro x hx
              exact hexMod_not_sep x ((group2_chars l g (by rw [hg2]; simp)).2 x hx)
          unfold parseIP
          rw [hfind]
          have hnocc : hasCC (joinSep ':' (g :: r :: rs)) = false := by
            rw [← hg2]
            exact hasCC_joinSep (group2 l) hgne hgfree
          unfold parseIPv6
          rw [splitCC_of_no_cc _ hnocc]
          show (match (splitSep ':' (joinSep ':' (g :: r :: rs))).mapM parseHexGroup with
            | some gls => if gls.length = 8 then some (groupsToBytes gls) else none
            | none => none) = some l
          rw [show splitSep ':' (joinSep ':' (g :: r :: rs)) = g :: r :: rs from by
            rw [← hg2]
            exact splitSep_joinSep ':' (group2 l) (by rw [hg2]; simp) hgfree]
          rw [← hg2, mapM_group2 l hb]
          show (if (groupVals l).length = 8 then some (groupsToBytes (groupVals l)) else none)
            = some l
          rw [show (groupVals l).length = 8 from by rw [groupVals_length, hlen], if_pos rfl]
          rw [groupVals_toBytes l (by rw [hlen]) hb]

theorem list_len4 (q : List Nat) (h : q.length = 4) : ∃ a b c d : Nat, q = [a, b, c, d] := by
  rcases q with _ | ⟨a, _ | ⟨b, _ | ⟨c, _ | ⟨d, _ | ⟨e, q⟩⟩⟩⟩⟩ <;> simp at h
  exact ⟨a, b, c, d, rfl⟩

theorem ipEqual_refl (x : IPBytes) : ipEqual x x = true := by
  unfold ipEqual
  simp

theorem ipEqual_mapped (q : IPBytes) (h : q.length = 4) :
    ipEqual (v4mapPre ++ q) q = true := by
  unfold ipEqual
  rw [if_neg (by simp [v4mapPre, h])]
  rw [if_neg (by simp [v4mapPre])]
  rw [if_pos (by simp [v4mapPre, h])]
  have h1 : (v4mapPre ++ q).take 12 = v4mapPre := List.take_left' (by simp [v4mapPre])
  have h2 : (v4mapPre ++ q).drop 12 = q := by
    have h3 := List.drop_left v4mapPre q
    simp only [show v4mapPre.length = 12 from rfl] at h3
    exact h3
  simp [h1, h2]

/-- The round trip at the level of the 16-byte canonical form. -/
theorem reverseDNSToIP_IPToReverseDNS (ip : IPBytes)
    (hval : ip.length = 4 ∨ ip.length = 16) (hb : ∀ x ∈ ip, x < 256) :
    reverseDNSToIP (IPToReverseDNS ip) = goTo16 ip := by
  rcases hval with h4 | h16
  · obtain ⟨a, b, c, d, rfl⟩ := list_len4 ip h4
    have hg : goTo4 [a, b, c, d] = some [a, b, c, d] := by unfold goTo4; simp
    unfold IPToReverseDNS
    rw [hg]
    rw [reverseDNSToIP_quad a b c d (hb a (by simp)) (hb b (by simp)) (hb c (by simp))
      (hb d (by simp))]
    unfold goTo16
    simp
  · by_cases hmap : ip.take 12 = v4mapPre
    · have hg : goTo4 ip = some (ip.drop 12) := by
        unfold goTo4
        rw [if_neg (by omega), if_pos ⟨h16, hmap⟩]
      have hdlen : (ip.drop 12).length = 4 := by simp [h16]
      obtain ⟨a, b, c, d, hdrop⟩ := list_len4 _ hdlen
      have hip : ip = v4mapPre ++ [a, b, c, d] := by
        rw [← hmap, ← hdrop]
        exact (List.take_append_drop 12 ip).symm
      have hbd : ∀ x ∈ ip.drop 12, x < 256 := fun x hx => hb x (List.mem_of_mem_drop hx)
      unfold IPToReverseDNS
      rw [hg, hdrop]
      rw [reverseDNSToIP_quad a b c d (hbd a (by rw [hdrop]; simp)) (hbd b (by rw [hdrop]; simp))
        (hbd c (by rw [hdrop]; simp)) (hbd d (by rw [hdrop]; simp))]
      unfold goTo16
      rw [if_neg (by omega), if_pos h16, hip]
    · have hg : goTo4 ip = none := by
        unfold goTo4
        rw [if_neg (by omega), if_neg (by intro hc; exact hmap hc.2)]
      have hg16 : goTo16 ip = some ip := by
        unfold goTo16
        rw [if_neg (by omega), if_pos h16]
      unfold IPToReverseDNS
      rw [hg, hg16]
      have hnib : (fun b => [[hexNibble (b % 16)], [hexNibble (b / 16 % 16)]]) = nibOf :=
        funext (fun b => rfl)
      rw [hnib]
      rw [reverseDNSToIP_nibbles ip h16 hb]

/-- An `ip6.arpa.` name whose prefix has exactly 32 labels, but where four of
them are not single nibbles (two empty labels and two `00` labels). -/
def name32bad : GoStr :=
  joinSep '.' (List.replicate 28 (gs "0") ++ [[], [], gs "00", gs "00"]) ++ gs ".ip6.arpa."

/-- C6 counterexample: the claim says `reverseDNSToIP` returns nil for every
`ip6.arpa` name without exactly 32 nibble labels; this name has 32 labels that
are not all single nibbles, yet the code groups them into eight valid hex
groups and returns the all-zero IPv6 address instead of nil. -/
theorem reverseDNSToIP_nonNibble_counterexample :
    (splitSep '.' (trimSuffixL (goToLower (fqdnL name32bad)) ip6Suf)).length = 32 ∧
      ¬ (∀ p ∈ splitSep '.' (trimSuffixL (goToLower (fqdnL name32bad)) ip6Suf),
          p.length = 1) ∧
      reverseDNSToIP name32bad = some (List.replicate 16 0) := by
  refine ⟨by decide, by decide, by decide⟩

/-- C6 (amended): `reverseDNSToIP` inverts `IPToReverseDNS` on every valid
IPv4 or IPv6 address up to `net.IP.Equal`; it returns nil when the normalized
name carries neither reverse suffix, when an `in-addr.arpa.` name does not
have exactly 4 labels, and when an `ip6.arpa.` name does not have exactly 32
labels (the label-count check — not a nibble check, see the counterexample);
in particular `reverseDNSToIP("1.1.168.in-addr.arpa.")` is nil. -/
theorem reverseDNS_roundtrip_and_malformed :
    (∀ ip : IPBytes, (ip.length = 4 ∨ ip.length = 16) → (∀ x ∈ ip, x < 256) →
      ∃ ip2, reverseDNSToIP (IPToReverseDNS ip) = some ip2 ∧ ipEqual ip2 ip = true) ∧
    (∀ name : GoStr, hasSuffixL (goToLower (fqdnL name)) inAddrSuf = false →
      hasSuffixL (goToLower (fqdnL name)) ip6Suf = false → reverseDNSToIP name = none) ∧
    (∀ name : GoStr, hasSuffixL (goToLower (fqdnL name)) inAddrSuf = true →
      (splitSep '.' (trimSuffixL (goToLower (fqdnL name)) inAddrSuf)).length ≠ 4 →
      reverseDNSToIP name = none) ∧
    (∀ name : GoStr, hasSuffixL (goToLower (fqdnL name)) ip6Suf = true →
      (splitSep '.' (trimSuffixL (goToLower (fqdnL name)) ip6Suf)).length ≠ 32 →
      reverseDNSToIP name = none) ∧
    reverseDNSToIP (gs "1.1.168.in-addr.arpa.") = none := by
  refine ⟨?_, ?_, ?_, ?_, by decide⟩
  · intro ip hval hb
    rw [reverseDNSToIP_IPToReverseDNS ip hval hb]
    rcases hval with h | h
    · refine ⟨v4mapPre ++ ip, ?_, ipEqual_mapped ip h⟩
      unfold goTo16
      rw [if_pos h]
    · refine ⟨ip, ?_, ipEqual_refl ip⟩
      unfold goTo16
      rw [if_neg (by omega), if_pos h]
  · intro name h1 h2
    unfold reverseDNSToIP
    simp only [h1, h2, Bool.false_eq_true, if_false]
  · intro name h1 h2
    unfold reverseDNSToIP
    simp only [h1, if_true]
    rw [if_neg h2]
  · intro name h1 h2
    have h0 : hasSuffixL (goToLower (fqdnL name)) inAddrSuf = false :=
      suffix_clash _ h1
    unfold reverseDNSToIP
    simp only [h0, h1, Bool.false_eq_true, if_false, if_true]
    rw [if_neg h2]

/-- Witness: C6's round trip at 192.168.1.1 and the nil rules at concrete
names. -/
theorem reverseDNS_roundtrip_and_malformed_witness :
    (([192, 168, 1, 1] : IPBytes).length = 4 ∨ ([192, 168, 1, 1] : IPBytes).length = 16) ∧
      (∃ ip2, reverseDNSToIP (IPToReverseDNS [192, 168, 1, 1]) = some ip2 ∧
        ipEqual ip2 [192, 168, 1, 1] = true) ∧
      reverseDNSToIP (gs "example.com.") = none :=
  ⟨Or.inl (by decide),
   reverseDNS_roundtrip_and_malformed.1 [192, 168, 1, 1] (Or.inl (by decide)) (by decide),
   reverseDNS_roundtrip_and_malformed.2.1 (gs "example.com.") (by decide) (by decide)⟩

theorem goCharLower_toNat (c : Char) :
    (goCharLower c).toNat = if 65 ≤ c.toNat ∧ c.toNat ≤ 90 then c.toNat + 32 else c.toNat := by
  unfold goCharLower
  split
  · rename_i h
    obtain ⟨h1, h2⟩ := h
    interval_cases h3 : c.toNat <;> rfl
  · rfl

/-- A character outside the image and domain of the A-Z shift is a fixed point
test: lowering hits it only from itself. -/
theorem goCharLower_eq_iff (t : Char)
    (ht : t.toNat < 65 ∨ 122 < t.toNat ∨ (90 < t.toNat ∧ t.toNat < 97)) (c : Char) :
    (goCharLower c = t) ↔ (c = t) := by
  constructor
  · intro h
    have hv := goCharLower_toNat c
    rw [h] at hv
    split at hv
    · omega
    · rw [← h]
      unfold goCharLower
      rw [if_neg (by omega)]
  · intro h
    subst h
    unfold goCharLower
    rw [if_neg (by omega)]

theorem goCharLower_idem (c : Char) : goCharLower (goCharLower c) = goCharLower c := by
  have hv := goCharLower_toNat c
  have h : ¬ (65 ≤ (goCharLower c).toNat ∧ (goCharLower c).toNat ≤ 90) := by
    rw [hv]
    split <;> omega
  exact (show goCharLower (goCharLower c)
      = if 65 ≤ (goCharLower c).toNat ∧ (goCharLower c).toNat ≤ 90 then
          Char.ofNat ((goCharLower c).toNat + 32)
        else goCharLower c from rfl).trans (if_neg h)

theorem goToLower_idem (l : GoStr) : goToLower (goToLower l) = goToLower l := by
  unfold goToLower
  rw [List.map_map]
  exact List.map_congr_left (fun c _ => goCharLower_idem c)

theorem leadCount_map_lower (l : GoStr) :
    leadCount '\\' (l.map goCharLower) = leadCount '\\' l := by
  induction l with
  | nil => rfl
  | cons c rest ih =>
      rw [List.map_cons]
      have hbs : (goCharLower c = '\\') = (c = '\\') :=
        propext (goCharLower_eq_iff '\\' (by right; right; exact ⟨by decide, by decide⟩) c)
      show (if goCharLower c = '\\' then leadCount '\\' (rest.map goCharLower) + 1 else 0)
        = if c = '\\' then leadCount '\\' rest + 1 else 0
      simp only [hbs, ih]

theorem isFqdnL_toLower (l : GoStr) : isFqdnL (goToLower l) = isFqdnL l := by
  unfold isFqdnL goToLower
  rw [← List.map_reverse]
  cases l.reverse with
  | nil => rfl
  | cons c rest =>
      rw [List.map_cons]
      have hdot : (goCharLower c = '.') = (c = '.') :=
        propext (goCharLower_eq_iff '.' (by left; decide) c)
      simp only [hdot, leadCount_map_lower]

theorem ensureDot_reverse (x : GoStr) : ∃ w : GoStr, (ensureDotL x).reverse = '.' :: w := by
  cases hx : x.getLast? with
  | none =>
      have hstep : ensureDotL x = x ++ ['.'] := by unfold ensureDotL; rw [hx]
      exact ⟨x.reverse, by rw [hstep]; simp⟩
  | some c =>
      by_cases hc : c = '.'
      · subst hc
        have hstep : ensureDotL x = x := by unfold ensureDotL; rw [hx]; simp
        obtain ⟨w, hw⟩ : ∃ w, x.reverse = '.' :: w := by
          have h1 : x.reverse.head? = some '.' := by rw [List.head?_reverse]; exact hx
          cases hr : x.reverse with
          | nil => rw [hr] at h1; simp at h1
          | cons a as =>
              rw [hr] at h1
              simp at h1
              exact ⟨as, by rw [h1]⟩
        exact ⟨w, by rw [hstep]; exact hw⟩
      · have hstep : ensureDotL x = x ++ ['.'] := by unfold ensureDotL; rw [hx]; simp [hc]
        exact ⟨x.reverse, by rw [hstep]; simp⟩

theorem isFqdn_of_dotEnd (y : GoStr) (w : GoStr) (hy : y.reverse = '.' :: w) :
    isFqdnL (fqdnL y) = true := by
  unfold fqdnL
  cases hf : isFqdnL y with
  | true => simp [hf]
  | false =>
      simp only [hf, Bool.false_eq_true, if_neg, not_false_iff]
      unfold isFqdnL
      rw [List.reverse_append, show (['.'] : GoStr).reverse = ['.'] from rfl]
      simp only [List.singleton_append, hy]
      simp [leadCount]

theorem isFqdn_addNormalize (x : GoStr) : isFqdnL (addNormalize x) = true := by
  unfold addNormalize
  rw [isFqdnL_toLower]
  obtain ⟨w, hw⟩ := ensureDot_reverse x
  exact isFqdn_of_dotEnd _ w hw

theorem addNormalize_lower_fix (x : GoStr) : goToLower (addNormalize x) = addNormalize x :=
  goToLower_idem _

theorem fqdnL_of_isFqdn (k : GoStr) (h : isFqdnL k = true) : fqdnL k = k := by
  unfold fqdnL
  rw [h]
  simp

theorem isFqdn_decomp (k : GoStr) (h : isFqdnL k = true) : ∃ z, k = z ++ ['.'] := by
  unfold isFqdnL at h
  cases hr : k.reverse with
  | nil => rw [hr] at h; simp at h
  | cons c rest =>
      rw [hr] at h
      simp only [Bool.and_eq_true, decide_eq_true_eq] at h
      refine ⟨rest.reverse, ?_⟩
      have hk : k = k.reverse.reverse := (List.reverse_reverse k).symm
      rw [hk, hr, h.1]
      simp

theorem splitSep_ne_nil (c : Char) : ∀ l : GoStr, splitSep c l ≠ []
  | [] => by simp [splitSep]
  | a :: rest => by
      unfold splitSep
      by_cases h : a = c
      · simp [h]
      · rw [if_neg h]
        unfold consHead
        cases splitSep c rest <;> simp

theorem joinSep_consHead (c a : Char) (S : List GoStr) (hS : S ≠ []) :
    joinSep c (consHead a S) = a :: joinSep c S := by
  cases S with
  | nil => exact absurd rfl hS
  | cons s rest =>
      cases rest with
      | nil => rfl
      | cons s2 r2 => rfl

theorem joinSep_splitSep (c : Char) : ∀ l : GoStr, joinSep c (splitSep c l) = l
  | [] => rfl
  | a :: rest => by
      unfold splitSep
      by_cases h : a = c
      · rw [if_pos h]
        cases hS : splitSep c rest with
        | nil => exact absurd hS (splitSep_ne_nil c rest)
        | cons s0 srest =>
            show joinSep c ([] :: s0 :: srest) = a :: rest
            have : joinSep c ([] :: s0 :: srest) = c :: joinSep c (s0 :: srest) := rfl
            rw [this, ← hS, joinSep_splitSep c rest, h]
      · rw [if_neg h, joinSep_consHead c a _ (splitSep_ne_nil c rest),
          joinSep_splitSep c rest]

theorem domainToPath_inj (k1 k2 : GoStr)
    (h1 : isFqdnL k1 = true) (hL1 : goToLower k1 = k1)
    (h2 : isFqdnL k2 = true) (hL2 : goToLower k2 = k2)
    (hp : domainToPathL k1 = domainToPathL k2) : k1 = k2 := by
  obtain ⟨z1, he1⟩ := isFqdn_decomp k1 h1
  obtain ⟨z2, he2⟩ := isFqdn_decomp k2 h2
  unfold domainToPathL at hp
  rw [fqdnL_of_isFqdn _ h1, hL1, fqdnL_of_isFqdn _ h2, hL2, he1, he2] at hp
  simp only [trimSuffixL_append] at hp
  rw [he1, he2]
  by_cases hz1 : z1 = [] <;> by_cases hz2 : z2 = []
  · rw [hz1, hz2]
  · rw [if_pos hz1, if_neg hz2] at hp
    exfalso
    have := splitSep_ne_nil '.' z2
    cases hS : splitSep '.' z2 with
    | nil => exact this hS
    | cons s0 srest => rw [hS] at hp; simp at hp
  · rw [if_neg hz1, if_pos hz2] at hp
    exfalso
    have := splitSep_ne_nil '.' z1
    cases hS : splitSep '.' z1 with
    | nil => exact this hS
    | cons s0 srest => rw [hS] at hp; simp at hp
  · rw [if_neg hz1, if_neg hz2] at hp
    have hsp : splitSep '.' z1 = splitSep '.' z2 := by
      have := congrArg List.reverse hp
      simpa using this
    have hz : z1 = z2 := by
      have := congrArg (joinSep '.') hsp
      rwa [joinSep_splitSep, joinSep_splitSep] at this
    rw [hz]

theorem containsWild_map_lower (l : GoStr) : containsWildL (goToLower l) = containsWildL l := by
  unfold containsWildL goToLower
  induction l with
  | nil => rfl
  | cons c rest ih =>
      have h1 : (goCharLower c = '*') = (c = '*') :=
        propext (goCharLower_eq_iff '*' (by left; decide) c)
      have h2 : (goCharLower c = '?') = (c = '?') :=
        propext (goCharLower_eq_iff '?' (by left; decide) c)
      simp only [List.map_cons, List.any_cons, h1, h2, ih]

theorem containsWild_append_dot (x : GoStr) : containsWildL (x ++ ['.']) = containsWildL x := by
  unfold containsWildL
  rw [List.any_append]
  simp

theorem containsWild_ensureDot (x : GoStr) : containsWildL (ensureDotL x) = containsWildL x := by
  unfold ensureDotL
  cases x.getLast? with
  | none => exact containsWild_append_dot x
  | some c =>
      by_cases hc : c = '.'
      · simp [hc]
      · simp only [hc, if_neg, not_false_iff]
        exact containsWild_append_dot x

theorem containsWild_fqdn (x : GoStr) : containsWildL (fqdnL x) = containsWildL x := by
  unfold fqdnL
  by_cases h : isFqdnL x = true
  · simp [h]
  · simp only [h, Bool.false_eq_true, if_neg, not_false_iff]
    exact containsWild_append_dot x

theorem containsWild_addNormalize_eq (x : GoStr) :
    containsWildL (addNormalize x) = containsWildL x := by
  unfold addNormalize
  rw [containsWild_map_lower, containsWild_fqdn, containsWild_ensureDot]

theorem valid_not_err (ip : IPBytes) (hval : ip.length = 4 ∨ ip.length = 16) :
    ¬ (¬ (goTo4 ip).isSome = true ∧ (goTo16 ip).isNone = true) := by
  rcases hval with h | h
  · intro hc
    apply hc.1
    unfold goTo4
    rw [if_pos h]
    rfl
  · intro hc
    have : goTo16 ip = some ip := by
      unfold goTo16
      rw [if_neg (by omega), if_pos h]
    rw [this] at hc
    simp at hc

theorem addRecord_exact_step (s : DNSRecordStore) (d : GoStr) (ip : IPBytes)
    (hw : containsWildL (addNormalize d) = false)
    (hval : ip.length = 4 ∨ ip.length = 16) :
    addRecordRun s d ip =
      { s with
        root := trieAdd s.root (domainToPathL (addNormalize d))
          (fun od => appendIP (od.getD { A := [], AAAA := [] }) ip (goTo4 ip).isSome),
        ptrRecords := alistPut s.ptrRecords (ipStringL ip) (addNormalize d) } := by
  unfold addRecordRun addRecord
  simp only [valid_not_err ip hval, if_neg, not_false_iff, hw, Bool.false_eq_true,
    Option.getD_some]

theorem removeRecord_exact_none (s : DNSRecordStore) (d : GoStr) (ip : IPBytes)
    (hw : containsWildL (addNormalize d) = false)
    (htd : trieDataAt s.root (domainToPathL (addNormalize d)) = none) :
    removeRecord s d (some ip) = s := by
  unfold removeRecord
  simp only [hw, Bool.false_eq_true, if_neg, not_false_iff, htd]

theorem removeRecord_exact_some_ptr (s : DNSRecordStore) (d : GoStr) (ip : IPBytes)
    (rs : RecordSet) (hw : containsWildL (addNormalize d) = false)
    (htd : trieDataAt s.root (domainToPathL (addNormalize d)) = some rs) :
    (removeRecord s d (some ip)).ptrRecords
      = ptrDelIfOwned s.ptrRecords (ipStringL ip) (addNormalize d) := by
  unfold removeRecord
  simp only [hw, Bool.false_eq_true, if_neg, not_false_iff, htd]

theorem removeRecord_exact_some_root (s : DNSRecordStore) (d : GoStr) (ip : IPBytes)
    (rs : RecordSet) (hw : containsWildL (addNormalize d) = false)
    (htd : trieDataAt s.root (domainToPathL (addNormalize d)) = some rs) :
    ∃ nd, (removeRecord s d (some ip)).root
      = trieSetData s.root (domainToPathL (addNormalize d)) nd := by
  unfold removeRecord
  simp only [hw, Bool.false_eq_true, if_neg, not_false_iff, htd]
  exact ⟨_, rfl⟩

theorem ipString_mapped (q : IPBytes) (hq : q.length = 4) :
    ipStringL (v4mapPre ++ q) = ipStringL q := by
  obtain ⟨a, b, c, d, rfl⟩ := list_len4 q hq
  have hg1 : goTo4 (v4mapPre ++ [a, b, c, d]) = some [a, b, c, d] := by
    unfold goTo4
    rw [if_neg (by simp [v4mapPre]),
      if_pos ⟨by simp [v4mapPre], List.take_left' (show v4mapPre.length = 12 from by decide)⟩]
    have h3 := List.drop_left v4mapPre [a, b, c, d]
    simp only [show v4mapPre.length = 12 from by decide] at h3
    rw [h3]
  have hg2 : goTo4 [a, b, c, d] = some [a, b, c, d] := by
    unfold goTo4
    simp
  unfold ipStringL
  rw [if_neg (show ¬ (v4mapPre ++ [a, b, c, d] = []) from by simp), hg1]
  rw [if_neg (show ¬ (([a, b, c, d] : IPBytes) = []) from by simp), hg2]

theorem ipString_goTo16 (ip : IPBytes) (hval : ip.length = 4 ∨ ip.length = 16) :
    ∃ c16, goTo16 ip = some c16 ∧ ipStringL c16 = ipStringL ip := by
  rcases hval with h | h
  · refine ⟨v4mapPre ++ ip, ?_, ipString_mapped ip h⟩
    unfold goTo16
    rw [if_pos h]
  · refine ⟨ip, ?_, rfl⟩
    unfold goTo16
    rw [if_neg (by omega), if_pos h]

theorem getPTRRecord_reverse (s : DNSRecordStore) (ip : IPBytes)
    (hval : ip.length = 4 ∨ ip.length = 16) (hb : ∀ x ∈ ip, x < 256) :
    getPTRRecord s (IPToReverseDNS ip) =
      (match alistGet s.ptrRecords (ipStringL ip) with
       | some dm => (dm, true)
       | none => ([], false)) := by
  unfold getPTRRecord
  rw [reverseDNSToIP_IPToReverseDNS ip hval hb]
  obtain ⟨c16, hg, hs⟩ := ipString_goTo16 ip hval
  rw [hg]
  show (match alistGet s.ptrRecords (ipStringL c16) with
        | some dm => (dm, true)
        | none => ([], false)) = _
  rw [hs]

/-- C3: last-writer-wins PTR ownership. For non-wildcard names `d1`, `d2` that are
distinct after normalization and a valid address `ip`: after `AddRecord d1 ip` then
`AddRecord d2 ip`, `GetPTRRecord` at the reverse name of `ip` returns
`(addNormalize d2, true)`; a subsequent `RemoveRecord d1 ip` leaves it unchanged
(the guarded deletion does not remove a PTR entry owned by another domain);
a further `RemoveRecord d2 ip` clears it to `([], false)`. -/
theorem addRecord_lastWriter_ptr (s : DNSRecordStore) (d1 d2 : GoStr) (ip : IPBytes)
    (hw1 : containsWildL d1 = false) (hw2 : containsWildL d2 = false)
    (hne : addNormalize d1 ≠ addNormalize d2)
    (hval : ip.length = 4 ∨ ip.length = 16) (hb : ∀ x ∈ ip, x < 256) :
    getPTRRecord (addRecordRun (addRecordRun s d1 ip) d2 ip) (IPToReverseDNS ip)
        = (addNormalize d2, true) ∧
    getPTRRecord (removeRecord (addRecordRun (addRecordRun s d1 ip) d2 ip) d1 (some ip))
        (IPToReverseDNS ip) = (addNormalize d2, true) ∧
    getPTRRecord (removeRecord (removeRecord (addRecordRun (addRecordRun s d1 ip) d2 ip)
        d1 (some ip)) d2 (some ip)) (IPToReverseDNS ip) = ([], false) := by
  have hwn1 : containsWildL (addNormalize d1) = false := by
    rw [containsWild_addNormalize_eq]; exact hw1
  have hwn2 : containsWildL (addNormalize d2) = false := by
    rw [containsWild_addNormalize_eq]; exact hw2
  have hp12 : domainToPathL (addNormalize d1) ≠ domainToPathL (addNormalize d2) := by
    intro h
    exact hne (domainToPath_inj _ _ (isFqdn_addNormalize d1) (addNormalize_lower_fix d1)
      (isFqdn_addNormalize d2) (addNormalize_lower_fix d2) h)
  have hstep2 := addRecord_exact_step (addRecordRun s d1 ip) d2 ip hwn2 hval
  have hptr2 : (addRecordRun (addRecordRun s d1 ip) d2 ip).ptrRecords
      = alistPut (addRecordRun s d1 ip).ptrRecords (ipStringL ip) (addNormalize d2) := by
    rw [hstep2]
  have hget2 : alistGet (addRecordRun (addRecordRun s d1 ip) d2 ip).ptrRecords (ipStringL ip)
      = some (addNormalize d2) := by
    rw [hptr2]; exact alistGet_put_eq _ _ _
  have hA : getPTRRecord (addRecordRun (addRecordRun s d1 ip) d2 ip) (IPToReverseDNS ip)
      = (addNormalize d2, true) := by
    rw [getPTRRecord_reverse _ ip hval hb, hget2]
  have hptr3 : (removeRecord (addRecordRun (addRecordRun s d1 ip) d2 ip)
      d1 (some ip)).ptrRecords
      = (addRecordRun (addRecordRun s d1 ip) d2 ip).ptrRecords := by
    cases htd : trieDataAt (addRecordRun (addRecordRun s d1 ip) d2 ip).root
        (domainToPathL (addNormalize d1)) with
    | none => rw [removeRecord_exact_none _ d1 ip hwn1 htd]
    | some rs =>
        have hne2 : ¬ (addNormalize d2 = addNormalize d1) := fun h => hne h.symm
        rw [removeRecord_exact_some_ptr _ d1 ip rs hwn1 htd]
        unfold ptrDelIfOwned
        rw [hget2]
        simp [hne2]
  have hget3 : alistGet
      (removeRecord (addRecordRun (addRecordRun s d1 ip) d2 ip) d1 (some ip)).ptrRecords
      (ipStringL ip) = some (addNormalize d2) := by
    rw [hptr3]; exact hget2
  have hB : getPTRRecord
      (removeRecord (addRecordRun (addRecordRun s d1 ip) d2 ip) d1 (some ip))
      (IPToReverseDNS ip) = (addNormalize d2, true) := by
    rw [getPTRRecord_reverse _ ip hval hb, hget3]
  have hdata2 : ∃ rs2, trieDataAt (addRecordRun (addRecordRun s d1 ip) d2 ip).root
      (domainToPathL (addNormalize d2)) = some rs2 := by
    rw [hstep2]
    exact ⟨_, trieAdd_dataAt_eq _ _ _⟩
  have hdata3 : ∃ rs3, trieDataAt
      (removeRecord (addRecordRun (addRecordRun s d1 ip) d2 ip) d1 (some ip)).root
      (domainToPathL (addNormalize d2)) = some rs3 := by
    cases htd : trieDataAt (addRecordRun (addRecordRun s d1 ip) d2 ip).root
        (domainToPathL (addNormalize d1)) with
    | none => rw [removeRecord_exact_none _ d1 ip hwn1 htd]; exact hdata2
    | some rs =>
        obtain ⟨nd, hroot⟩ := removeRecord_exact_some_root _ d1 ip rs hwn1 htd
        rw [hroot, trieSetData_dataAt_ne _ _ _ _ (fun h => hp12 h.symm)]
        exact hdata2
  obtain ⟨rs3, hrs3⟩ := hdata3
  have hptr4 : (removeRecord (removeRecord (addRecordRun (addRecordRun s d1 ip) d2 ip)
      d1 (some ip)) d2 (some ip)).ptrRecords
      = alistDel (removeRecord (addRecordRun (addRecordRun s d1 ip) d2 ip)
          d1 (some ip)).ptrRecords (ipStringL ip) := by
    rw [removeRecord_exact_some_ptr _ d2 ip rs3 hwn2 hrs3]
    unfold ptrDelIfOwned
    rw [hget3]
    simp
  have hget4 : alistGet (removeRecord (removeRecord (addRecordRun (addRecordRun s d1 ip)
      d2 ip) d1 (some ip)) d2 (some ip)).ptrRecords (ipStringL ip) = none := by
    rw [hptr4]; exact alistGet_del_eq _ _
  have hC : getPTRRecord (removeRecord (removeRecord (addRecordRun (addRecordRun s d1 ip)
      d2 ip) d1 (some ip)) d2 (some ip)) (IPToReverseDNS ip) = ([], false) := by
    rw [getPTRRecord_reverse _ ip hval hb, hget4]
  exact ⟨hA, hB, hC⟩

theorem addRecord_lastWriter_ptr_witness :
    containsWildL (gs "a.autoco.internal.") = false ∧
    containsWildL (gs "b.autoco.internal.") = false ∧
    addNormalize (gs "a.autoco.internal.") ≠ addNormalize (gs "b.autoco.internal.") ∧
    ([10, 0, 0, 1] : IPBytes).length = 4 ∧
    (∀ x ∈ ([10, 0, 0, 1] : IPBytes), x < 256) ∧
    (getPTRRecord (addRecordRun (addRecordRun newStore (gs "a.autoco.internal.") [10, 0, 0, 1])
          (gs "b.autoco.internal.") [10, 0, 0, 1]) (IPToReverseDNS [10, 0, 0, 1])
        = (addNormalize (gs "b.autoco.internal."), true) ∧
      getPTRRecord (removeRecord (addRecordRun (addRecordRun newStore
            (gs "a.autoco.internal.") [10, 0, 0, 1]) (gs "b.autoco.internal.") [10, 0, 0, 1])
          (gs "a.autoco.internal.") (some [10, 0, 0, 1])) (IPToReverseDNS [10, 0, 0, 1])
        = (addNormalize (gs "b.autoco.internal."), true) ∧
      getPTRRecord (removeRecord (removeRecord (addRecordRun (addRecordRun newStore
            (gs "a.autoco.internal.") [10, 0, 0, 1]) (gs "b.autoco.internal.") [10, 0, 0, 1])
          (gs "a.autoco.internal.") (some [10, 0, 0, 1])) (gs "b.autoco.internal.")
          (some [10, 0, 0, 1])) (IPToReverseDNS [10, 0, 0, 1]) = ([], false)) :=
  ⟨by decide, by decide, by decide, by decide, by decide,
   addRecord_lastWriter_ptr newStore (gs "a.autoco.internal.") (gs "b.autoco.internal.")
     [10, 0, 0, 1] (by decide) (by decide) (by decide) (Or.inl (by decide)) (by decide)⟩

/-- A fully normalized map key: an FQDN fixed by lowercasing. -/
def goodKey (n : GoStr) : Prop := isFqdnL n = true ∧ goToLower n = n

theorem goodKey_addNormalize (d : GoStr) : goodKey (addNormalize d) :=
  ⟨isFqdn_addNormalize d, addNormalize_lower_fix d⟩

theorem leadCount_eq_zero (c : Char) (l : GoStr) (h : ∀ x ∈ l, x ≠ c) :
    leadCount c l = 0 := by
  cases l with
  | nil => rfl
  | cons x xs =>
      unfold leadCount
      rw [if_neg (h x (by simp))]

theorem goodKey_queryNormalize (q : GoStr) (hq : ∀ c ∈ q, c ≠ '\\') :
    goodKey (queryNormalize q) := by
  constructor
  · unfold queryNormalize
    rw [isFqdnL_toLower]
    unfold fqdnL
    by_cases hf : isFqdnL q = true
    · rwa [if_pos hf]
    · rw [if_neg hf]
      unfold isFqdnL
      rw [List.reverse_append, show (['.'] : GoStr).reverse = ['.'] from rfl]
      simp only [List.singleton_append]
      have hz : leadCount '\\' q.reverse = 0 :=
        leadCount_eq_zero _ _ (fun x hx => hq x (List.mem_reverse.mp hx))
      simp [hz]
  · exact goToLower_idem _

theorem path_ne_of_goodKey_ne (n m : GoStr) (hn : goodKey n) (hm : goodKey m)
    (h : n ≠ m) : domainToPathL n ≠ domainToPathL m :=
  fun he => h (domainToPath_inj n m hn.1 hn.2 hm.1 hm.2 he)

theorem mem_keys_alistPut {α β : Type} [DecidableEq α] (l : List (α × β)) (k : α) (v : β)
    (x : α) (hx : x ∈ (alistPut l k v).map Prod.fst) : x = k ∨ x ∈ l.map Prod.fst := by
  induction l with
  | nil => simp [alistPut] at hx; simp [hx]
  | cons a t ih =>
      unfold alistPut at hx
      by_cases ha : a.1 = k
      · rw [if_pos ha] at hx
        simp only [List.map_cons, List.mem_cons] at hx
        rcases hx with hx | hx
        · exact Or.inl hx
        · exact Or.inr (by simp [hx])
      · rw [if_neg ha] at hx
        simp only [List.map_cons, List.mem_cons] at hx
        rcases hx with hx | hx
        · exact Or.inr (by simp [hx])
        · rcases ih hx with h1 | h1
          · exact Or.inl h1
          · exact Or.inr (by simp [h1])

theorem alistPut_keys_nodup {α β : Type} [DecidableEq α] (l : List (α × β)) (k : α) (v : β)
    (h : (l.map Prod.fst).Nodup) : ((alistPut l k v).map Prod.fst).Nodup := by
  induction l with
  | nil => simp [alistPut]
  | cons a t ih =>
      simp only [List.map_cons, List.nodup_cons] at h
      unfold alistPut
      by_cases ha : a.1 = k
      · rw [if_pos ha]
        simp only [List.map_cons, List.nodup_cons]
        exact ⟨by rw [← ha]; exact h.1, h.2⟩
      · rw [if_neg ha]
        simp only [List.map_cons, List.nodup_cons]
        refine ⟨fun hc => ?_, ih h.2⟩
        rcases mem_keys_alistPut t k v a.1 hc with h1 | h1
        · exact ha h1
        · exact h.1 h1

theorem alistDel_sublist {α β : Type} [DecidableEq α] (l : List (α × β)) (k : α) :
    (alistDel l k).Sublist l := by
  induction l with
  | nil => simp [alistDel]
  | cons a t ih =>
      unfold alistDel
      by_cases ha : a.1 = k
      · rw [if_pos ha]
        exact ih.cons a
      · rw [if_neg ha]
        exact ih.cons₂ a

theorem alistDel_keys_nodup {α β : Type} [DecidableEq α] (l : List (α × β)) (k : α)
    (h : (l.map Prod.fst).Nodup) : ((alistDel l k).map Prod.fst).Nodup :=
  ((alistDel_sublist l k).map Prod.fst).nodup h

theorem alistGet_some_iff_mem {α β : Type} [DecidableEq α] (l : List (α × β))
    (h : (l.map Prod.fst).Nodup) (k : α) (v : β) :
    alistGet l k = some v ↔ (k, v) ∈ l := by
  induction l with
  | nil => simp [alistGet]
  | cons a t ih =>
      simp only [List.map_cons, List.nodup_cons] at h
      unfold alistGet
      by_cases ha : a.1 = k
      · rw [if_pos ha]
        simp only [List.mem_cons, Option.some.injEq]
        constructor
        · intro hv
          left
          rw [← ha, ← hv]
        · intro hv
          rcases hv with hv | hv
          · rw [← hv]
          · exfalso
            apply h.1
            rw [ha]
            exact List.mem_map.mpr ⟨(k, v), hv, rfl⟩
      · rw [if_neg ha]
        rw [ih h.2]
        simp only [List.mem_cons]
        constructor
        · exact fun hv => Or.inr hv
        · intro hv
          rcases hv with hv | hv
          · exfalso
            apply ha
            rw [← hv]
          · exact hv

theorem ipEqual_invalid (x y : IPBytes) (hx : x.length = 4 ∨ x.length = 16)
    (hy : ¬ (y.length = 4 ∨ y.length = 16)) : ipEqual x y = false := by
  unfold ipEqual
  rw [if_neg (by omega), if_neg (by omega), if_neg (by omega)]

theorem removeIP_invalid (l : List IPBytes) (ip : IPBytes)
    (hl : ∀ x ∈ l, x.length = 4 ∨ x.length = 16)
    (hip : ¬ (ip.length = 4 ∨ ip.length = 16)) : removeIP l ip = l := by
  unfold removeIP
  apply List.filter_eq_self.mpr
  intro x hx
  simp [ipEqual_invalid x ip (hl x hx) hip]

theorem valid_length (ip : IPBytes)
    (h : (goTo4 ip).isSome = true ∨ (goTo16 ip).isSome = true) :
    ip.length = 4 ∨ ip.length = 16 := by
  by_contra hc
  unfold goTo4 goTo16 at h
  rw [if_neg (by omega), if_neg (by omega), if_neg (by omega), if_neg (by omega)] at h
  simp at h

/-- The empty record set. -/
def rsEmpty : RecordSet := { A := [], AAAA := [] }

/-- The A list of an optional record set. -/
def dataA (o : Option RecordSet) : List IPBytes := (o.getD rsEmpty).A

/-- The AAAA list of an optional record set. -/
def dataAAAA (o : Option RecordSet) : List IPBytes := (o.getD rsEmpty).AAAA

/-- Every stored address has a valid length. -/
def okIPs (l : List IPBytes) : Prop := ∀ x ∈ l, x.length = 4 ∨ x.length = 16

/-- Both lists of a record set hold valid-length addresses. -/
def okRS (rs : RecordSet) : Prop := okIPs rs.A ∧ okIPs rs.AAAA

theorem okIPs_removeIP (l : List IPBytes) (ip : IPBytes) (h : okIPs l) :
    okIPs (removeIP l ip) :=
  fun x hx => h x (List.mem_of_mem_filter hx)

theorem okIPs_append (l : List IPBytes) (ip : IPBytes) (h : okIPs l)
    (hip : ip.length = 4 ∨ ip.length = 16) : okIPs (l ++ [ip]) := by
  intro x hx
  rcases List.mem_append.mp hx with h1 | h1
  · exact h x h1
  · rw [List.mem_singleton.mp h1]
    exact hip

/-- Simulation relation between the trie store and the flat store: the record
components agree pointwise (the PTR tables are deliberately not related). -/
structure StoreRel (s : DNSRecordStore) (f : Flat.Store) : Prop where
  exA : ∀ n, goodKey n →
    (alistGet f.aRecords n).getD [] = dataA (trieDataAt s.root (domainToPathL n)) ∧
    alistGet f.aRecords n ≠ some []
  exQ : ∀ n, goodKey n →
    (alistGet f.aaaaRecords n).getD [] = dataAAAA (trieDataAt s.root (domainToPathL n)) ∧
    alistGet f.aaaaRecords n ≠ some []
  wA : ∀ n, (alistGet f.aWildcards n).getD [] = dataA (alistGet s.wildcards n) ∧
    alistGet f.aWildcards n ≠ some []
  wQ : ∀ n, (alistGet f.aaaaWildcards n).getD [] = dataAAAA (alistGet s.wildcards n) ∧
    alistGet f.aaaaWildcards n ≠ some []
  ndW : (s.wildcards.map Prod.fst).Nodup
  ndA : (f.aWildcards.map Prod.fst).Nodup
  ndQ : (f.aaaaWildcards.map Prod.fst).Nodup
  vW : ∀ n rs, alistGet s.wildcards n = some rs → okRS rs
  vT : ∀ n, goodKey n → ∀ rs, trieDataAt s.root (domainToPathL n) = some rs → okRS rs

theorem trie_add_invalid (s : DNSRecordStore) (d : GoStr) (ip : IPBytes)
    (hv4 : (goTo4 ip).isSome = false) (hv16 : (goTo16 ip).isSome = false) :
    addRecordRun s d ip = s := by
  unfold addRecordRun addRecord
  cases hg : goTo16 ip with
  | some v => rw [hg] at hv16; simp at hv16
  | none => simp [hv4, hg]

theorem trie_add_wild (s : DNSRecordStore) (d : GoStr) (ip : IPBytes)
    (hval : ip.length = 4 ∨ ip.length = 16)
    (hw : containsWildL (addNormalize d) = true) :
    addRecordRun s d ip =
      { s with wildcards := alistPut s.wildcards (addNormalize d) (appendIP ((alistGet s.wildcards (addNormalize d)).getD rsEmpty) ip (goTo4 ip).isSome) } := by
  unfold addRecordRun addRecord
  simp only [valid_not_err ip hval, if_neg, not_false_iff, hw, if_true, Option.getD_some]
  rfl

theorem trie_remove_wild_nil (s : DNSRecordStore) (d : GoStr)
    (hw : containsWildL (addNormalize d) = true) :
    removeRecord s d none = { s with wildcards := alistDel s.wildcards (addNormalize d) } := by
  unfold removeRecord
  simp only [hw, if_true]

theorem trie_remove_wild_miss (s : DNSRecordStore) (d : GoStr) (ip : IPBytes)
    (hw : containsWildL (addNormalize d) = true)
    (hm : alistGet s.wildcards (addNormalize d) = none) :
    removeRecord s d (some ip) = s := by
  unfold removeRecord
  simp only [hw, if_true, hm]

theorem trie_remove_wild_hit (s : DNSRecordStore) (d : GoStr) (ip : IPBytes)
    (rs rs2 : RecordSet)
    (hw : containsWildL (addNormalize d) = true)
    (hm : alistGet s.wildcards (addNormalize d) = some rs)
    (hrs2 : rs2 = if (goTo4 ip).isSome = true then { rs with A := removeIP rs.A ip } else { rs with AAAA := removeIP rs.AAAA ip }) :
    removeRecord s d (some ip) =
      if rs2.A = [] ∧ rs2.AAAA = [] then { s with wildcards := alistDel s.wildcards (addNormalize d) }
      else { s with wildcards := alistPut s.wildcards (addNormalize d) rs2 } := by
  subst hrs2
  unfold removeRecord
  simp only [hw, if_true, hm]

theorem trie_remove_exact_nil_miss (s : DNSRecordStore) (d : GoStr)
    (hw : containsWildL (addNormalize d) = false)
    (htd : trieDataAt s.root (domainToPathL (addNormalize d)) = none) :
    removeRecord s d none = s := by
  unfold removeRecord
  simp only [hw, Bool.false_eq_true, if_neg, not_false_iff, htd]

theorem trie_remove_exact_nil_hit (s : DNSRecordStore) (d : GoStr) (rs : RecordSet)
    (hw : containsWildL (addNormalize d) = false)
    (htd : trieDataAt s.root (domainToPathL (addNormalize d)) = some rs) :
    (removeRecord s d none).root = trieSetData s.root (domainToPathL (addNormalize d)) none ∧
      (removeRecord s d none).wildcards = s.wildcards := by
  unfold removeRecord
  simp only [hw, Bool.false_eq_true, if_neg, not_false_iff, htd]
  exact ⟨trivial, trivial⟩

theorem trie_remove_exact_hit (s : DNSRecordStore) (d : GoStr) (ip : IPBytes)
    (rs rs2 : RecordSet)
    (hw : containsWildL (addNormalize d) = false)
    (htd : trieDataAt s.root (domainToPathL (addNormalize d)) = some rs)
    (hrs2 : rs2 = if (goTo4 ip).isSome = true then { rs with A := removeIP rs.A ip } else { rs with AAAA := removeIP rs.AAAA ip }) :
    (removeRecord s d (some ip)).root = trieSetData s.root (domainToPathL (addNormalize d)) (if rs2.A = [] ∧ rs2.AAAA = [] then none else some rs2) ∧
      (removeRecord s d (some ip)).wildcards = s.wildcards := by
  subst hrs2
  unfold removeRecord
  simp only [hw, Bool.false_eq_true, if_neg, not_false_iff, htd]
  exact ⟨trivial, trivial⟩

theorem flat_add_invalid (f : Flat.Store) (d : GoStr) (ip : IPBytes)
    (hv4 : (goTo4 ip).isSome = false) (hv16 : (goTo16 ip).isSome = false) :
    Flat.addRecordRun f d ip = f := by
  unfold Flat.addRecordRun Flat.addRecord
  simp [hv4, hv16]

theorem flat_add_v4_wild (f : Flat.Store) (d : GoStr) (ip : IPBytes)
    (hv4 : (goTo4 ip).isSome = true)
    (hw : containsWildL (addNormalize d) = true) :
    Flat.addRecordRun f d ip =
      { f with aWildcards := alistPut f.aWildcards (addNormalize d) ((alistGet f.aWildcards (addNormalize d)).getD [] ++ [ip]) } := by
  unfold Flat.addRecordRun Flat.addRecord
  simp only [hv4, if_true, hw, Option.getD_some]

theorem flat_add_v4_exact (f : Flat.Store) (d : GoStr) (ip : IPBytes)
    (hv4 : (goTo4 ip).isSome = true)
    (hw : containsWildL (addNormalize d) = false) :
    Flat.addRecordRun f d ip =
      { f with aRecords := alistPut f.aRecords (addNormalize d) ((alistGet f.aRecords (addNormalize d)).getD [] ++ [ip]), ptrRecords := alistPut f.ptrRecords (ipStringL ip) (addNormalize d) } := by
  unfold Flat.addRecordRun Flat.addRecord
  simp only [hv4, if_true, hw, Bool.false_eq_true, if_neg, not_false_iff, Option.getD_some]

theorem flat_add_v6_wild (f : Flat.Store) (d : GoStr) (ip : IPBytes)
    (hv4 : (goTo4 ip).isSome = false) (hv16 : (goTo16 ip).isSome = true)
    (hw : containsWildL (addNormalize d) = true) :
    Flat.addRecordRun f d ip =
      { f with aaaaWildcards := alistPut f.aaaaWildcards (addNormalize d) ((alistGet f.aaaaWildcards (addNormalize d)).getD [] ++ [ip]) } := by
  unfold Flat.addRecordRun Flat.addRecord
  simp only [hv4, Bool.false_eq_true, if_neg, not_false_iff, hv16, if_true, hw, Option.getD_some]

theorem flat_add_v6_exact (f : Flat.Store) (d : GoStr) (ip : IPBytes)
    (hv4 : (goTo4 ip).isSome = false) (hv16 : (goTo16 ip).isSome = true)
    (hw : containsWildL (addNormalize d) = false) :
    Flat.addRecordRun f d ip =
      { f with aaaaRecords := alistPut f.aaaaRecords (addNormalize d) ((alistGet f.aaaaRecords (addNormalize d)).getD [] ++ [ip]), ptrRecords := alistPut f.ptrRecords (ipStringL ip) (addNormalize d) } := by
  unfold Flat.addRecordRun Flat.addRecord
  simp only [hv4, Bool.false_eq_true, if_neg, not_false_iff, hv16, if_true, hw, Option.getD_some]

theorem flat_remove_wild_nil (f : Flat.Store) (d : GoStr)
    (hw : containsWildL (addNormalize d) = true) :
    Flat.removeRecord f d none =
      { f with aWildcards := alistDel f.aWildcards (addNormalize d), aaaaWildcards := alistDel f.aaaaWildcards (addNormalize d) } := by
  unfold Flat.removeRecord
  simp only [hw, if_true]

theorem flat_remove_exact_nil (f : Flat.Store) (d : GoStr)
    (hw : containsWildL (addNormalize d) = false) :
    (Flat.removeRecord f d none).aRecords = alistDel f.aRecords (addNormalize d) ∧
      (Flat.removeRecord f d none).aaaaRecords = alistDel f.aaaaRecords (addNormalize d) ∧
      (Flat.removeRecord f d none).aWildcards = f.aWildcards ∧
      (Flat.removeRecord f d none).aaaaWildcards = f.aaaaWildcards := by
  unfold Flat.removeRecord
  simp only [hw, Bool.false_eq_true, if_neg, not_false_iff]
  exact ⟨trivial, trivial, trivial, trivial⟩

theorem flat_remove_invalid (f : Flat.Store) (d : GoStr) (ip : IPBytes)
    (hv4 : (goTo4 ip).isSome = false) (hv16 : (goTo16 ip).isSome = false) :
    Flat.removeRecord f d (some ip) = f := by
  unfold Flat.removeRecord
  simp [hv4, hv16]

theorem flat_remove_v4_wild_miss (f : Flat.Store) (d : GoStr) (ip : IPBytes)
    (hv4 : (goTo4 ip).isSome = true)
    (hw : containsWildL (addNormalize d) = true)
    (hm : alistGet f.aWildcards (addNormalize d) = none) :
    Flat.removeRecord f d (some ip) = f := by
  unfold Flat.removeRecord
  simp only [hv4, if_true, hw, hm]

theorem flat_remove_v4_wild_hit (f : Flat.Store) (d : GoStr) (ip : IPBytes)
    (ips : List IPBytes)
    (hv4 : (goTo4 ip).isSome = true)
    (hw : containsWildL (addNormalize d) = true)
    (hm : alistGet f.aWildcards (addNormalize d) = some ips) :
    Flat.removeRecord f d (some ip) =
      if removeIP ips ip = [] then { f with aWildcards := alistDel f.aWildcards (addNormalize d) }
      else { f with aWildcards := alistPut f.aWildcards (addNormalize d) (removeIP ips ip) } := by
  unfold Flat.removeRecord
  simp only [hv4, if_true, hw, hm]

theorem flat_remove_v4_exact_miss (f : Flat.Store) (d : GoStr) (ip : IPBytes)
    (hv4 : (goTo4 ip).isSome = true)
    (hw : containsWildL (addNormalize d) = false)
    (hm : alistGet f.aRecords (addNormalize d) = none) :
    Flat.removeRecord f d (some ip) = f := by
  unfold Flat.removeRecord
  simp only [hv4, if_true, hw, Bool.false_eq_true, if_neg, not_false_iff, hm]

theorem flat_remove_v4_exact_hit (f : Flat.Store) (d : GoStr) (ip : IPBytes)
    (ips : List IPBytes)
    (hv4 : (goTo4 ip).isSome = true)
    (hw : containsWildL (addNormalize d) = false)
    (hm : alistGet f.aRecords (addNormalize d) = some ips) :
    (Flat.removeRecord f d (some ip)).aRecords = (if removeIP ips ip = [] then alistDel f.aRecords (addNormalize d) else alistPut f.aRecords (addNormalize d) (removeIP ips ip)) ∧
      (Flat.removeRecord f d (some ip)).aaaaRecords = f.aaaaRecords ∧
      (Flat.removeRecord f d (some ip)).aWildcards = f.aWildcards ∧
      (Flat.removeRecord f d (some ip)).aaaaWildcards = f.aaaaWildcards := by
  unfold Flat.removeRecord
  simp only [hv4, if_true, hw, Bool.false_eq_true, if_neg, not_false_iff, hm]
  by_cases h2 : removeIP ips ip = [] <;> simp [h2]

theorem flat_remove_v6_wild_miss (f : Flat.Store) (d : GoStr) (ip : IPBytes)
    (hv4 : (goTo4 ip).isSome = false) (hv16 : (goTo16 ip).isSome = true)
    (hw : containsWildL (addNormalize d) = true)
    (hm : alistGet f.aaaaWildcards (addNormalize d) = none) :
    Flat.removeRecord f d (some ip) = f := by
  unfold Flat.removeRecord
  simp only [hv4, Bool.false_eq_true, if_neg, not_false_iff, hv16, if_true, hw, hm]

theorem flat_remove_v6_wild_hit (f : Flat.Store) (d : GoStr) (ip : IPBytes)
    (ips : List IPBytes)
    (hv4 : (goTo4 ip).isSome = false) (hv16 : (goTo16 ip).isSome = true)
    (hw : containsWildL (addNormalize d) = true)
    (hm : alistGet f.aaaaWildcards (addNormalize d) = some ips) :
    Flat.removeRecord f d (some ip) =
      if removeIP ips ip = [] then { f with aaaaWildcards := alistDel f.aaaaWildcards (addNormalize d) }
      else { f with aaaaWildcards := alistPut f.aaaaWildcards (addNormalize d) (removeIP ips ip) } := by
  unfold Flat.removeRecord
  simp only [hv4, Bool.false_eq_true, if_neg, not_false_iff, hv16, if_true, hw, hm]

theorem flat_remove_v6_exact_miss (f : Flat.Store) (d : GoStr) (ip : IPBytes)
    (hv4 : (goTo4 ip).isSome = false) (hv16 : (goTo16 ip).isSome = true)
    (hw : containsWildL (addNormalize d) = false)
    (hm : alistGet f.aaaaRecords (addNormalize d) = none) :
    Flat.removeRecord f d (some ip) = f := by
  unfold Flat.removeRecord
  simp only [hv4, Bool.false_eq_true, if_neg, not_false_iff, hv16, if_true, hw, hm]

theorem flat_remove_v6_exact_hit (f : Flat.Store) (d : GoStr) (ip : IPBytes)
    (ips : List IPBytes)
    (hv4 : (goTo4 ip).isSome = false) (hv16 : (goTo16 ip).isSome = true)
    (hw : containsWildL (addNormalize d) = false)
    (hm : alistGet f.aaaaRecords (addNormalize d) = some ips) :
    (Flat.removeRecord f d (some ip)).aaaaRecords = (if removeIP ips ip = [] then alistDel f.aaaaRecords (addNormalize d) else alistPut f.aaaaRecords (addNormalize d) (removeIP ips ip)) ∧
      (Flat.removeRecord f d (some ip)).aRecords = f.aRecords ∧
      (Flat.removeRecord f d (some ip)).aWildcards = f.aWildcards ∧
      (Flat.removeRecord f d (some ip)).aaaaWildcards = f.aaaaWildcards := by
  unfold Flat.removeRecord
  simp only [hv4, Bool.false_eq_true, if_neg, not_false_iff, hv16, if_true, hw, hm]
  by_cases h2 : removeIP ips ip = [] <;> simp [h2]

theorem dataA_some (rs : RecordSet) : dataA (some rs) = rs.A := rfl

theorem dataA_none : dataA none = [] := rfl

theorem dataAAAA_some (rs : RecordSet) : dataAAAA (some rs) = rs.AAAA := rfl

theorem dataAAAA_none : dataAAAA none = [] := rfl

theorem appendIP_A (rs : RecordSet) (ip : IPBytes) (b : Bool) :
    (appendIP rs ip b).A = if b then rs.A ++ [ip] else rs.A := by
  cases b <;> simp [appendIP]

theorem appendIP_AAAA (rs : RecordSet) (ip : IPBytes) (b : Bool) :
    (appendIP rs ip b).AAAA = if b then rs.AAAA else rs.AAAA ++ [ip] := by
  cases b <;> simp [appendIP]

theorem okRS_rsEmpty : okRS rsEmpty :=
  ⟨fun x hx => absurd hx (List.not_mem_nil x), fun x hx => absurd hx (List.not_mem_nil x)⟩

theorem okRS_getD_of (o : Option RecordSet) (h : ∀ rs, o = some rs → okRS rs) :
    okRS (o.getD rsEmpty) := by
  cases o with
  | none => exact okRS_rsEmpty
  | some r => exact h r rfl

theorem okRS_appendIP (rs : RecordSet) (ip : IPBytes) (b : Bool) (h : okRS rs)
    (hip : ip.length = 4 ∨ ip.length = 16) : okRS (appendIP rs ip b) := by
  cases b with
  | true => exact ⟨by rw [show (appendIP rs ip true).A = rs.A ++ [ip] from by simp [appendIP]]; exact okIPs_append _ _ h.1 hip, by rw [show (appendIP rs ip true).AAAA = rs.AAAA from by simp [appendIP]]; exact h.2⟩
  | false => exact ⟨by rw [show (appendIP rs ip false).A = rs.A from by simp [appendIP]]; exact h.1, by rw [show (appendIP rs ip false).AAAA = rs.AAAA ++ [ip] from by simp [appendIP]]; exact okIPs_append _ _ h.2 hip⟩

theorem rel_add (s : DNSRecordStore) (f : Flat.Store) (d : GoStr) (ip : IPBytes)
    (h : StoreRel s f) : StoreRel (addRecordRun s d ip) (Flat.addRecordRun f d ip) := by
  have gm : goodKey (addNormalize d) := goodKey_addNormalize d
  by_cases hv4 : (goTo4 ip).isSome = true
  · have hval : ip.length = 4 ∨ ip.length = 16 := valid_length ip (Or.inl hv4)
    by_cases hw : containsWildL (addNormalize d) = true
    · -- IPv4 wildcard add
      rw [trie_add_wild s d ip hval hw, flat_add_v4_wild f d ip hv4 hw]
      refine ⟨fun n hn => h.exA n hn, fun n hn => h.exQ n hn, ?_, ?_, alistPut_keys_nodup _ _ _ h.ndW, alistPut_keys_nodup _ _ _ h.ndA, h.ndQ, ?_, fun n hn rs hrs => h.vT n hn rs hrs⟩
      · intro n
        by_cases hn : n = addNormalize d
        · subst hn
          dsimp only
          rw [alistGet_put_eq, alistGet_put_eq]
          refine ⟨?_, by simp⟩
          rw [Option.getD_some, dataA_some, appendIP_A, hv4, if_pos rfl, (h.wA (addNormalize d)).1]
          rfl
        · dsimp only
          rw [alistGet_put_ne _ _ _ _ hn,
            alistGet_put_ne _ _ _ _ hn]
          exact h.wA n
      · intro n
        by_cases hn : n = addNormalize d
        · subst hn
          dsimp only
          rw [alistGet_put_eq]
          refine ⟨?_, (h.wQ (addNormalize d)).2⟩
          rw [dataAAAA_some, appendIP_AAAA, hv4, if_pos rfl, (h.wQ (addNormalize d)).1]
          rfl
        · dsimp only
          rw [alistGet_put_ne _ _ _ _ hn]
          exact h.wQ n
      · intro n rs hrs
        dsimp only at hrs
        by_cases hn : n = addNormalize d
        · subst hn
          rw [alistGet_put_eq, Option.some.injEq] at hrs
          rw [← hrs]
          exact okRS_appendIP _ _ _ (okRS_getD_of _ (h.vW _)) hval
        · rw [alistGet_put_ne _ _ _ _ hn] at hrs
          exact h.vW n rs hrs
    · -- IPv4 exact add
      simp only [Bool.not_eq_true] at hw
      rw [addRecord_exact_step s d ip hw hval, flat_add_v4_exact f d ip hv4 hw]
      refine ⟨?_, ?_, fun n => h.wA n, fun n => h.wQ n, h.ndW, h.ndA, h.ndQ, fun n rs hrs => h.vW n rs hrs, ?_⟩
      · intro n hn
        by_cases hne : n = addNormalize d
        · subst hne
          dsimp only
          rw [alistGet_put_eq, trieAdd_dataAt_eq]
          refine ⟨?_, by simp⟩
          rw [Option.getD_some, dataA_some, appendIP_A, hv4, if_pos rfl, (h.exA (addNormalize d) hn).1]
          rfl
        · dsimp only
          rw [alistGet_put_ne _ _ _ _ hne,
            trieAdd_dataAt_ne _ _ _ _ (path_ne_of_goodKey_ne n _ hn gm hne)]
          exact h.exA n hn
      · intro n hn
        by_cases hne : n = addNormalize d
        · subst hne
          dsimp only
          rw [trieAdd_dataAt_eq]
          refine ⟨?_, (h.exQ (addNormalize d) hn).2⟩
          rw [dataAAAA_some, appendIP_AAAA, hv4, if_pos rfl, (h.exQ (addNormalize d) hn).1]
          rfl
        · dsimp only
          rw [trieAdd_dataAt_ne _ _ _ _ (path_ne_of_goodKey_ne n _ hn gm hne)]
          exact h.exQ n hn
      · intro n hn rs hrs
        dsimp only at hrs
        by_cases hne : n = addNormalize d
        · subst hne
          rw [trieAdd_dataAt_eq, Option.some.injEq] at hrs
          rw [← hrs]
          exact okRS_appendIP _ _ _ (okRS_getD_of _ (h.vT (addNormalize d) hn)) hval
        · rw [trieAdd_dataAt_ne _ _ _ _ (path_ne_of_goodKey_ne n _ hn gm hne)] at hrs
          exact h.vT n hn rs hrs
  · have hv4f : (goTo4 ip).isSome = false := by simpa using hv4
    by_cases hv16 : (goTo16 ip).isSome = true
    · have hval : ip.length = 4 ∨ ip.length = 16 := valid_length ip (Or.inr hv16)
      by_cases hw : containsWildL (addNormalize d) = true
      · -- IPv6 wildcard add
        rw [trie_add_wild s d ip hval hw, flat_add_v6_wild f d ip hv4f hv16 hw]
        refine ⟨fun n hn => h.exA n hn, fun n hn => h.exQ n hn, ?_, ?_, alistPut_keys_nodup _ _ _ h.ndW, h.ndA, alistPut_keys_nodup _ _ _ h.ndQ, ?_, fun n hn rs hrs => h.vT n hn rs hrs⟩
        · intro n
          by_cases hn : n = addNormalize d
          · subst hn
            dsimp only
            rw [alistGet_put_eq]
            refine ⟨?_, (h.wA (addNormalize d)).2⟩
            rw [dataA_some, appendIP_A, hv4f, if_neg (by simp), (h.wA (addNormalize d)).1]
            rfl
          · dsimp only
            rw [alistGet_put_ne _ _ _ _ hn]
            exact h.wA n
        · intro n
          by_cases hn : n = addNormalize d
          · subst hn
            dsimp only
            rw [alistGet_put_eq, alistGet_put_eq]
            refine ⟨?_, by simp⟩
            rw [Option.getD_some, dataAAAA_some, appendIP_AAAA, hv4f, if_neg (by simp), (h.wQ (addNormalize d)).1]
            rfl
          · dsimp only
            rw [alistGet_put_ne _ _ _ _ hn,
              alistGet_put_ne _ _ _ _ hn]
            exact h.wQ n
        · intro n rs hrs
          dsimp only at hrs
          by_cases hn : n = addNormalize d
          · subst hn
            rw [alistGet_put_eq, Option.some.injEq] at hrs
            rw [← hrs]
            exact okRS_appendIP _ _ _ (okRS_getD_of _ (h.vW _)) hval
          · rw [alistGet_put_ne _ _ _ _ hn] at hrs
            exact h.vW n rs hrs
      · -- IPv6 exact add
        simp only [Bool.not_eq_true] at hw
        rw [addRecord_exact_step s d ip hw hval, flat_add_v6_exact f d ip hv4f hv16 hw]
        refine ⟨?_, ?_, fun n => h.wA n, fun n => h.wQ n, h.ndW, h.ndA, h.ndQ, fun n rs hrs => h.vW n rs hrs, ?_⟩
        · intro n hn
          by_cases hne : n = addNormalize d
          · subst hne
            dsimp only
            rw [trieAdd_dataAt_eq]
            refine ⟨?_, (h.exA (addNormalize d) hn).2⟩
            rw [dataA_some, appendIP_A, hv4f, if_neg (by simp), (h.exA (addNormalize d) hn).1]
            rfl
          · dsimp only
            rw [trieAdd_dataAt_ne _ _ _ _ (path_ne_of_goodKey_ne n _ hn gm hne)]
            exact h.exA n hn
        · intro n hn
          by_cases hne : n = addNormalize d
          · subst hne
            dsimp only
            rw [alistGet_put_eq, trieAdd_dataAt_eq]
            refine ⟨?_, by simp⟩
            rw [Option.getD_some, dataAAAA_some, appendIP_AAAA, hv4f, if_neg (by simp), (h.exQ (addNormalize d) hn).1]
            rfl
          · dsimp only
            rw [alistGet_put_ne _ _ _ _ hne,
              trieAdd_dataAt_ne _ _ _ _ (path_ne_of_goodKey_ne n _ hn gm hne)]
            exact h.exQ n hn
        · intro n hn rs hrs
          dsimp only at hrs
          by_cases hne : n = addNormalize d
          · subst hne
            rw [trieAdd_dataAt_eq, Option.some.injEq] at hrs
            rw [← hrs]
            exact okRS_appendIP _ _ _ (okRS_getD_of _ (h.vT (addNormalize d) hn)) hval
          · rw [trieAdd_dataAt_ne _ _ _ _ (path_ne_of_goodKey_ne n _ hn gm hne)] at hrs
            exact h.vT n hn rs hrs
    · have hv16f : (goTo16 ip).isSome = false := by simpa using hv16
      rw [trie_add_invalid s d ip hv4f hv16f, flat_add_invalid f d ip hv4f hv16f]
      exact h

theorem opt_none_of (o : Option (List IPBytes)) (h1 : o.getD [] = [])
    (h2 : o ≠ some []) : o = none := by
  cases o with
  | none => rfl
  | some v =>
      rw [Option.getD_some] at h1
      exact absurd (by rw [h1]) h2

theorem opt_some_of (o : Option (List IPBytes)) (v : List IPBytes)
    (h1 : o.getD [] = v) (hv : v ≠ []) : o = some v := by
  cases o with
  | none =>
      rw [Option.getD_none] at h1
      exact absurd h1.symm hv
  | some w =>
      rw [Option.getD_some] at h1
      rw [h1]

theorem invalid_length (ip : IPBytes)
    (hv4 : (goTo4 ip).isSome = false) (hv16 : (goTo16 ip).isSome = false) :
    ¬ (ip.length = 4 ∨ ip.length = 16) := by
  intro hc
  rcases hc with hc | hc
  · have : goTo4 ip = some ip := by unfold goTo4; rw [if_pos hc]
    rw [this] at hv4
    simp at hv4
  · have : goTo16 ip = some ip := by
      unfold goTo16
      rw [if_neg (by omega), if_pos hc]
    rw [this] at hv16
    simp at hv16

theorem okRS_removeA (rs : RecordSet) (ip : IPBytes) (h : okRS rs) :
    okRS { rs with A := removeIP rs.A ip } :=
  ⟨okIPs_removeIP _ _ h.1, h.2⟩

theorem okRS_removeQ (rs : RecordSet) (ip : IPBytes) (h : okRS rs) :
    okRS { rs with AAAA := removeIP rs.AAAA ip } :=
  ⟨h.1, okIPs_removeIP _ _ h.2⟩

theorem rel_wild_update (s : DNSRecordStore) (f : Flat.Store) (s2 : DNSRecordStore)
    (f2 : Flat.Store) (m : GoStr) (h : StoreRel s f)
    (hroot : s2.root = s.root)
    (hAR : f2.aRecords = f.aRecords) (hQR : f2.aaaaRecords = f.aaaaRecords)
    (hW : ∀ n, n ≠ m → alistGet s2.wildcards n = alistGet s.wildcards n)
    (hFA : ∀ n, n ≠ m → alistGet f2.aWildcards n = alistGet f.aWildcards n)
    (hFQ : ∀ n, n ≠ m → alistGet f2.aaaaWildcards n = alistGet f.aaaaWildcards n)
    (ndW2 : (s2.wildcards.map Prod.fst).Nodup)
    (ndA2 : (f2.aWildcards.map Prod.fst).Nodup)
    (ndQ2 : (f2.aaaaWildcards.map Prod.fst).Nodup)
    (hmA : (alistGet f2.aWildcards m).getD [] = dataA (alistGet s2.wildcards m) ∧
      alistGet f2.aWildcards m ≠ some [])
    (hmQ : (alistGet f2.aaaaWildcards m).getD [] = dataAAAA (alistGet s2.wildcards m) ∧
      alistGet f2.aaaaWildcards m ≠ some [])
    (hv : ∀ rs, alistGet s2.wildcards m = some rs → okRS rs) :
    StoreRel s2 f2 := by
  refine ⟨?_, ?_, ?_, ?_, ndW2, ndA2, ndQ2, ?_, ?_⟩
  · intro n hn
    rw [hAR, hroot]
    exact h.exA n hn
  · intro n hn
    rw [hQR, hroot]
    exact h.exQ n hn
  · intro n
    by_cases hn : n = m
    · subst hn
      exact hmA
    · rw [hFA n hn, hW n hn]
      exact h.wA n
  · intro n
    by_cases hn : n = m
    · subst hn
      exact hmQ
    · rw [hFQ n hn, hW n hn]
      exact h.wQ n
  · intro n rs hrs
    by_cases hn : n = m
    · subst hn
      exact hv rs hrs
    · rw [hW n hn] at hrs
      exact h.vW n rs hrs
  · intro n hn rs hrs
    rw [hroot] at hrs
    exact h.vT n hn rs hrs

theorem rel_exact_update (s : DNSRecordStore) (f : Flat.Store) (s2 : DNSRecordStore)
    (f2 : Flat.Store) (m : GoStr) (gm : goodKey m) (h : StoreRel s f)
    (hroot : ∀ n, goodKey n → n ≠ m →
      trieDataAt s2.root (domainToPathL n) = trieDataAt s.root (domainToPathL n))
    (hwild : s2.wildcards = s.wildcards)
    (hFA : ∀ n, n ≠ m → alistGet f2.aRecords n = alistGet f.aRecords n)
    (hFQ : ∀ n, n ≠ m → alistGet f2.aaaaRecords n = alistGet f.aaaaRecords n)
    (hWA : f2.aWildcards = f.aWildcards) (hWQ : f2.aaaaWildcards = f.aaaaWildcards)
    (hmA : (alistGet f2.aRecords m).getD [] = dataA (trieDataAt s2.root (domainToPathL m)) ∧
      alistGet f2.aRecords m ≠ some [])
    (hmQ : (alistGet f2.aaaaRecords m).getD []
        = dataAAAA (trieDataAt s2.root (domainToPathL m)) ∧
      alistGet f2.aaaaRecords m ≠ some [])
    (hv : ∀ rs, trieDataAt s2.root (domainToPathL m) = some rs → okRS rs) :
    StoreRel s2 f2 := by
  refine ⟨?_, ?_, ?_, ?_, ?_, ?_, ?_, ?_, ?_⟩
  · intro n hn
    by_cases hne : n = m
    · subst hne
      exact hmA
    · rw [hFA n hne, hroot n hn hne]
      exact h.exA n hn
  · intro n hn
    by_cases hne : n = m
    · subst hne
      exact hmQ
    · rw [hFQ n hne, hroot n hn hne]
      exact h.exQ n hn
  · intro n
    rw [hWA, hwild]
    exact h.wA n
  · intro n
    rw [hWQ, hwild]
    exact h.wQ n
  · rw [hwild]
    exact h.ndW
  · rw [hWA]
    exact h.ndA
  · rw [hWQ]
    exact h.ndQ
  · intro n rs hrs
    rw [hwild] at hrs
    exact h.vW n rs hrs
  · intro n hn rs hrs
    by_cases hne : n = m
    · subst hne
      exact hv rs hrs
    · rw [hroot n hn hne] at hrs
      exact h.vT n hn rs hrs

theorem rel_remove_wild (s : DNSRecordStore) (f : Flat.Store) (d : GoStr)
    (ipArg : Option IPBytes)
    (hw : containsWildL (addNormalize d) = true) (h : StoreRel s f) :
    StoreRel (removeRecord s d ipArg) (Flat.removeRecord f d ipArg) := by
  cases ipArg with
  | none =>
      rw [trie_remove_wild_nil s d hw, flat_remove_wild_nil f d hw]
      refine rel_wild_update s f _ _ (addNormalize d) h rfl rfl rfl ?_ ?_ ?_ ?_ ?_ ?_ ?_ ?_ ?_
      · intro n hn
        exact alistGet_del_ne _ _ _ hn
      · intro n hn
        exact alistGet_del_ne _ _ _ hn
      · intro n hn
        exact alistGet_del_ne _ _ _ hn
      · exact alistDel_keys_nodup _ _ h.ndW
      · exact alistDel_keys_nodup _ _ h.ndA
      · exact alistDel_keys_nodup _ _ h.ndQ
      · dsimp only
        rw [alistGet_del_eq, alistGet_del_eq]
        exact ⟨rfl, by simp⟩
      · dsimp only
        rw [alistGet_del_eq, alistGet_del_eq]
        exact ⟨rfl, by simp⟩
      · intro rs hrs
        exact absurd ((alistGet_del_eq s.wildcards (addNormalize d)).symm.trans hrs) (by simp)
  | some ip =>
      cases hmW : alistGet s.wildcards (addNormalize d) with
      | none =>
          have hFAm : alistGet f.aWildcards (addNormalize d) = none :=
            opt_none_of _ ((h.wA (addNormalize d)).1.trans (by rw [hmW]; rfl))
              (h.wA (addNormalize d)).2
          have hFQm : alistGet f.aaaaWildcards (addNormalize d) = none :=
            opt_none_of _ ((h.wQ (addNormalize d)).1.trans (by rw [hmW]; rfl))
              (h.wQ (addNormalize d)).2
          rw [trie_remove_wild_miss s d ip hw hmW]
          by_cases hv4 : (goTo4 ip).isSome = true
          · rw [flat_remove_v4_wild_miss f d ip hv4 hw hFAm]
            exact h
          · have hv4f : (goTo4 ip).isSome = false := by simpa using hv4
            by_cases hv16 : (goTo16 ip).isSome = true
            · rw [flat_remove_v6_wild_miss f d ip hv4f hv16 hw hFQm]
              exact h
            · have hv16f : (goTo16 ip).isSome = false := by simpa using hv16
              rw [flat_remove_invalid f d ip hv4f hv16f]
              exact h
      | some rs =>
          have hok := h.vW (addNormalize d) rs hmW
          by_cases hv4 : (goTo4 ip).isSome = true
          · -- IPv4 family
            have htr := trie_remove_wild_hit s d ip rs { rs with A := removeIP rs.A ip }
              hw hmW (if_pos hv4).symm
            by_cases h2 : removeIP rs.A ip = []
            · by_cases hQ : rs.AAAA = []
              · -- both lists empty after removal: trie deletes the entry
                have htr2 : removeRecord s d (some ip)
                    = { s with wildcards := alistDel s.wildcards (addNormalize d) } := by
                  rw [htr, if_pos ⟨h2, hQ⟩]
                rw [htr2]
                by_cases hA : rs.A = []
                · have hFAm : alistGet f.aWildcards (addNormalize d) = none :=
                    opt_none_of _ ((h.wA (addNormalize d)).1.trans
                      (by rw [hmW, dataA_some, hA])) (h.wA (addNormalize d)).2
                  rw [flat_remove_v4_wild_miss f d ip hv4 hw hFAm]
                  refine rel_wild_update s f _ f (addNormalize d) h rfl rfl rfl
                    (fun n hn => alistGet_del_ne _ _ _ hn) (fun n hn => rfl) (fun n hn => rfl)
                    (alistDel_keys_nodup _ _ h.ndW) h.ndA h.ndQ ?_ ?_ ?_
                  · dsimp only
                    rw [alistGet_del_eq, hFAm]
                    exact ⟨rfl, by simp⟩
                  · dsimp only
                    rw [alistGet_del_eq,
                      (h.wQ (addNormalize d)).1.trans (by rw [hmW, dataAAAA_some, hQ])]
                    exact ⟨rfl, (h.wQ (addNormalize d)).2⟩
                  · intro rs3 hrs
                    exact absurd ((alistGet_del_eq s.wildcards (addNormalize d)).symm.trans hrs)
                      (by simp)
                · have hFAs : alistGet f.aWildcards (addNormalize d) = some rs.A :=
                    opt_some_of _ _ ((h.wA (addNormalize d)).1.trans
                      (by rw [hmW, dataA_some])) hA
                  rw [flat_remove_v4_wild_hit f d ip rs.A hv4 hw hFAs, if_pos h2]
                  refine rel_wild_update s f _ _ (addNormalize d) h rfl rfl rfl
                    (fun n hn => alistGet_del_ne _ _ _ hn)
                    (fun n hn => alistGet_del_ne _ _ _ hn) (fun n hn => rfl)
                    (alistDel_keys_nodup _ _ h.ndW) (alistDel_keys_nodup _ _ h.ndA) h.ndQ
                    ?_ ?_ ?_
                  · dsimp only
                    rw [alistGet_del_eq, alistGet_del_eq]
                    exact ⟨rfl, by simp⟩
                  · dsimp only
                    rw [alistGet_del_eq,
                      (h.wQ (addNormalize d)).1.trans (by rw [hmW, dataAAAA_some, hQ])]
                    exact ⟨rfl, (h.wQ (addNormalize d)).2⟩
                  · intro rs3 hrs
                    exact absurd ((alistGet_del_eq s.wildcards (addNormalize d)).symm.trans hrs)
                      (by simp)
              · -- A list empties, AAAA list survives: trie keeps the entry
                have htr2 : removeRecord s d (some ip)
                    = { s with wildcards := alistPut s.wildcards (addNormalize d) { rs with A := removeIP rs.A ip } } := by
                  rw [htr, if_neg (fun hc => hQ hc.2)]
                rw [htr2]
                by_cases hA : rs.A = []
                · have hFAm : alistGet f.aWildcards (addNormalize d) = none :=
                    opt_none_of _ ((h.wA (addNormalize d)).1.trans
                      (by rw [hmW, dataA_some, hA])) (h.wA (addNormalize d)).2
                  rw [flat_remove_v4_wild_miss f d ip hv4 hw hFAm]
                  refine rel_wild_update s f _ f (addNormalize d) h rfl rfl rfl
                    (fun n hn => alistGet_put_ne _ _ _ _ hn) (fun n hn => rfl) (fun n hn => rfl)
                    (alistPut_keys_nodup _ _ _ h.ndW) h.ndA h.ndQ ?_ ?_ ?_
                  · dsimp only
                    rw [alistGet_put_eq, hFAm, dataA_some]
                    exact ⟨by rw [h2]; rfl, by simp⟩
                  · dsimp only
                    rw [alistGet_put_eq, dataAAAA_some,
                      (h.wQ (addNormalize d)).1.trans (by rw [hmW, dataAAAA_some])]
                    exact ⟨rfl, (h.wQ (addNormalize d)).2⟩
                  · intro rs3 hrs
                    have he := ((alistGet_put_eq s.wildcards (addNormalize d)
                      { rs with A := removeIP rs.A ip }).symm.trans hrs)
                    rw [Option.some.injEq] at he
                    rw [← he]
                    exact okRS_removeA rs ip hok
                · have hFAs : alistGet f.aWildcards (addNormalize d) = some rs.A :=
                    opt_some_of _ _ ((h.wA (addNormalize d)).1.trans
                      (by rw [hmW, dataA_some])) hA
                  rw [flat_remove_v4_wild_hit f d ip rs.A hv4 hw hFAs, if_pos h2]
                  refine rel_wild_update s f _ _ (addNormalize d) h rfl rfl rfl
                    (fun n hn => alistGet_put_ne _ _ _ _ hn)
                    (fun n hn => alistGet_del_ne _ _ _ hn) (fun n hn => rfl)
                    (alistPut_keys_nodup _ _ _ h.ndW) (alistDel_keys_nodup _ _ h.ndA) h.ndQ
                    ?_ ?_ ?_
                  · dsimp only
                    rw [alistGet_del_eq, alistGet_put_eq, dataA_some]
                    exact ⟨by rw [h2]; rfl, by simp⟩
                  · dsimp only
                    rw [alistGet_put_eq, dataAAAA_some,
                      (h.wQ (addNormalize d)).1.trans (by rw [hmW, dataAAAA_some])]
                    exact ⟨rfl, (h.wQ (addNormalize d)).2⟩
                  · intro rs3 hrs
                    have he := ((alistGet_put_eq s.wildcards (addNormalize d)
                      { rs with A := removeIP rs.A ip }).symm.trans hrs)
                    rw [Option.some.injEq] at he
                    rw [← he]
                    exact okRS_removeA rs ip hok
            · -- A list stays non-empty: both stores keep an entry
              have hA : rs.A ≠ [] := by
                intro hA
                exact h2 (by rw [hA]; rfl)
              have hFAs : alistGet f.aWildcards (addNormalize d) = some rs.A :=
                opt_some_of _ _ ((h.wA (addNormalize d)).1.trans
                  (by rw [hmW, dataA_some])) hA
              have htr2 : removeRecord s d (some ip)
                  = { s with wildcards := alistPut s.wildcards (addNormalize d) { rs with A := removeIP rs.A ip } } := by
                rw [htr, if_neg (fun hc => h2 hc.1)]
              rw [htr2, flat_remove_v4_wild_hit f d ip rs.A hv4 hw hFAs, if_neg h2]
              refine rel_wild_update s f _ _ (addNormalize d) h rfl rfl rfl
                (fun n hn => alistGet_put_ne _ _ _ _ hn)
                (fun n hn => alistGet_put_ne _ _ _ _ hn) (fun n hn => rfl)
                (alistPut_keys_nodup _ _ _ h.ndW) (alistPut_keys_nodup _ _ _ h.ndA) h.ndQ
                ?_ ?_ ?_
              · dsimp only
                rw [alistGet_put_eq, alistGet_put_eq, dataA_some]
                exact ⟨rfl, fun he => h2 (by simpa using he)⟩
              · dsimp only
                rw [alistGet_put_eq, dataAAAA_some,
                  (h.wQ (addNormalize d)).1.trans (by rw [hmW, dataAAAA_some])]
                exact ⟨rfl, (h.wQ (addNormalize d)).2⟩
              · intro rs3 hrs
                have he := ((alistGet_put_eq s.wildcards (addNormalize d)
                  { rs with A := removeIP rs.A ip }).symm.trans hrs)
                rw [Option.some.injEq] at he
                rw [← he]
                exact okRS_removeA rs ip hok
          · have hv4f : (goTo4 ip).isSome = false := by simpa using hv4
            by_cases hv16 : (goTo16 ip).isSome = true
            · -- IPv6 family
              have htr := trie_remove_wild_hit s d ip rs { rs with AAAA := removeIP rs.AAAA ip }
                hw hmW (if_neg (by simp [hv4f])).symm
              by_cases h2 : removeIP rs.AAAA ip = []
              · by_cases hA : rs.A = []
                · have htr2 : removeRecord s d (some ip)
                      = { s with wildcards := alistDel s.wildcards (addNormalize d) } := by
                    rw [htr, if_pos ⟨hA, h2⟩]
                  rw [htr2]
                  by_cases hQ : rs.AAAA = []
                  · have hFQm : alistGet f.aaaaWildcards (addNormalize d) = none :=
                      opt_none_of _ ((h.wQ (addNormalize d)).1.trans
                        (by rw [hmW, dataAAAA_some, hQ])) (h.wQ (addNormalize d)).2
                    rw [flat_remove_v6_wild_miss f d ip hv4f hv16 hw hFQm]
                    refine rel_wild_update s f _ f (addNormalize d) h rfl rfl rfl
                      (fun n hn => alistGet_del_ne _ _ _ hn) (fun n hn => rfl)
                      (fun n hn => rfl) (alistDel_keys_nodup _ _ h.ndW) h.ndA h.ndQ ?_ ?_ ?_
                    · dsimp only
                      rw [alistGet_del_eq,
                        (h.wA (addNormalize d)).1.trans (by rw [hmW, dataA_some, hA])]
                      exact ⟨rfl, (h.wA (addNormalize d)).2⟩
                    · dsimp only
                      rw [alistGet_del_eq, hFQm]
                      exact ⟨rfl, by simp⟩
                    · intro rs3 hrs
                      exact absurd ((alistGet_del_eq s.wildcards
                        (addNormalize d)).symm.trans hrs) (by simp)
                  · have hFQs : alistGet f.aaaaWildcards (addNormalize d) = some rs.AAAA :=
                      opt_some_of _ _ ((h.wQ (addNormalize d)).1.trans
                        (by rw [hmW, dataAAAA_some])) hQ
                    rw [flat_remove_v6_wild_hit f d ip rs.AAAA hv4f hv16 hw hFQs, if_pos h2]
                    refine rel_wild_update s f _ _ (addNormalize d) h rfl rfl rfl
                      (fun n hn => alistGet_del_ne _ _ _ hn) (fun n hn => rfl)
                      (fun n hn => alistGet_del_ne _ _ _ hn)
                      (alistDel_keys_nodup _ _ h.ndW) h.ndA
                      (alistDel_keys_nodup _ _ h.ndQ) ?_ ?_ ?_
                    · dsimp only
                      rw [alistGet_del_eq,
                        (h.wA (addNormalize d)).1.trans (by rw [hmW, dataA_some, hA])]
                      exact ⟨rfl, (h.wA (addNormalize d)).2⟩
                    · dsimp only
                      rw [alistGet_del_eq, alistGet_del_eq]
                      exact ⟨rfl, by simp⟩
                    · intro rs3 hrs
                      exact absurd ((alistGet_del_eq s.wildcards
                        (addNormalize d)).symm.trans hrs) (by simp)
                · have htr2 : removeRecord s d (some ip)
                      = { s with wildcards := alistPut s.wildcards (addNormalize d) { rs with AAAA := removeIP rs.AAAA ip } } := by
                    rw [htr, if_neg (fun hc => hA hc.1)]
                  rw [htr2]
                  by_cases hQ : rs.AAAA = []
                  · have hFQm : alistGet f.aaaaWildcards (addNormalize d) = none :=
                      opt_none_of _ ((h.wQ (addNormalize d)).1.trans
                        (by rw [hmW, dataAAAA_some, hQ])) (h.wQ (addNormalize d)).2
                    rw [flat_remove_v6_wild_miss f d ip hv4f hv16 hw hFQm]
                    refine rel_wild_update s f _ f (addNormalize d) h rfl rfl rfl
                      (fun n hn => alistGet_put_ne _ _ _ _ hn) (fun n hn => rfl)
                      (fun n hn => rfl) (alistPut_keys_nodup _ _ _ h.ndW) h.ndA h.ndQ ?_ ?_ ?_
                    · dsimp only
                      rw [alistGet_put_eq, dataA_some,
                        (h.wA (addNormalize d)).1.trans (by rw [hmW, dataA_some])]
                      exact ⟨rfl, (h.wA (addNormalize d)).2⟩
                    · dsimp only
                      rw [alistGet_put_eq, dataAAAA_some, hFQm]
                      exact ⟨by rw [h2]; rfl, by simp⟩
                    · intro rs3 hrs
                      have he := ((alistGet_put_eq s.wildcards (addNormalize d)
                        { rs with AAAA := removeIP rs.AAAA ip }).symm.trans hrs)
                      rw [Option.some.injEq] at he
                      rw [← he]
                      exact okRS_removeQ rs ip hok
                  · have hFQs : alistGet f.aaaaWildcards (addNormalize d) = some rs.AAAA :=
                      opt_some_of _ _ ((h.wQ (addNormalize d)).1.trans
                        (by rw [hmW, dataAAAA_some])) hQ
                    rw [flat_remove_v6_wild_hit f d ip rs.AAAA hv4f hv16 hw hFQs, if_pos h2]
                    refine rel_wild_update s f _ _ (addNormalize d) h rfl rfl rfl
                      (fun n hn => alistGet_put_ne _ _ _ _ hn) (fun n hn => rfl)
                      (fun n hn => alistGet_del_ne _ _ _ hn)
                      (alistPut_keys_nodup _ _ _ h.ndW) h.ndA
                      (alistDel_keys_nodup _ _ h.ndQ) ?_ ?_ ?_
                    · dsimp only
                      rw [alistGet_put_eq, dataA_some,
                        (h.wA (addNormalize d)).1.trans (by rw [hmW, dataA_some])]
                      exact ⟨rfl, (h.wA (addNormalize d)).2⟩
                    · dsimp only
                      rw [alistGet_del_eq, alistGet_put_eq, dataAAAA_some]
                      exact ⟨by rw [h2]; rfl, by simp⟩
                    · intro rs3 hrs
                      have he := ((alistGet_put_eq s.wildcards (addNormalize d)
                        { rs with AAAA := removeIP rs.AAAA ip }).symm.trans hrs)
                      rw [Option.some.injEq] at he
                      rw [← he]
                      exact okRS_removeQ rs ip hok
              · have hQ : rs.AAAA ≠ [] := by
                  intro hQ
                  exact h2 (by rw [hQ]; rfl)
                have hFQs : alistGet f.aaaaWildcards (addNormalize d) = some rs.AAAA :=
                  opt_some_of _ _ ((h.wQ (addNormalize d)).1.trans
                    (by rw [hmW, dataAAAA_some])) hQ
                have htr2 : removeRecord s d (some ip)
                    = { s with wildcards := alistPut s.wildcards (addNormalize d) { rs with AAAA := removeIP rs.AAAA ip } } := by
                  rw [htr, if_neg (fun hc => h2 hc.2)]
                rw [htr2, flat_remove_v6_wild_hit f d ip rs.AAAA hv4f hv16 hw hFQs, if_neg h2]
                refine rel_wild_update s f _ _ (addNormalize d) h rfl rfl rfl
                  (fun n hn => alistGet_put_ne _ _ _ _ hn) (fun n hn => rfl)
                  (fun n hn => alistGet_put_ne _ _ _ _ hn)
                  (alistPut_keys_nodup _ _ _ h.ndW) h.ndA
                  (alistPut_keys_nodup _ _ _ h.ndQ) ?_ ?_ ?_
                · dsimp only
                  rw [alistGet_put_eq, dataA_some,
                    (h.wA (addNormalize d)).1.trans (by rw [hmW, dataA_some])]
                  exact ⟨rfl, (h.wA (addNormalize d)).2⟩
                · dsimp only
                  rw [alistGet_put_eq, alistGet_put_eq, dataAAAA_some]
                  exact ⟨rfl, fun he => h2 (by simpa using he)⟩
                · intro rs3 hrs
                  have he := ((alistGet_put_eq s.wildcards (addNormalize d)
                    { rs with AAAA := removeIP rs.AAAA ip }).symm.trans hrs)
                  rw [Option.some.injEq] at he
                  rw [← he]
                  exact okRS_removeQ rs ip hok
            · -- invalid address: the flat store is untouched, the trie store rewrites
              -- the entry with an unchanged record set (or deletes an all-empty one)
              have hv16f : (goTo16 ip).isSome = false := by simpa using hv16
              have hinv := invalid_length ip hv4f hv16f
              have hrm : removeIP rs.AAAA ip = rs.AAAA :=
                removeIP_invalid rs.AAAA ip hok.2 hinv
              have htr := trie_remove_wild_hit s d ip rs rs hw hmW
                (by rw [if_neg (by simp [hv4f]), hrm])
              rw [flat_remove_invalid f d ip hv4f hv16f]
              by_cases hc : rs.A = [] ∧ rs.AAAA = []
              · have htr2 : removeRecord s d (some ip)
                    = { s with wildcards := alistDel s.wildcards (addNormalize d) } := by
                  rw [htr, if_pos hc]
                rw [htr2]
                refine rel_wild_update s f _ f (addNormalize d) h rfl rfl rfl
                  (fun n hn => alistGet_del_ne _ _ _ hn) (fun n hn => rfl) (fun n hn => rfl)
                  (alistDel_keys_nodup _ _ h.ndW) h.ndA h.ndQ ?_ ?_ ?_
                · dsimp only
                  rw [alistGet_del_eq,
                    (h.wA (addNormalize d)).1.trans (by rw [hmW, dataA_some, hc.1])]
                  exact ⟨rfl, (h.wA (addNormalize d)).2⟩
                · dsimp only
                  rw [alistGet_del_eq,
                    (h.wQ (addNormalize d)).1.trans (by rw [hmW, dataAAAA_some, hc.2])]
                  exact ⟨rfl, (h.wQ (addNormalize d)).2⟩
                · intro rs3 hrs
                  exact absurd ((alistGet_del_eq s.wildcards
                    (addNormalize d)).symm.trans hrs) (by simp)
              · have htr2 : removeRecord s d (some ip)
                    = { s with wildcards := alistPut s.wildcards (addNormalize d) rs } := by
                  rw [htr, if_neg hc]
                rw [htr2]
                refine rel_wild_update s f _ f (addNormalize d) h rfl rfl rfl
                  (fun n hn => alistGet_put_ne _ _ _ _ hn) (fun n hn => rfl) (fun n hn => rfl)
                  (alistPut_keys_nodup _ _ _ h.ndW) h.ndA h.ndQ ?_ ?_ ?_
                · dsimp only
                  rw [alistGet_put_eq, dataA_some,
                    (h.wA (addNormalize d)).1.trans (by rw [hmW, dataA_some])]
                  exact ⟨rfl, (h.wA (addNormalize d)).2⟩
                · dsimp only
                  rw [alistGet_put_eq, dataAAAA_some,
                    (h.wQ (addNormalize d)).1.trans (by rw [hmW, dataAAAA_some])]
                  exact ⟨rfl, (h.wQ (addNormalize d)).2⟩
                · intro rs3 hrs
                  have he := ((alistGet_put_eq s.wildcards (addNormalize d) rs).symm.trans hrs)
                  rw [Option.some.injEq] at he
                  rw [← he]
                  exact hok

theorem rel_remove_exact (s : DNSRecordStore) (f : Flat.Store) (d : GoStr)
    (ipArg : Option IPBytes)
    (hw : containsWildL (addNormalize d) = false) (h : StoreRel s f) :
    StoreRel (removeRecord s d ipArg) (Flat.removeRecord f d ipArg) := by
  have gm : goodKey (addNormalize d) := goodKey_addNormalize d
  cases ipArg with
  | none =>
      obtain ⟨hfa, hfq, hfwa, hfwq⟩ := flat_remove_exact_nil f d hw
      cases htd : trieDataAt s.root (domainToPathL (addNormalize d)) with
      | none =>
          rw [trie_remove_exact_nil_miss s d hw htd]
          refine rel_exact_update s f s _ (addNormalize d) gm h (fun n hn hne => rfl) rfl
            (fun n hn => by rw [hfa]; exact alistGet_del_ne _ _ _ hn)
            (fun n hn => by rw [hfq]; exact alistGet_del_ne _ _ _ hn)
            hfwa hfwq ?_ ?_ ?_
          · refine ⟨?_, ?_⟩
            · rw [hfa, alistGet_del_eq, htd]
              rfl
            · rw [hfa, alistGet_del_eq]
              simp
          · refine ⟨?_, ?_⟩
            · rw [hfq, alistGet_del_eq, htd]
              rfl
            · rw [hfq, alistGet_del_eq]
              simp
          · intro rs hrs
            rw [htd] at hrs
            exact absurd hrs (by simp)
      | some rs =>
          obtain ⟨hroot, hwild⟩ := trie_remove_exact_nil_hit s d rs hw htd
          have hfind := trieFind_isSome_of_dataAt s.root (domainToPathL (addNormalize d)) rs htd
          refine rel_exact_update s f _ _ (addNormalize d) gm h ?_ hwild
            (fun n hn => by rw [hfa]; exact alistGet_del_ne _ _ _ hn)
            (fun n hn => by rw [hfq]; exact alistGet_del_ne _ _ _ hn)
            hfwa hfwq ?_ ?_ ?_
          · intro n hn hne
            rw [hroot]
            exact trieSetData_dataAt_ne _ _ _ _ (path_ne_of_goodKey_ne n _ hn gm hne)
          · refine ⟨?_, ?_⟩
            · rw [hfa, alistGet_del_eq, hroot, trieSetData_dataAt_eq _ _ _ hfind]
              rfl
            · rw [hfa, alistGet_del_eq]
              simp
          · refine ⟨?_, ?_⟩
            · rw [hfq, alistGet_del_eq, hroot, trieSetData_dataAt_eq _ _ _ hfind]
              rfl
            · rw [hfq, alistGet_del_eq]
              simp
          · intro rs3 hrs
            rw [hroot, trieSetData_dataAt_eq _ _ _ hfind] at hrs
            exact absurd hrs (by simp)
  | some ip =>
      cases htd : trieDataAt s.root (domainToPathL (addNormalize d)) with
      | none =>
          have hFAm : alistGet f.aRecords (addNormalize d) = none :=
            opt_none_of _ ((h.exA (addNormalize d) gm).1.trans (by rw [htd]; rfl))
              (h.exA (addNormalize d) gm).2
          have hFQm : alistGet f.aaaaRecords (addNormalize d) = none :=
            opt_none_of _ ((h.exQ (addNormalize d) gm).1.trans (by rw [htd]; rfl))
              (h.exQ (addNormalize d) gm).2
          rw [removeRecord_exact_none s d ip hw htd]
          by_cases hv4 : (goTo4 ip).isSome = true
          · rw [flat_remove_v4_exact_miss f d ip hv4 hw hFAm]
            exact h
          · have hv4f : (goTo4 ip).isSome = false := by simpa using hv4
            by_cases hv16 : (goTo16 ip).isSome = true
            · rw [flat_remove_v6_exact_miss f d ip hv4f hv16 hw hFQm]
              exact h
            · have hv16f : (goTo16 ip).isSome = false := by simpa using hv16
              rw [flat_remove_invalid f d ip hv4f hv16f]
              exact h
      | some rs =>
          have hok := h.vT (addNormalize d) gm rs htd
          have hfind := trieFind_isSome_of_dataAt s.root (domainToPathL (addNormalize d)) rs htd
          by_cases hv4 : (goTo4 ip).isSome = true
          · -- IPv4 family
            obtain ⟨hroot, hwild⟩ := trie_remove_exact_hit s d ip rs
              { rs with A := removeIP rs.A ip } hw htd (if_pos hv4).symm
            by_cases hA : rs.A = []
            · have hFAm : alistGet f.aRecords (addNormalize d) = none :=
                opt_none_of _ ((h.exA (addNormalize d) gm).1.trans
                  (by rw [htd, dataA_some, hA])) (h.exA (addNormalize d) gm).2
              rw [flat_remove_v4_exact_miss f d ip hv4 hw hFAm]
              refine rel_exact_update s f _ f (addNormalize d) gm h ?_ hwild
                (fun n hn => rfl) (fun n hn => rfl) rfl rfl ?_ ?_ ?_
              · intro n hn hne
                rw [hroot]
                exact trieSetData_dataAt_ne _ _ _ _ (path_ne_of_goodKey_ne n _ hn gm hne)
              · refine ⟨?_, (h.exA (addNormalize d) gm).2⟩
                rw [hFAm, hroot, trieSetData_dataAt_eq _ _ _ hfind]
                by_cases hQ : rs.AAAA = []
                · rw [if_pos ⟨show removeIP rs.A ip = [] from by rw [hA]; rfl, hQ⟩]
                  rfl
                · rw [if_neg (fun hc => hQ hc.2), dataA_some]
                  show ([] : List IPBytes) = removeIP rs.A ip
                  rw [hA]
                  rfl
              · refine ⟨?_, (h.exQ (addNormalize d) gm).2⟩
                rw [hroot, trieSetData_dataAt_eq _ _ _ hfind]
                by_cases hQ : rs.AAAA = []
                · rw [if_pos ⟨show removeIP rs.A ip = [] from by rw [hA]; rfl, hQ⟩,
                    (h.exQ (addNormalize d) gm).1, htd]
                  simp [dataAAAA, rsEmpty, hQ]
                · rw [if_neg (fun hc => hQ hc.2), dataAAAA_some]
                  exact (h.exQ (addNormalize d) gm).1.trans (by rw [htd]; rfl)
              · intro rs3 hrs
                rw [hroot, trieSetData_dataAt_eq _ _ _ hfind] at hrs
                by_cases hQ : rs.AAAA = []
                · rw [if_pos ⟨show removeIP rs.A ip = [] from by rw [hA]; rfl, hQ⟩] at hrs
                  exact absurd hrs (by simp)
                · rw [if_neg (fun hc => hQ hc.2), Option.some.injEq] at hrs
                  rw [← hrs]
                  exact okRS_removeA rs ip hok
            · have hFAs : alistGet f.aRecords (addNormalize d) = some rs.A :=
                opt_some_of _ _ ((h.exA (addNormalize d) gm).1.trans (by rw [htd]; rfl)) hA
              obtain ⟨hfa, hfq, hfwa, hfwq⟩ := flat_remove_v4_exact_hit f d ip rs.A hv4 hw hFAs
              by_cases h2 : removeIP rs.A ip = []
              · refine rel_exact_update s f _ _ (addNormalize d) gm h ?_ hwild
                  (fun n hn => by rw [hfa, if_pos h2]; exact alistGet_del_ne _ _ _ hn)
                  (fun n hn => by rw [hfq]) hfwa hfwq ?_ ?_ ?_
                · intro n hn hne
                  rw [hroot]
                  exact trieSetData_dataAt_ne _ _ _ _ (path_ne_of_goodKey_ne n _ hn gm hne)
                · refine ⟨?_, ?_⟩
                  · rw [hfa, if_pos h2, alistGet_del_eq, hroot,
                      trieSetData_dataAt_eq _ _ _ hfind]
                    by_cases hQ : rs.AAAA = []
                    · rw [if_pos ⟨h2, hQ⟩]
                      rfl
                    · rw [if_neg (fun hc => hQ hc.2), dataA_some]
                      show ([] : List IPBytes) = removeIP rs.A ip
                      rw [h2]
                  · rw [hfa, if_pos h2, alistGet_del_eq]
                    simp
                · refine ⟨?_, ?_⟩
                  · rw [hfq, hroot, trieSetData_dataAt_eq _ _ _ hfind]
                    by_cases hQ : rs.AAAA = []
                    · rw [if_pos ⟨h2, hQ⟩,
                        (h.exQ (addNormalize d) gm).1, htd]
                      simp [dataAAAA, rsEmpty, hQ]
                    · rw [if_neg (fun hc => hQ hc.2), dataAAAA_some]
                      exact (h.exQ (addNormalize d) gm).1.trans (by rw [htd]; rfl)
                  · rw [hfq]
                    exact (h.exQ (addNormalize d) gm).2
                · intro rs3 hrs
                  rw [hroot, trieSetData_dataAt_eq _ _ _ hfind] at hrs
                  by_cases hQ : rs.AAAA = []
                  · rw [if_pos ⟨h2, hQ⟩] at hrs
                    exact absurd hrs (by simp)
                  · rw [if_neg (fun hc => hQ hc.2), Option.some.injEq] at hrs
                    rw [← hrs]
                    exact okRS_removeA rs ip hok
              · refine rel_exact_update s f _ _ (addNormalize d) gm h ?_ hwild
                  (fun n hn => by rw [hfa, if_neg h2]; exact alistGet_put_ne _ _ _ _ hn)
                  (fun n hn => by rw [hfq]) hfwa hfwq ?_ ?_ ?_
                · intro n hn hne
                  rw [hroot]
                  exact trieSetData_dataAt_ne _ _ _ _ (path_ne_of_goodKey_ne n _ hn gm hne)
                · refine ⟨?_, ?_⟩
                  · rw [hfa, if_neg h2, alistGet_put_eq, hroot,
                      trieSetData_dataAt_eq _ _ _ hfind,
                      if_neg (fun hc => h2 hc.1), dataA_some]
                    rfl
                  · rw [hfa, if_neg h2, alistGet_put_eq]
                    intro he
                    rw [Option.some.injEq] at he
                    exact h2 he
                · refine ⟨?_, ?_⟩
                  · rw [hfq, hroot, trieSetData_dataAt_eq _ _ _ hfind,
                      if_neg (fun hc => h2 hc.1), dataAAAA_some]
                    exact (h.exQ (addNormalize d) gm).1.trans (by rw [htd]; rfl)
                  · rw [hfq]
                    exact (h.exQ (addNormalize d) gm).2
                · intro rs3 hrs
                  rw [hroot, trieSetData_dataAt_eq _ _ _ hfind,
                    if_neg (fun hc => h2 hc.1), Option.some.injEq] at hrs
                  rw [← hrs]
                  exact okRS_removeA rs ip hok
          · have hv4f : (goTo4 ip).isSome = false := by simpa using hv4
            by_cases hv16 : (goTo16 ip).isSome = true
            · -- IPv6 family
              obtain ⟨hroot, hwild⟩ := trie_remove_exact_hit s d ip rs
                { rs with AAAA := removeIP rs.AAAA ip } hw htd (if_neg (by simp [hv4f])).symm
              by_cases hQ : rs.AAAA = []
              · have hFQm : alistGet f.aaaaRecords (addNormalize d) = none :=
                  opt_none_of _ ((h.exQ (addNormalize d) gm).1.trans
                    (by rw [htd, dataAAAA_some, hQ])) (h.exQ (addNormalize d) gm).2
                rw [flat_remove_v6_exact_miss f d ip hv4f hv16 hw hFQm]
                refine rel_exact_update s f _ f (addNormalize d) gm h ?_ hwild
                  (fun n hn => rfl) (fun n hn => rfl) rfl rfl ?_ ?_ ?_
                · intro n hn hne
                  rw [hroot]
                  exact trieSetData_dataAt_ne _ _ _ _ (path_ne_of_goodKey_ne n _ hn gm hne)
                · refine ⟨?_, (h.exA (addNormalize d) gm).2⟩
                  rw [hroot, trieSetData_dataAt_eq _ _ _ hfind]
                  by_cases hA : rs.A = []
                  · rw [if_pos ⟨hA, show removeIP rs.AAAA ip = [] from by rw [hQ]; rfl⟩,
                      (h.exA (addNormalize d) gm).1, htd]
                    simp [dataA, rsEmpty, hA]
                  · rw [if_neg (fun hc => hA hc.1), dataA_some]
                    exact (h.exA (addNormalize d) gm).1.trans (by rw [htd]; rfl)
                · refine ⟨?_, (h.exQ (addNormalize d) gm).2⟩
                  rw [hFQm, hroot, trieSetData_dataAt_eq _ _ _ hfind]
                  by_cases hA : rs.A = []
                  · rw [if_pos ⟨hA, show removeIP rs.AAAA ip = [] from by rw [hQ]; rfl⟩]
                    rfl
                  · rw [if_neg (fun hc => hA hc.1), dataAAAA_some]
                    show ([] : List IPBytes) = removeIP rs.AAAA ip
                    rw [hQ]
                    rfl
                · intro rs3 hrs
                  rw [hroot, trieSetData_dataAt_eq _ _ _ hfind] at hrs
                  by_cases hA : rs.A = []
                  · rw [if_pos ⟨hA, show removeIP rs.AAAA ip = [] from by rw [hQ]; rfl⟩] at hrs
                    exact absurd hrs (by simp)
                  · rw [if_neg (fun hc => hA hc.1), Option.some.injEq] at hrs
                    rw [← hrs]
                    exact okRS_removeQ rs ip hok
              · have hFQs : alistGet f.aaaaRecords (addNormalize d) = some rs.AAAA :=
                  opt_some_of _ _ ((h.exQ (addNormalize d) gm).1.trans (by rw [htd]; rfl)) hQ
                obtain ⟨hfq, hfa, hfwa, hfwq⟩ :=
                  flat_remove_v6_exact_hit f d ip rs.AAAA hv4f hv16 hw hFQs
                by_cases h2 : removeIP rs.AAAA ip = []
                · refine rel_exact_update s f _ _ (addNormalize d) gm h ?_ hwild
                    (fun n hn => by rw [hfa])
                    (fun n hn => by rw [hfq, if_pos h2]; exact alistGet_del_ne _ _ _ hn)
                    hfwa hfwq ?_ ?_ ?_
                  · intro n hn hne
                    rw [hroot]
                    exact trieSetData_dataAt_ne _ _ _ _ (path_ne_of_goodKey_ne n _ hn gm hne)
                  · refine ⟨?_, ?_⟩
                    · rw [hfa, hroot, trieSetData_dataAt_eq _ _ _ hfind]
                      by_cases hA : rs.A = []
                      · rw [if_pos ⟨hA, h2⟩,
                          (h.exA (addNormalize d) gm).1, htd]
                        simp [dataA, rsEmpty, hA]
                      · rw [if_neg (fun hc => hA hc.1), dataA_some]
                        exact (h.exA (addNormalize d) gm).1.trans (by rw [htd]; rfl)
                    · rw [hfa]
                      exact (h.exA (addNormalize d) gm).2
                  · refine ⟨?_, ?_⟩
                    · rw [hfq, if_pos h2, alistGet_del_eq, hroot,
                        trieSetData_dataAt_eq _ _ _ hfind]
                      by_cases hA : rs.A = []
                      · rw [if_pos ⟨hA, h2⟩]
                        rfl
                      · rw [if_neg (fun hc => hA hc.1), dataAAAA_some]
                        show ([] : List IPBytes) = removeIP rs.AAAA ip
                        rw [h2]
                    · rw [hfq, if_pos h2, alistGet_del_eq]
                      simp
                  · intro rs3 hrs
                    rw [hroot, trieSetData_dataAt_eq _ _ _ hfind] at hrs
                    by_cases hA : rs.A = []
                    · rw [if_pos ⟨hA, h2⟩] at hrs
                      exact absurd hrs (by simp)
                    · rw [if_neg (fun hc => hA hc.1), Option.some.injEq] at hrs
                      rw [← hrs]
                      exact okRS_removeQ rs ip hok
                · refine rel_exact_update s f _ _ (addNormalize d) gm h ?_ hwild
                    (fun n hn => by rw [hfa])
                    (fun n hn => by rw [hfq, if_neg h2]; exact alistGet_put_ne _ _ _ _ hn)
                    hfwa hfwq ?_ ?_ ?_
                  · intro n hn hne
                    rw [hroot]
                    exact trieSetData_dataAt_ne _ _ _ _ (path_ne_of_goodKey_ne n _ hn gm hne)
                  · refine ⟨?_, ?_⟩
                    · rw [hfa, hroot, trieSetData_dataAt_eq _ _ _ hfind,
                        if_neg (fun hc => h2 hc.2), dataA_some]
                      exact (h.exA (addNormalize d) gm).1.trans (by rw [htd]; rfl)
                    · rw [hfa]
                      exact (h.exA (addNormalize d) gm).2
                  · refine ⟨?_, ?_⟩
                    · rw [hfq, if_neg h2, alistGet_put_eq, hroot,
                        trieSetData_dataAt_eq _ _ _ hfind,
                        if_neg (fun hc => h2 hc.2), dataAAAA_some]
                      rfl
                    · rw [hfq, if_neg h2, alistGet_put_eq]
                      intro he
                      rw [Option.some.injEq] at he
                      exact h2 he
                  · intro rs3 hrs
                    rw [hroot, trieSetData_dataAt_eq _ _ _ hfind,
                      if_neg (fun hc => h2 hc.2), Option.some.injEq] at hrs
                    rw [← hrs]
                    exact okRS_removeQ rs ip hok
            · -- invalid address: flat untouched, trie rewrites an unchanged record set
              have hv16f : (goTo16 ip).isSome = false := by simpa using hv16
              have hinv := invalid_length ip hv4f hv16f
              have hrm : removeIP rs.AAAA ip = rs.AAAA :=
                removeIP_invalid rs.AAAA ip hok.2 hinv
              obtain ⟨hroot, hwild⟩ := trie_remove_exact_hit s d ip rs rs hw htd
                (by rw [if_neg (by simp [hv4f]), hrm])
              rw [flat_remove_invalid f d ip hv4f hv16f]
              refine rel_exact_update s f _ f (addNormalize d) gm h ?_ hwild
                (fun n hn => rfl) (fun n hn => rfl) rfl rfl ?_ ?_ ?_
              · intro n hn hne
                rw [hroot]
                exact trieSetData_dataAt_ne _ _ _ _ (path_ne_of_goodKey_ne n _ hn gm hne)
              · refine ⟨?_, (h.exA (addNormalize d) gm).2⟩
                rw [hroot, trieSetData_dataAt_eq _ _ _ hfind]
                by_cases hc : rs.A = [] ∧ rs.AAAA = []
                · rw [if_pos hc,
                    (h.exA (addNormalize d) gm).1, htd]
                  simp [dataA, rsEmpty, hc.1]
                · rw [if_neg hc, dataA_some]
                  exact (h.exA (addNormalize d) gm).1.trans (by rw [htd]; rfl)
              · refine ⟨?_, (h.exQ (addNormalize d) gm).2⟩
                rw [hroot, trieSetData_dataAt_eq _ _ _ hfind]
                by_cases hc : rs.A = [] ∧ rs.AAAA = []
                · rw [if_pos hc,
                    (h.exQ (addNormalize d) gm).1, htd]
                  simp [dataAAAA, rsEmpty, hc.2]
                · rw [if_neg hc, dataAAAA_some]
                  exact (h.exQ (addNormalize d) gm).1.trans (by rw [htd]; rfl)
              · intro rs3 hrs
                rw [hroot, trieSetData_dataAt_eq _ _ _ hfind] at hrs
                by_cases hc : rs.A = [] ∧ rs.AAAA = []
                · rw [if_pos hc] at hrs
                  exact absurd hrs (by simp)
                · rw [if_neg hc, Option.some.injEq] at hrs
                  rw [← hrs]
                  exact hok

theorem rel_new : StoreRel newStore Flat.newStore := by
  refine ⟨?_, ?_, ?_, ?_, ?_, ?_, ?_, ?_, ?_⟩
  · intro n _
    rw [show trieDataAt newStore.root (domainToPathL n) = none from trieDataAt_emptyNode _]
    exact ⟨rfl, by simp [Flat.newStore, alistGet]⟩
  · intro n _
    rw [show trieDataAt newStore.root (domainToPathL n) = none from trieDataAt_emptyNode _]
    exact ⟨rfl, by simp [Flat.newStore, alistGet]⟩
  · intro n
    exact ⟨rfl, by simp [Flat.newStore, alistGet]⟩
  · intro n
    exact ⟨rfl, by simp [Flat.newStore, alistGet]⟩
  · simp [newStore]
  · simp [Flat.newStore]
  · simp [Flat.newStore]
  · intro n rs hrs
    simp [newStore, alistGet] at hrs
  · intro n _ rs hrs
    rw [show trieDataAt newStore.root (domainToPathL n) = none from trieDataAt_emptyNode _] at hrs
    exact absurd hrs (by simp)

theorem rel_applyOp (s : DNSRecordStore) (f : Flat.Store) (op : Op) (h : StoreRel s f) :
    StoreRel (applyOp s op) (applyOpF f op) := by
  cases op with
  | add dom ip => exact rel_add s f dom ip h
  | addPtr ip dom => exact ⟨h.exA, h.exQ, h.wA, h.wQ, h.ndW, h.ndA, h.ndQ, h.vW, h.vT⟩
  | remove dom ipArg =>
      by_cases hw : containsWildL (addNormalize dom) = true
      · exact rel_remove_wild s f dom ipArg hw h
      · simp only [Bool.not_eq_true] at hw
        exact rel_remove_exact s f dom ipArg hw h
  | removePtr ip => exact ⟨h.exA, h.exQ, h.wA, h.wQ, h.ndW, h.ndA, h.ndQ, h.vW, h.vT⟩
  | clear => exact rel_new

theorem rel_foldl (ops : List Op) :
    ∀ (s : DNSRecordStore) (f : Flat.Store), StoreRel s f →
      StoreRel (ops.foldl applyOp s) (ops.foldl applyOpF f) := by
  induction ops with
  | nil =>
      intro s f h
      exact h
  | cons op rest ih =>
      intro s f h
      rw [List.foldl_cons, List.foldl_cons]
      exact ih _ _ (rel_applyOp s f op h)

theorem rel_runOps (ops : List Op) : StoreRel (runOps ops) (runOpsF ops) :=
  rel_foldl ops _ _ rel_new

/-- Contribution of one wildcard-table entry to a query answer. -/
def wSel (md : GoStr → Bool) (pr : GoStr × List IPBytes) : List IPBytes :=
  if md pr.1 then pr.2 else []

theorem filter_flatMap_snd (md : GoStr → Bool) :
    ∀ l : List (GoStr × List IPBytes),
      (l.filter (fun pr => md pr.1)).flatMap (fun pr => pr.2) = l.flatMap (wSel md) := by
  intro l
  induction l with
  | nil => rfl
  | cons a t ih =>
      by_cases hmd : md a.1 = true <;>
        simp [List.filter_cons, hmd, wSel, ih]

theorem filter_flatMap_sel (md : GoStr → Bool) (sel : RecordSet → List IPBytes) :
    ∀ l : List (GoStr × RecordSet),
      (l.filter (fun pr => md pr.1)).flatMap (fun pr => sel pr.2)
        = (l.map (fun pr => (pr.1, sel pr.2))).flatMap (wSel md) := by
  intro l
  induction l with
  | nil => rfl
  | cons a t ih =>
      by_cases hmd : md a.1 = true <;>
        simp [List.filter_cons, hmd, wSel, ih]

theorem flatMap_wSel_filter (md : GoStr → Bool) :
    ∀ l : List (GoStr × List IPBytes),
      (l.filter (fun pr => ¬ (pr.2 = []))).flatMap (wSel md) = l.flatMap (wSel md) := by
  intro l
  induction l with
  | nil => rfl
  | cons a t ih =>
      by_cases he : a.2 = []
      · have hz : wSel md a = [] := by
          cases hmd : md a.1 <;> simp [wSel, hmd, he]
        rw [List.filter_cons, if_neg (by simp [he]), ih]
        simp [hz]
      · rw [List.filter_cons, if_pos (by simp [he])]
        simp only [List.flatMap_cons]
        rw [ih]

theorem keys_map_pairSel (sel : RecordSet → List IPBytes) (l : List (GoStr × RecordSet)) :
    ((l.map (fun pr => (pr.1, sel pr.2))).map Prod.fst) = l.map Prod.fst := by
  induction l with
  | nil => rfl
  | cons a t ih => simp [ih]

theorem wild_pair_perm (sel : RecordSet → List IPBytes) (hsel : sel rsEmpty = [])
    (W : List (GoStr × RecordSet)) (FA : List (GoStr × List IPBytes))
    (ndW : (W.map Prod.fst).Nodup) (ndA : (FA.map Prod.fst).Nodup)
    (hpt : ∀ n, (alistGet FA n).getD [] = sel ((alistGet W n).getD rsEmpty) ∧
      alistGet FA n ≠ some []) :
    ((W.map (fun pr => (pr.1, sel pr.2))).filter (fun pr => ¬ (pr.2 = []))).Perm FA := by
  refine (List.perm_ext_iff_of_nodup ?_ ?_).mpr ?_
  · apply List.Nodup.filter
    apply List.Nodup.of_map Prod.fst
    rw [keys_map_pairSel]
    exact ndW
  · exact List.Nodup.of_map Prod.fst ndA
  · intro pr
    cases pr with
    | mk k v =>
        constructor
        · intro hmem
          have hmem2 := List.mem_filter.mp hmem
          obtain ⟨q2, hq, he⟩ := List.mem_map.mp hmem2.1
          cases q2 with
          | mk qk qv =>
              simp only [Prod.mk.injEq] at he
              have hW : alistGet W k = some qv :=
                (alistGet_some_iff_mem W ndW k qv).mpr (he.1 ▸ hq)
              have hvne : v ≠ [] := by
                have := hmem2.2
                simp only [decide_not, Bool.not_eq_true', decide_eq_false_iff_not] at this
                exact this
              have h1 := (hpt k).1
              rw [hW, Option.getD_some] at h1
              rw [he.2] at h1
              have hFA : alistGet FA k = some v := opt_some_of _ _ h1 hvne
              exact (alistGet_some_iff_mem FA ndA k v).mp hFA
        · intro hmem
          have hFA : alistGet FA k = some v :=
            (alistGet_some_iff_mem FA ndA k v).mpr hmem
          have hvne : v ≠ [] := fun he => (hpt k).2 (he ▸ hFA)
          have h1 := (hpt k).1
          rw [hFA, Option.getD_some] at h1
          cases hW : alistGet W k with
          | none =>
              rw [hW, Option.getD_none] at h1
              exact absurd (h1.trans hsel) hvne
          | some rs =>
              rw [hW, Option.getD_some] at h1
              apply List.mem_filter.mpr
              refine ⟨?_, by simpa using hvne⟩
              apply List.mem_map.mpr
              exact ⟨(k, rs), (alistGet_some_iff_mem W ndW k rs).mp hW,
                by rw [Prod.mk.injEq]; exact ⟨rfl, h1.symm⟩⟩

theorem wild_fold_perm (sel : RecordSet → List IPBytes) (hsel : sel rsEmpty = [])
    (md : GoStr → Bool)
    (W : List (GoStr × RecordSet)) (FA : List (GoStr × List IPBytes))
    (ndW : (W.map Prod.fst).Nodup) (ndA : (FA.map Prod.fst).Nodup)
    (hpt : ∀ n, (alistGet FA n).getD [] = sel ((alistGet W n).getD rsEmpty) ∧
      alistGet FA n ≠ some []) :
    ((W.filter (fun pr => md pr.1)).flatMap (fun pr => sel pr.2)).Perm
      (FA.foldl (fun acc pr => if md pr.1 then acc ++ pr.2 else acc) []) := by
  rw [foldl_if_append (fun pr => md pr.1) (fun pr => pr.2) FA []]
  simp only [List.nil_append]
  rw [filter_flatMap_sel md sel W, filter_flatMap_snd md FA,
    ← flatMap_wSel_filter md (W.map (fun pr => (pr.1, sel pr.2)))]
  exact (wild_pair_perm sel hsel W FA ndW ndA hpt).flatMap_right (wSel md)

theorem wild_exists_iff (sel : RecordSet → List IPBytes) (hsel : sel rsEmpty = [])
    (md : GoStr → Bool)
    (W : List (GoStr × RecordSet)) (FA : List (GoStr × List IPBytes))
    (ndW : (W.map Prod.fst).Nodup) (ndA : (FA.map Prod.fst).Nodup)
    (hpt : ∀ n, (alistGet FA n).getD [] = sel ((alistGet W n).getD rsEmpty) ∧
      alistGet FA n ≠ some []) :
    (∃ pr ∈ W, md pr.1 = true ∧ ¬ (sel pr.2 = [])) ↔ (∃ pr ∈ FA, md pr.1 = true) := by
  constructor
  · rintro ⟨⟨k, rs⟩, hmem, hmd, hne⟩
    have hW : alistGet W k = some rs := (alistGet_some_iff_mem W ndW k rs).mpr hmem
    have h1 := (hpt k).1
    rw [hW, Option.getD_some] at h1
    have hFA : alistGet FA k = some (sel rs) := opt_some_of _ _ h1 hne
    exact ⟨(k, sel rs), (alistGet_some_iff_mem FA ndA k (sel rs)).mp hFA, hmd⟩
  · rintro ⟨⟨k, v⟩, hmem, hmd⟩
    have hFA : alistGet FA k = some v := (alistGet_some_iff_mem FA ndA k v).mpr hmem
    have hvne : v ≠ [] := fun he => (hpt k).2 (he ▸ hFA)
    have h1 := (hpt k).1
    rw [hFA, Option.getD_some] at h1
    cases hW : alistGet W k with
    | none =>
        rw [hW, Option.getD_none] at h1
        exact absurd (h1.trans hsel) hvne
    | some rs =>
        rw [hW, Option.getD_some] at h1
        refine ⟨(k, rs), (alistGet_some_iff_mem W ndW k rs).mp hW, hmd, ?_⟩
        rw [← h1]
        exact hvne

theorem bool_eq_of_iff (a b : Bool) (h : a = true ↔ b = true) : a = b := by
  cases a <;> cases b <;> simp_all

theorem qtypeList_A (rs : RecordSet) : qtypeList typeA rs = rs.A := by
  unfold qtypeList
  rw [if_pos rfl]

theorem qtypeList_AAAA (rs : RecordSet) : qtypeList typeAAAA rs = rs.AAAA := by
  unfold qtypeList
  rw [if_neg (by decide), if_pos rfl]

theorem exactRecords_A (s : DNSRecordStore) (q : GoStr) :
    exactRecords s q typeA = dataA (trieDataAt s.root (domainToPathL (queryNormalize q))) := by
  unfold exactRecords
  cases htd : trieDataAt s.root (domainToPathL (queryNormalize q)) <;>
    simp [htd, qtypeList_A, dataA, rsEmpty]

theorem exactRecords_AAAA (s : DNSRecordStore) (q : GoStr) :
    exactRecords s q typeAAAA
      = dataAAAA (trieDataAt s.root (domainToPathL (queryNormalize q))) := by
  unfold exactRecords
  cases htd : trieDataAt s.root (domainToPathL (queryNormalize q)) <;>
    simp [htd, qtypeList_AAAA, dataAAAA, rsEmpty]

theorem flat_getRecords_A (f : Flat.Store) (q : GoStr) :
    Flat.getRecords f q typeA
      = (match alistGet f.aRecords (queryNormalize q) with
         | some ips => ips
         | none => f.aWildcards.foldl
             (fun acc pr => if matchWildcardL pr.1 (queryNormalize q) then acc ++ pr.2
              else acc) []) := by
  unfold Flat.getRecords
  rw [if_pos rfl]

theorem flat_getRecords_AAAA (f : Flat.Store) (q : GoStr) :
    Flat.getRecords f q typeAAAA
      = (match alistGet f.aaaaRecords (queryNormalize q) with
         | some ips => ips
         | none => f.aaaaWildcards.foldl
             (fun acc pr => if matchWildcardL pr.1 (queryNormalize q) then acc ++ pr.2
              else acc) []) := by
  unfold Flat.getRecords
  rw [if_neg (by decide), if_pos rfl]

theorem flat_hasRecord_A (f : Flat.Store) (q : GoStr) :
    Flat.hasRecord f q typeA
      = ((alistGet f.aRecords (queryNormalize q)).isSome ||
          f.aWildcards.any (fun pr => matchWildcardL pr.1 (queryNormalize q))) := by
  unfold Flat.hasRecord
  rw [if_pos rfl]

theorem flat_hasRecord_AAAA (f : Flat.Store) (q : GoStr) :
    Flat.hasRecord f q typeAAAA
      = ((alistGet f.aaaaRecords (queryNormalize q)).isSome ||
          f.aaaaWildcards.any (fun pr => matchWildcardL pr.1 (queryNormalize q))) := by
  unfold Flat.hasRecord
  rw [if_neg (by decide), if_pos rfl]

theorem observers_agree_A (s : DNSRecordStore) (f : Flat.Store) (h : StoreRel s f)
    (q : GoStr) (gq : goodKey (queryNormalize q)) :
    hasRecord s q typeA = Flat.hasRecord f q typeA ∧
    (getRecords s q typeA).Perm (Flat.getRecords f q typeA) := by
  have hptA : ∀ n, (alistGet f.aWildcards n).getD []
      = (fun rs : RecordSet => rs.A) ((alistGet s.wildcards n).getD rsEmpty) ∧
      alistGet f.aWildcards n ≠ some [] := fun n => ⟨(h.wA n).1, (h.wA n).2⟩
  obtain ⟨hvA, hneA⟩ := h.exA (queryNormalize q) gq
  have hex : exactRecords s q typeA ≠ [] ↔
      (alistGet f.aRecords (queryNormalize q)).isSome = true := by
    rw [exactRecords_A, ← hvA]
    cases hg : alistGet f.aRecords (queryNormalize q) with
    | some ips =>
        have hips : ips ≠ [] := fun he => hneA (by rw [hg, he])
        simp [hips]
    | none => simp
  have hwild := wild_exists_iff (fun rs : RecordSet => rs.A) rfl
    (fun k => matchWildcardL k (queryNormalize q)) s.wildcards f.aWildcards
    h.ndW h.ndA hptA
  constructor
  · apply bool_eq_of_iff
    rw [hasRecord_eq s q typeA (Or.inl rfl), flat_hasRecord_A]
    simp only [Bool.or_eq_true, List.any_eq_true]
    constructor
    · rintro (h1 | ⟨pr, hpr, hm, hne⟩)
      · exact Or.inl (hex.mp h1)
      · exact Or.inr (hwild.mp ⟨pr, hpr, hm, by simpa [qtypeList_A] using hne⟩)
    · rintro (h1 | h1)
      · exact Or.inl (hex.mpr h1)
      · obtain ⟨pr, hpr, hm, hne⟩ := hwild.mpr h1
        exact Or.inr ⟨pr, hpr, hm, by simpa [qtypeList_A] using hne⟩
  · rw [getRecords_eq s q typeA (Or.inl rfl), flat_getRecords_A]
    cases hg : alistGet f.aRecords (queryNormalize q) with
    | some ips =>
        have hips : ips ≠ [] := fun he => hneA (by rw [hg, he])
        have hda : exactRecords s q typeA = ips := by
          rw [exactRecords_A, ← hvA, hg, Option.getD_some]
        rw [hda, if_neg hips]
    | none =>
        have hda : exactRecords s q typeA = [] := by
          rw [exactRecords_A, ← hvA, hg, Option.getD_none]
        rw [hda, if_pos rfl]
        unfold wildcardRecords
        have hfn : (fun pr : GoStr × RecordSet => qtypeList typeA pr.2)
            = fun pr : GoStr × RecordSet => pr.2.A := funext (fun pr => qtypeList_A pr.2)
        rw [hfn]
        exact wild_fold_perm (fun rs : RecordSet => rs.A) rfl
          (fun k => matchWildcardL k (queryNormalize q)) s.wildcards f.aWildcards
          h.ndW h.ndA hptA

theorem observers_agree_AAAA (s : DNSRecordStore) (f : Flat.Store) (h : StoreRel s f)
    (q : GoStr) (gq : goodKey (queryNormalize q)) :
    hasRecord s q typeAAAA = Flat.hasRecord f q typeAAAA ∧
    (getRecords s q typeAAAA).Perm (Flat.getRecords f q typeAAAA) := by
  have hptQ : ∀ n, (alistGet f.aaaaWildcards n).getD []
      = (fun rs : RecordSet => rs.AAAA) ((alistGet s.wildcards n).getD rsEmpty) ∧
      alistGet f.aaaaWildcards n ≠ some [] := fun n => ⟨(h.wQ n).1, (h.wQ n).2⟩
  obtain ⟨hvQ, hneQ⟩ := h.exQ (queryNormalize q) gq
  have hex : exactRecords s q typeAAAA ≠ [] ↔
      (alistGet f.aaaaRecords (queryNormalize q)).isSome = true := by
    rw [exactRecords_AAAA, ← hvQ]
    cases hg : alistGet f.aaaaRecords (queryNormalize q) with
    | some ips =>
        have hips : ips ≠ [] := fun he => hneQ (by rw [hg, he])
        simp [hips]
    | none => simp
  have hwild := wild_exists_iff (fun rs : RecordSet => rs.AAAA) rfl
    (fun k => matchWildcardL k (queryNormalize q)) s.wildcards f.aaaaWildcards
    h.ndW h.ndQ hptQ
  constructor
  · apply bool_eq_of_iff
    rw [hasRecord_eq s q typeAAAA (Or.inr rfl), flat_hasRecord_AAAA]
    simp only [Bool.or_eq_true, List.any_eq_true]
    constructor
    · rintro (h1 | ⟨pr, hpr, hm, hne⟩)
      · exact Or.inl (hex.mp h1)
      · exact Or.inr (hwild.mp ⟨pr, hpr, hm, by simpa [qtypeList_AAAA] using hne⟩)
    · rintro (h1 | h1)
      · exact Or.inl (hex.mpr h1)
      · obtain ⟨pr, hpr, hm, hne⟩ := hwild.mpr h1
        exact Or.inr ⟨pr, hpr, hm, by simpa [qtypeList_AAAA] using hne⟩
  · rw [getRecords_eq s q typeAAAA (Or.inr rfl), flat_getRecords_AAAA]
    cases hg : alistGet f.aaaaRecords (queryNormalize q) with
    | some ips =>
        have hips : ips ≠ [] := fun he => hneQ (by rw [hg, he])
        have hda : exactRecords s q typeAAAA = ips := by
          rw [exactRecords_AAAA, ← hvQ, hg, Option.getD_some]
        rw [hda, if_neg hips]
    | none =>
        have hda : exactRecords s q typeAAAA = [] := by
          rw [exactRecords_AAAA, ← hvQ, hg, Option.getD_none]
        rw [hda, if_pos rfl]
        unfold wildcardRecords
        have hfn : (fun pr : GoStr × RecordSet => qtypeList typeAAAA pr.2)
            = fun pr : GoStr × RecordSet => pr.2.AAAA := funext (fun pr => qtypeList_AAAA pr.2)
        rw [hfn]
        exact wild_fold_perm (fun rs : RecordSet => rs.AAAA) rfl
          (fun k => matchWildcardL k (queryNormalize q)) s.wildcards f.aaaaWildcards
          h.ndW h.ndQ hptQ

/-- Call sequence on which the two stores' PTR observers diverge: an
AAAA-only domain, a manual PTR entry for an IPv4 address, then
`RemoveRecord` of that IPv4 address for the same domain. -/
def trace4 : List Op :=
  [Op.add (gs "d.") ip6a, Op.addPtr ipA1 (gs "d."), Op.remove (gs "d.") (some ipA1)]

/-- C4 counterexample: the trie store deletes the PTR entry (its RemoveRecord
applies the guarded PTR deletion whenever the domain's trie node exists, even
though the node has no A record for the given IPv4 address), while the flat
store leaves it in place (its RemoveRecord exits without touching the PTR map
when the per-family record map misses). The observer `HasPTRRecord` therefore
differs, refuting observational equivalence. -/
theorem store_equivalence_counterexample :
    hasPTRRecord (runOps trace4) (IPToReverseDNS ipA1) = false ∧
    Flat.hasPTRRecord (runOpsF trace4) (IPToReverseDNS ipA1) = true := by
  constructor
  · decide
  · decide

/-- C4 (amended): for every call sequence, the trie-based store of
dns_records.go and the flat-map store of unnamed/part_002 agree on the record
observers: `HasRecord` answers identically, and `GetRecords` answers the same
multiset of addresses (equal up to permutation; the wildcard tables are Go
maps, so no cross-entry order is promised), for every query type in {A, AAAA}
and every query name without backslash escapes. The PTR observers
`GetPTRRecord`/`HasPTRRecord` are excluded: `store_equivalence_counterexample`
shows they genuinely diverge after RemoveRecord with a non-nil address. -/
theorem stores_agree_on_record_observers (ops : List Op) (q : GoStr) (rt : Nat)
    (hq : ∀ c ∈ q, c ≠ '\\') (hrt : rt = typeA ∨ rt = typeAAAA) :
    hasRecord (runOps ops) q rt = Flat.hasRecord (runOpsF ops) q rt ∧
    (getRecords (runOps ops) q rt).Perm (Flat.getRecords (runOpsF ops) q rt) := by
  have R := rel_runOps ops
  have gq := goodKey_queryNormalize q hq
  rcases hrt with hrt | hrt <;> subst hrt
  · exact observers_agree_A _ _ R q gq
  · exact observers_agree_AAAA _ _ R q gq

theorem stores_agree_on_record_observers_witness :
    (∀ c ∈ gs "x.ac.", c ≠ '\\') ∧ (typeA = typeA ∨ typeA = typeAAAA) ∧
    (hasRecord (runOps [Op.add (gs "*.ac.") ip6a, Op.add (gs "*.ac.") ipA1]) (gs "x.ac.") typeA
        = Flat.hasRecord (runOpsF [Op.add (gs "*.ac.") ip6a, Op.add (gs "*.ac.") ipA1])
            (gs "x.ac.") typeA ∧
      (getRecords (runOps [Op.add (gs "*.ac.") ip6a, Op.add (gs "*.ac.") ipA1])
          (gs "x.ac.") typeA).Perm
        (Flat.getRecords (runOpsF [Op.add (gs "*.ac.") ip6a, Op.add (gs "*.ac.") ipA1])
          (gs "x.ac.") typeA)) :=
  ⟨by decide, Or.inl rfl,
   stores_agree_on_record_observers [Op.add (gs "*.ac.") ip6a, Op.add (gs "*.ac.") ipA1]
     (gs "x.ac.") typeA (by decide) (Or.inl rfl)⟩
